import Mathlib

/-!
# Light House: plan catalog and monthly usage ledger

A shallow embedding of `internal/models/plan.go`, `internal/models/monthly_usage.go`,
`internal/billing/usage.go`, `internal/models/user.go` and the member handlers of
`internal/handlers/member.go`, followed by the properties proved about them.

Conventions of the embedding.

* Go `int`, `int64` are `Int`; Go `uint` is `Nat`.  The only arithmetic the code
  performs on a stored value is the SQL expression `column + delta`, evaluated by
  the database on a `bigint` column; the store model rejects a result outside the
  signed 64-bit range, as PostgreSQL (the configured database) does.
* The database is an explicit value `DB` passed through every call.  Each SQL
  statement is one atomic step that either takes effect or fails with an error
  and has no effect.  Which statements fail is an input of every call
  (`Faults`): statement number `k` of a call fails with `e` when `faults k = some e`.
* `time.Now().UTC()` is an input of every call that reads the clock.
* Calls running at the same time are interleavings of their statements on one shared
  store (section "Concurrent callers").
-/

namespace LightHouse

/-! ## internal/models/plan.go -/

/-- Go `type Plan string`. -/
abbrev Plan := String

def PlanFree : Plan := "free"
def PlanIndiePro : Plan := "indie_pro"
def PlanTeam : Plan := "team"
def PlanAgency : Plan := "agency"

/-- Method `Plan.IsValid`: the four-way `switch`. -/
def Plan.IsValid (p : Plan) : Bool :=
  if p = PlanFree ∨ p = PlanIndiePro ∨ p = PlanTeam ∨ p = PlanAgency then true else false

/-- Method `Plan.IsPaid`. -/
def Plan.IsPaid (p : Plan) : Bool :=
  p != PlanFree

/-- Entitlements of one plan tier (`-1` in a limit field means unlimited). -/
structure PlanConfig where
  Name : String
  MaxChecks : Int
  CheckIntervalMinSeconds : Int
  LogRetentionDays : Int
  LogVolumeBytesPerMonth : Int
  MaxStatusPages : Int
  MaxAPIKeys : Int
  AuditLogRetentionDays : Int
  AILevel1Limit : Int
  AILevel2Limit : Int
  AILevel3Limit : Int
  StripePriceID : String
  MonthlyPriceCents : Int
deriving DecidableEq, Repr

/-- The Go zero value of `PlanConfig`, which indexing a map yields for an absent key. -/
def PlanConfig.zero : PlanConfig :=
  { Name := "", MaxChecks := 0, CheckIntervalMinSeconds := 0, LogRetentionDays := 0,
    LogVolumeBytesPerMonth := 0, MaxStatusPages := 0, MaxAPIKeys := 0,
    AuditLogRetentionDays := 0, AILevel1Limit := 0, AILevel2Limit := 0, AILevel3Limit := 0,
    StripePriceID := "", MonthlyPriceCents := 0 }

/-- The map literal `PlanConfigs`, entries in source order. -/
def PlanConfigs : List (Plan × PlanConfig) :=
  [ (PlanFree,
      { Name := "Free", MaxChecks := 10, CheckIntervalMinSeconds := 300,
        LogRetentionDays := 7, LogVolumeBytesPerMonth := 500 * 1024 * 1024,
        MaxStatusPages := 0, MaxAPIKeys := 2, AuditLogRetentionDays := 0,
        AILevel1Limit := 1, AILevel2Limit := 0, AILevel3Limit := 0,
        StripePriceID := "", MonthlyPriceCents := 0 }),
    (PlanIndiePro,
      { Name := "Indie Pro", MaxChecks := 25, CheckIntervalMinSeconds := 60,
        LogRetentionDays := 30, LogVolumeBytesPerMonth := 5 * 1024 * 1024 * 1024,
        MaxStatusPages := 1, MaxAPIKeys := 10, AuditLogRetentionDays := 7,
        AILevel1Limit := -1, AILevel2Limit := 30, AILevel3Limit := 0,
        StripePriceID := "", MonthlyPriceCents := 1900 }),
    (PlanTeam,
      { Name := "Team", MaxChecks := 75, CheckIntervalMinSeconds := 30,
        LogRetentionDays := 90, LogVolumeBytesPerMonth := 20 * 1024 * 1024 * 1024,
        MaxStatusPages := 3, MaxAPIKeys := 25, AuditLogRetentionDays := 30,
        AILevel1Limit := -1, AILevel2Limit := -1, AILevel3Limit := 30,
        StripePriceID := "", MonthlyPriceCents := 4900 }),
    (PlanAgency,
      { Name := "Agency", MaxChecks := 250, CheckIntervalMinSeconds := 30,
        LogRetentionDays := 180, LogVolumeBytesPerMonth := 50 * 1024 * 1024 * 1024,
        MaxStatusPages := -1, MaxAPIKeys := -1, AuditLogRetentionDays := 365,
        AILevel1Limit := -1, AILevel2Limit := -1, AILevel3Limit := -1,
        StripePriceID := "", MonthlyPriceCents := 14900 }) ]

/-- The comma-ok map read `config, ok := PlanConfigs[plan]`. -/
def PlanConfigs.get? (plan : Plan) : Option PlanConfig :=
  PlanConfigs.lookup plan

/-- The plain map read `PlanConfigs[plan]`: the zero value when the key is absent. -/
def PlanConfigs.index (plan : Plan) : PlanConfig :=
  (PlanConfigs.get? plan).getD PlanConfig.zero

/-- The keys of the catalog. -/
def PlanConfigs.keys : List Plan :=
  PlanConfigs.map Prod.fst

/-- Function `GetPlanConfig`. -/
def GetPlanConfig (plan : Plan) : PlanConfig :=
  match PlanConfigs.get? plan with
  | some config => config
  | none => PlanConfigs.index PlanFree

/-- Modelled from the spec: the `Organization` model is not among the sources; the
spec gives every organization exactly one `Plan`, which is the only field the
catalog reads (`org.Plan`). -/
structure Organization where
  ID : Nat
  Plan : Plan
deriving DecidableEq, Repr

/-- Function `GetOrgPlanConfig`; the pointer argument is `none` for `nil`. -/
def GetOrgPlanConfig (org : Option Organization) : PlanConfig :=
  match org with
  | none => PlanConfigs.index PlanFree
  | some o =>
    if !o.Plan.IsValid then PlanConfigs.index PlanFree
    else GetPlanConfig o.Plan

/-! ## The clock -/

/-- Go `time.Month`: the named constants `January = 1` to `December = 12`. -/
inductive Month where
  | January | February | March | April | May | June
  | July | August | September | October | November | December
deriving DecidableEq, Repr

/-- The conversion `int(m)` of a `time.Month`. -/
def Month.toInt : Month → Int
  | .January => 1
  | .February => 2
  | .March => 3
  | .April => 4
  | .May => 5
  | .June => 6
  | .July => 7
  | .August => 8
  | .September => 9
  | .October => 10
  | .November => 11
  | .December => 12

/-- A reading of `time.Now().UTC()`: the UTC calendar year and month of the instant,
and the position of the instant inside that month. -/
structure Time where
  year : Int
  month : Month
  nsec : Nat
deriving DecidableEq, Repr

/-- Method `Time.Year`. -/
def Time.Year (t : Time) : Int := t.year

/-- Method `Time.Month`. -/
def Time.Month (t : Time) : Month := t.month

/-! ## internal/models/monthly_usage.go -/

/-- The ledger row `MonthlyUsage`.  `CreatedAt` and `UpdatedAt` are bookkeeping
columns written by the object-relational mapper from its own clock and read by no
function of the package; the row model keeps the primary key, the composite key and
the seven counters. -/
structure MonthlyUsage where
  ID : Nat
  OrgID : Nat
  Year : Int
  Month : Int
  LogVolumeBytes : Int
  CheckCount : Int
  StatusPageCount : Int
  APIKeyCount : Int
  AILevel1Calls : Int
  AILevel2Calls : Int
  AILevel3Calls : Int
deriving DecidableEq, Repr

/-- The point-in-time view `UsageSnapshot`. -/
structure UsageSnapshot where
  CheckCount : Int
  LogVolumeBytes : Int
  StatusPageCount : Int
  APIKeyCount : Int
  AILevel1Calls : Int
  AILevel2Calls : Int
  AILevel3Calls : Int
deriving DecidableEq, Repr

/-- The composite literal `models.UsageSnapshot{}`. -/
def UsageSnapshot.zero : UsageSnapshot :=
  { CheckCount := 0, LogVolumeBytes := 0, StatusPageCount := 0, APIKeyCount := 0,
    AILevel1Calls := 0, AILevel2Calls := 0, AILevel3Calls := 0 }

/-- Method `MonthlyUsage.ToSnapshot`. -/
def MonthlyUsage.ToSnapshot (m : MonthlyUsage) : UsageSnapshot :=
  { CheckCount := m.CheckCount,
    LogVolumeBytes := m.LogVolumeBytes,
    StatusPageCount := m.StatusPageCount,
    APIKeyCount := m.APIKeyCount,
    AILevel1Calls := m.AILevel1Calls,
    AILevel2Calls := m.AILevel2Calls,
    AILevel3Calls := m.AILevel3Calls }

/-! ## The store -/

/-- Modelled from the spec: the `Check` model is not among the sources; the queries
of the billing package read its `org_id` and `deleted_at` columns, and the spec counts
the non-deleted check resources of an organization. -/
structure Check where
  ID : Nat
  OrgID : Nat
  DeletedAt : Option Time
deriving DecidableEq, Repr

/-- The `APIKey` model of `internal/models/api_key.go`, with the columns that decide
which rows a count sees: the owning organization and the soft-delete mark
`DeletedAt gorm.DeletedAt`. -/
structure APIKey where
  ID : Nat
  OrgID : Nat
  DeletedAt : Option Time
deriving DecidableEq, Repr

/-- The tables the billing package touches. -/
structure DB where
  monthlyUsages : List MonthlyUsage
  checks : List Check
  apiKeys : List APIKey
deriving DecidableEq, Repr

/-- Errors a storage statement can return. -/
inductive DBError where
  | ErrRecordNotFound
  | NumericValueOutOfRange
  | other (code : Nat)
deriving DecidableEq, Repr

/-- Which statements of a call fail: statement `k` fails with `e` when the value at
`k` is `some e`. -/
abbrev Faults := Nat → Option DBError

/-- Every statement succeeds. -/
def Faults.none : Faults := fun _ => Option.none

/-- The faults seen by a callee that starts at statement `n` of its caller. -/
def Faults.shift (n : Nat) (faults : Faults) : Faults := fun k => faults (k + n)

/-- What a call hands back: the Go result value, the Go `error` (`none` for `nil`),
and the store after the call. -/
structure Result (α : Type) where
  val : α
  err : Option DBError
  db : DB

/-- The counter columns of `monthly_usages`. -/
inductive Column where
  | log_volume_bytes
  | check_count
  | status_page_count
  | api_key_count
  | ai_level1_calls
  | ai_level2_calls
  | ai_level3_calls
deriving DecidableEq, Repr

/-- Read a counter column of a row. -/
def MonthlyUsage.get (r : MonthlyUsage) : Column → Int
  | .log_volume_bytes => r.LogVolumeBytes
  | .check_count => r.CheckCount
  | .status_page_count => r.StatusPageCount
  | .api_key_count => r.APIKeyCount
  | .ai_level1_calls => r.AILevel1Calls
  | .ai_level2_calls => r.AILevel2Calls
  | .ai_level3_calls => r.AILevel3Calls

/-- Write a counter column of a row. -/
def MonthlyUsage.set (r : MonthlyUsage) (c : Column) (v : Int) : MonthlyUsage :=
  match c with
  | .log_volume_bytes => { r with LogVolumeBytes := v }
  | .check_count => { r with CheckCount := v }
  | .status_page_count => { r with StatusPageCount := v }
  | .api_key_count => { r with APIKeyCount := v }
  | .ai_level1_calls => { r with AILevel1Calls := v }
  | .ai_level2_calls => { r with AILevel2Calls := v }
  | .ai_level3_calls => { r with AILevel3Calls := v }

/-- The range of a `bigint` column. -/
def inInt64 (v : Int) : Bool :=
  decide (-(2 : Int) ^ 63 ≤ v) && decide (v < (2 : Int) ^ 63)

/-- The condition `org_id = ? AND year = ? AND month = ?`. -/
def MonthlyUsage.hasKey (r : MonthlyUsage) (orgID : Nat) (year month : Int) : Bool :=
  decide (r.OrgID = orgID) && decide (r.Year = year) && decide (r.Month = month)

/-- The next value of the serial primary key of `monthly_usages`. -/
def DB.nextUsageID (db : DB) : Nat :=
  (db.monthlyUsages.map (fun r => r.ID)).foldr max 0 + 1

/-- The statement `INSERT ... ON CONFLICT (org_id, year, month) DO NOTHING` built by
`db.Clauses(clause.OnConflict{...DoNothing: true}).Create(usage)`: when the unique
index `idx_usage_org_month` already holds the key nothing happens, otherwise the row
is appended under a fresh primary key. -/
def DB.createOnConflictDoNothing (db : DB) (usage : MonthlyUsage) : DB :=
  if db.monthlyUsages.any (fun r => r.hasKey usage.OrgID usage.Year usage.Month) then db
  else { db with monthlyUsages := db.monthlyUsages ++ [{ usage with ID := db.nextUsageID }] }

/-- The query `Where("org_id = ? AND year = ? AND month = ?", ...).First(usage)`.  The
unique index leaves at most one matching row, so the `ORDER BY id LIMIT 1` of `First`
has nothing to choose between. -/
def DB.firstByKey (db : DB) (orgID : Nat) (year month : Int) : Option MonthlyUsage :=
  db.monthlyUsages.find? (fun r => r.hasKey orgID year month)

/-- The query `First(usage, id)`: the row with that primary key. -/
def DB.firstByID (db : DB) (id : Nat) : Option MonthlyUsage :=
  db.monthlyUsages.find? (fun r => decide (r.ID = id))

/-- The statement `UPDATE monthly_usages SET c = c + d WHERE id = ?` built by
`db.Model(usage).Update(c, gorm.Expr("c + ?", d))`.  The sum is computed by the
database on the stored value; a sum outside `bigint` makes the statement fail and
leaves the table as it was. -/
def DB.updateAdd (db : DB) (id : Nat) (c : Column) (d : Int) : Except DBError DB :=
  if db.monthlyUsages.any (fun r => decide (r.ID = id) && !inInt64 (r.get c + d)) then
    .error DBError.NumericValueOutOfRange
  else
    .ok { db with monthlyUsages :=
            db.monthlyUsages.map (fun r => if r.ID = id then r.set c (r.get c + d) else r) }

/-- The statement `UPDATE monthly_usages SET check_count = ?, api_key_count = ? WHERE id = ?`
built by `db.Model(usage).Updates(map[string]interface{}{...})`; with a map argument
every listed column is written, a zero value included. -/
def DB.updateCounts (db : DB) (id : Nat) (checkCount apiKeyCount : Int) : DB :=
  { db with monthlyUsages :=
      db.monthlyUsages.map (fun r =>
        if r.ID = id then { r with CheckCount := checkCount, APIKeyCount := apiKeyCount } else r) }

/-- The query `db.Model(&models.Check{}).Where("org_id = ? AND deleted_at IS NULL", orgID).Count`. -/
def DB.countChecks (db : DB) (orgID : Nat) : Int :=
  ((db.checks.filter (fun c => decide (c.OrgID = orgID) && c.DeletedAt.isNone)).length : Int)

/-- The query `db.Model(&models.APIKey{}).Where("org_id = ?", orgID).Count`.  `APIKey`
carries a `gorm.DeletedAt` field, so the mapper adds `deleted_at IS NULL` to every
query on the model. -/
def DB.countAPIKeys (db : DB) (orgID : Nat) : Int :=
  ((db.apiKeys.filter (fun k => decide (k.OrgID = orgID) && k.DeletedAt.isNone)).length : Int)

/-! ## internal/billing/usage.go -/

/-- Function `GetOrCreateMonthlyUsage`.  Statement 0 is the insert, statement 1 the
re-read. -/
def GetOrCreateMonthlyUsage (db : DB) (faults : Faults) (now : Time) (orgID : Nat) :
    Result (Option MonthlyUsage) :=
  let year := now.Year
  let month := now.Month.toInt
  let usage : MonthlyUsage :=
    { ID := 0, OrgID := orgID, Year := year, Month := month, LogVolumeBytes := 0,
      CheckCount := 0, StatusPageCount := 0, APIKeyCount := 0,
      AILevel1Calls := 0, AILevel2Calls := 0, AILevel3Calls := 0 }
  match faults 0 with
  | some err => { val := none, err := some err, db := db }
  | none =>
    let db1 := db.createOnConflictDoNothing usage
    match faults 1 with
    | some err => { val := none, err := some err, db := db1 }
    | none =>
      match db1.firstByKey orgID year month with
      | none => { val := none, err := some DBError.ErrRecordNotFound, db := db1 }
      | some found => { val := some found, err := none, db := db1 }

/-- Function `GetUsageSnapshot`.  Statement 0 counts the checks, statement 1 the API
keys, statements 2 and 3 are those of `GetOrCreateMonthlyUsage`. -/
def GetUsageSnapshot (db : DB) (faults : Faults) (now : Time) (orgID : Nat) :
    Result UsageSnapshot :=
  let snapshot := UsageSnapshot.zero
  match faults 0 with
  | some err => { val := snapshot, err := some err, db := db }
  | none =>
    let checkCount := db.countChecks orgID
    let snapshot := { snapshot with CheckCount := checkCount }
    match faults 1 with
    | some err => { val := snapshot, err := some err, db := db }
    | none =>
      let apiKeyCount := db.countAPIKeys orgID
      let snapshot := { snapshot with APIKeyCount := apiKeyCount }
      let r := GetOrCreateMonthlyUsage db (faults.shift 2) now orgID
      match r.val, r.err with
      | some monthlyUsage, none =>
        { val := { snapshot with
                    LogVolumeBytes := monthlyUsage.LogVolumeBytes,
                    AILevel1Calls := monthlyUsage.AILevel1Calls,
                    AILevel2Calls := monthlyUsage.AILevel2Calls,
                    AILevel3Calls := monthlyUsage.AILevel3Calls,
                    StatusPageCount := monthlyUsage.StatusPageCount },
          err := none, db := r.db }
      | _, err => { val := snapshot, err := err, db := r.db }

/-- Function `IncrementLogVolume`.  Statements 0 and 1 are those of
`GetOrCreateMonthlyUsage`, statement 2 is the atomic add, statement 3 the re-read. -/
def IncrementLogVolume (db : DB) (faults : Faults) (now : Time) (orgID : Nat) (bytes : Int) :
    Result Int :=
  let r := GetOrCreateMonthlyUsage db faults now orgID
  match r.val, r.err with
  | some usage, none =>
    match faults 2 with
    | some err => { val := 0, err := some err, db := r.db }
    | none =>
      match r.db.updateAdd usage.ID Column.log_volume_bytes bytes with
      | .error err => { val := 0, err := some err, db := r.db }
      | .ok db2 =>
        match faults 3 with
        | some err => { val := 0, err := some err, db := db2 }
        | none =>
          match db2.firstByID usage.ID with
          | none => { val := 0, err := some DBError.ErrRecordNotFound, db := db2 }
          | some updated => { val := updated.LogVolumeBytes, err := none, db := db2 }
  | _, err => { val := 0, err := err, db := r.db }

/-- The `Update(column, gorm.Expr(column+" + 1"))` of `IncrementAICalls`: statement 2
of the call. -/
def incrementColumn (db : DB) (faults : Faults) (id : Nat) (column : Column) : Result Unit :=
  match faults 2 with
  | some err => { val := (), err := some err, db := db }
  | none =>
    match db.updateAdd id column 1 with
    | .error err => { val := (), err := some err, db := db }
    | .ok db2 => { val := (), err := none, db := db2 }

/-- Function `IncrementAICalls`.  Statements 0 and 1 are those of
`GetOrCreateMonthlyUsage`; the `switch` on `level` comes after them. -/
def IncrementAICalls (db : DB) (faults : Faults) (now : Time) (orgID : Nat) (level : Int) :
    Result Unit :=
  let r := GetOrCreateMonthlyUsage db faults now orgID
  match r.val, r.err with
  | some usage, none =>
    if level = 1 then incrementColumn r.db faults usage.ID Column.ai_level1_calls
    else if level = 2 then incrementColumn r.db faults usage.ID Column.ai_level2_calls
    else if level = 3 then incrementColumn r.db faults usage.ID Column.ai_level3_calls
    else { val := (), err := none, db := r.db }
  | _, err => { val := (), err := err, db := r.db }

/-- Function `SyncResourceCounts`.  Statements 0 and 1 are those of
`GetOrCreateMonthlyUsage`, statement 2 counts the checks, statement 3 the API keys,
statement 4 is the two-column update. -/
def SyncResourceCounts (db : DB) (faults : Faults) (now : Time) (orgID : Nat) : Result Unit :=
  let r := GetOrCreateMonthlyUsage db faults now orgID
  match r.val, r.err with
  | some usage, none =>
    match faults 2 with
    | some err => { val := (), err := some err, db := r.db }
    | none =>
      let checkCount := r.db.countChecks orgID
      match faults 3 with
      | some err => { val := (), err := some err, db := r.db }
      | none =>
        let apiKeyCount := r.db.countAPIKeys orgID
        match faults 4 with
        | some err => { val := (), err := some err, db := r.db }
        | none => { val := (), err := none, db := r.db.updateCounts usage.ID checkCount apiKeyCount }
  | _, err => { val := (), err := err, db := r.db }

/-- Function `GetCurrentCheckCount`: one statement; a failed count leaves `count` at 0. -/
def GetCurrentCheckCount (db : DB) (faults : Faults) (orgID : Nat) : Result Int :=
  match faults 0 with
  | some err => { val := 0, err := some err, db := db }
  | none => { val := db.countChecks orgID, err := none, db := db }

/-- Function `GetCurrentAPIKeyCount`: one statement; a failed count leaves `count` at 0. -/
def GetCurrentAPIKeyCount (db : DB) (faults : Faults) (orgID : Nat) : Result Int :=
  match faults 0 with
  | some err => { val := 0, err := some err, db := db }
  | none => { val := db.countAPIKeys orgID, err := none, db := db }

/-- Function `GetCurrentLogVolume`. -/
def GetCurrentLogVolume (db : DB) (faults : Faults) (now : Time) (orgID : Nat) : Result Int :=
  let r := GetOrCreateMonthlyUsage db faults now orgID
  match r.val, r.err with
  | some usage, none => { val := usage.LogVolumeBytes, err := none, db := r.db }
  | _, err => { val := 0, err := err, db := r.db }

/-! ## Histories of the ledger -/

/-- One event in the life of the store: a call of the billing package with its
inputs, or a change of the check and API-key tables made by the rest of the system. -/
inductive Call where
  | getOrCreateMonthlyUsage (faults : Faults) (now : Time) (orgID : Nat)
  | incrementLogVolume (faults : Faults) (now : Time) (orgID : Nat) (bytes : Int)
  | incrementAICalls (faults : Faults) (now : Time) (orgID : Nat) (level : Int)
  | syncResourceCounts (faults : Faults) (now : Time) (orgID : Nat)
  | getUsageSnapshot (faults : Faults) (now : Time) (orgID : Nat)
  | getCurrentLogVolume (faults : Faults) (now : Time) (orgID : Nat)
  | setResources (checks : List Check) (apiKeys : List APIKey)

/-- The store after one event. -/
def Call.apply (db : DB) : Call → DB
  | .getOrCreateMonthlyUsage faults now orgID => (GetOrCreateMonthlyUsage db faults now orgID).db
  | .incrementLogVolume faults now orgID bytes => (IncrementLogVolume db faults now orgID bytes).db
  | .incrementAICalls faults now orgID level => (IncrementAICalls db faults now orgID level).db
  | .syncResourceCounts faults now orgID => (SyncResourceCounts db faults now orgID).db
  | .getUsageSnapshot faults now orgID => (GetUsageSnapshot db faults now orgID).db
  | .getCurrentLogVolume faults now orgID => (GetCurrentLogVolume db faults now orgID).db
  | .setResources checks apiKeys => { db with checks := checks, apiKeys := apiKeys }

/-- The store after a sequence of events, oldest first. -/
def DB.run (db : DB) (calls : List Call) : DB :=
  calls.foldl Call.apply db

/-- A store whose ledger has no row yet. -/
def DB.emptyLedger (checks : List Check) (apiKeys : List APIKey) : DB :=
  { monthlyUsages := [], checks := checks, apiKeys := apiKeys }

/-- The rows of the ledger with the key `(orgID, year, month)`. -/
def DB.rowsWithKey (db : DB) (orgID : Nat) (year month : Int) : List MonthlyUsage :=
  db.monthlyUsages.filter (fun r => r.hasKey orgID year month)

/-- The constraints the schema puts on `monthly_usages`: the primary key and the
index `idx_usage_org_month` are unique. -/
structure DB.WellFormed (db : DB) : Prop where
  ids : (db.monthlyUsages.map (fun r => r.ID)).Nodup
  keys : (db.monthlyUsages.map (fun r => (r.OrgID, r.Year, r.Month))).Nodup

/-- The seven counters of a row, in the order of the struct. -/
def MonthlyUsage.counters (r : MonthlyUsage) : List Int :=
  [r.LogVolumeBytes, r.CheckCount, r.StatusPageCount, r.APIKeyCount,
   r.AILevel1Calls, r.AILevel2Calls, r.AILevel3Calls]

/-- The row `GetOrCreateMonthlyUsage` inserts when the period has none: the given key,
a fresh primary key and every counter at its column default 0. -/
def DB.freshUsage (db : DB) (orgID : Nat) (year month : Int) : MonthlyUsage :=
  { ID := db.nextUsageID, OrgID := orgID, Year := year, Month := month, LogVolumeBytes := 0,
    CheckCount := 0, StatusPageCount := 0, APIKeyCount := 0,
    AILevel1Calls := 0, AILevel2Calls := 0, AILevel3Calls := 0 }

/-- The value of counter `c` on the row of the period, 0 when the period has no row. -/
def DB.counterOf (db : DB) (orgID : Nat) (year month : Int) (c : Column) : Int :=
  match db.firstByKey orgID year month with
  | some r => r.get c
  | none => 0

/-- The rows of the ledger outside the period `(orgID, year, month)`. -/
def DB.rowsOutsideKey (db : DB) (orgID : Nat) (year month : Int) : List MonthlyUsage :=
  db.monthlyUsages.filter (fun r => !r.hasKey orgID year month)

/-- The table change of `UPDATE monthly_usages SET ... WHERE id = ?`: the rows with
primary key `id` are rewritten by `f`. -/
def DB.mapRow (db : DB) (id : Nat) (f : MonthlyUsage → MonthlyUsage) : DB :=
  { db with monthlyUsages := db.monthlyUsages.map (fun r => if r.ID = id then f r else r) }

/-- The counter the `switch` of `IncrementAICalls` selects for a level, `none` on the
`default` branch. -/
def aiColumn (level : Int) : Option Column :=
  if level = 1 then some Column.ai_level1_calls
  else if level = 2 then some Column.ai_level2_calls
  else if level = 3 then some Column.ai_level3_calls
  else none

/-- Sequential calls of `IncrementAICalls` for one organization and level, one per
entry of the list (its statement failures and call time): the error each call returned,
oldest first, and the store after the last call. -/
def incrementAICallsSeq (db : DB) (orgID : Nat) (level : Int) :
    List (Faults × Time) → List (Option DBError) × DB
  | [] => ([], db)
  | (faults, now) :: rest =>
    let r := IncrementAICalls db faults now orgID level
    let rs := incrementAICallsSeq r.db orgID level rest
    (r.err :: rs.1, rs.2)

/-- Statement failures in which only statement `n` fails, with error `e`. -/
def Faults.only (n : Nat) (e : DBError) : Faults :=
  fun k => if k = n then some e else Option.none

/-- Statement failures in which every statement fails with error `e`. -/
def Faults.all (e : DBError) : Faults :=
  fun _ => some e

/-! ## Concurrent callers

Calls running at the same time share the store and nothing else.  A call in flight is
the code of `IncrementLogVolume` or `IncrementAICalls` cut at its storage statements:
each step runs one statement on the shared store, then the Go code up to the next
statement or the `return`.  A schedule picks, step by step, which call moves. -/

/-- Which of the two increment functions is called, with its argument. -/
inductive Op where
  | logVolume (bytes : Int)
  | aiCalls (level : Int)

/-- The column and the amount of the atomic add a call performs; `none` for an AI level
on the `default` branch of the `switch`. -/
def Op.target : Op → Option (Column × Int)
  | .logVolume bytes => some (Column.log_volume_bytes, bytes)
  | .aiCalls level => (aiColumn level).map (fun c => (c, 1))

/-- The inputs of one call. -/
structure Invocation where
  orgID : Nat
  now : Time
  faults : Faults
  op : Op

/-- A call in flight: its inputs, the number of the next statement, the local variable
`usage` once the first re-read has filled it, the returned value and error once the
call has returned, and a mark telling whether its atomic add has taken effect. -/
structure Proc where
  call : Invocation
  pc : Nat
  usage : Option MonthlyUsage
  result : Option (Int × Option DBError)
  applied : Bool

/-- A call that has not started. -/
def Proc.start (call : Invocation) : Proc :=
  { call := call, pc := 0, usage := none, result := none, applied := false }

/-- The call returns `(v, e)`. -/
def Proc.ret (p : Proc) (v : Int) (e : Option DBError) : Proc :=
  { p with result := some (v, e) }

/-- One step of a call on the shared store: its next statement and the code that
follows it.  A call that has returned does nothing. -/
def Proc.step (p : Proc) (db : DB) : DB × Proc :=
  match p.result with
  | some _ => (db, p)
  | none =>
    match p.pc with
    | 0 =>
      match p.call.faults 0 with
      | some err => (db, p.ret 0 (some err))
      | none =>
        (db.createOnConflictDoNothing
          { ID := 0, OrgID := p.call.orgID, Year := p.call.now.Year,
            Month := p.call.now.Month.toInt, LogVolumeBytes := 0, CheckCount := 0,
            StatusPageCount := 0, APIKeyCount := 0,
            AILevel1Calls := 0, AILevel2Calls := 0, AILevel3Calls := 0 },
         { p with pc := 1 })
    | 1 =>
      match p.call.faults 1 with
      | some err => (db, p.ret 0 (some err))
      | none =>
        match db.firstByKey p.call.orgID p.call.now.Year p.call.now.Month.toInt with
        | none => (db, p.ret 0 (some DBError.ErrRecordNotFound))
        | some found =>
          match p.call.op.target with
          | none => (db, { p with usage := some found, result := some (0, none) })
          | some _ => (db, { p with usage := some found, pc := 2 })
    | 2 =>
      match p.usage, p.call.op.target with
      | some usage, some (column, delta) =>
        match p.call.faults 2 with
        | some err => (db, p.ret 0 (some err))
        | none =>
          match db.updateAdd usage.ID column delta with
          | .error err => (db, p.ret 0 (some err))
          | .ok db2 =>
            match p.call.op with
            | .logVolume _ => (db2, { p with pc := 3, applied := true })
            | .aiCalls _ => (db2, { p with applied := true, result := some (0, none) })
      | _, _ => (db, p)
    | _ =>
      match p.usage with
      | some usage =>
        match p.call.faults 3 with
        | some err => (db, p.ret 0 (some err))
        | none =>
          match db.firstByID usage.ID with
          | none => (db, p.ret 0 (some DBError.ErrRecordNotFound))
          | some updated => (db, p.ret updated.LogVolumeBytes none)
      | none => (db, p)

/-- The shared store and the calls in flight. -/
structure World where
  db : DB
  procs : List Proc

/-- The calls after call number `i` has made one step on `db`, with the store it leaves.
A number past the end of the list moves nothing. -/
def stepAt : Nat → DB → List Proc → DB × List Proc
  | _, db, [] => (db, [])
  | 0, db, p :: ps => ((p.step db).1, (p.step db).2 :: ps)
  | i + 1, db, p :: ps => ((stepAt i db ps).1, p :: (stepAt i db ps).2)

/-- One step of the world: call number `i` moves. -/
def World.step (w : World) (i : Nat) : World :=
  { db := (stepAt i w.db w.procs).1, procs := (stepAt i w.db w.procs).2 }

/-- The world after a schedule, the list of the calls that move, oldest first. -/
def World.exec (w : World) (schedule : List Nat) : World :=
  schedule.foldl World.step w

/-- The world in which the given calls are about to start on `db`. -/
def World.init (db : DB) (calls : List Invocation) : World :=
  { db := db, procs := calls.map Proc.start }

/-- What a call has added so far to counter `c` of the period `(orgID, year, month)`:
its amount if its atomic add has taken effect and is aimed at that counter of that
period, 0 otherwise. -/
def Proc.contrib (p : Proc) (orgID : Nat) (year month : Int) (c : Column) : Int :=
  match p.call.op.target with
  | some (column, delta) =>
    if p.applied = true ∧ p.call.orgID = orgID ∧ p.call.now.Year = year ∧
        p.call.now.Month.toInt = month ∧ column = c then delta else 0
  | none => 0

/-- The total of `Proc.contrib` over the calls. -/
def appliedSum (procs : List Proc) (orgID : Nat) (year month : Int) (c : Column) : Int :=
  (procs.map (fun p => p.contrib orgID year month c)).sum

/-- What a call asks to add to counter `c` of the period `(orgID, year, month)`. -/
def Invocation.delta (call : Invocation) (orgID : Nat) (year month : Int) (c : Column) : Int :=
  match call.op.target with
  | some (column, delta) =>
    if call.orgID = orgID ∧ call.now.Year = year ∧ call.now.Month.toInt = month ∧ column = c
    then delta else 0
  | none => 0

/-- The total the calls ask to add to counter `c` of the period. -/
def requestedSum (calls : List Invocation) (orgID : Nat) (year month : Int) (c : Column) : Int :=
  (calls.map (fun call => call.delta orgID year month c)).sum

/-- Every call has returned, and returned no error. -/
def World.allSucceeded (w : World) : Bool :=
  w.procs.all (fun p =>
    match p.result with
    | some (_, none) => true
    | _ => false)

/-- Every row of `db` is still in `db2`, under the same primary key and composite key
(its counters may have changed). -/
def DB.Extends (db db2 : DB) : Prop :=
  ∀ r ∈ db.monthlyUsages, ∃ r2 ∈ db2.monthlyUsages,
    r2.ID = r.ID ∧ r2.OrgID = r.OrgID ∧ r2.Year = r.Year ∧ r2.Month = r.Month

/-- What holds of a call in flight and the shared store at every moment: the row in
`usage` is a row of the call's period in the store; the atomic add has not taken effect
before statement 2 has run and has taken effect once statement 3 is next; a call that
returned no error and had an add to make has made it. -/
structure Proc.Inv (p : Proc) (db : DB) : Prop where
  usage_ok : ∀ u, p.usage = some u → ∃ r ∈ db.monthlyUsages, r.ID = u.ID ∧
    r.hasKey p.call.orgID p.call.now.Year p.call.now.Month.toInt = true
  not_applied : p.result = none → p.pc ≤ 2 → p.applied = false
  applied_after : 3 ≤ p.pc → p.applied = true
  applied_of_ok : ∀ v, p.result = some (v, none) → p.call.op.target.isSome = true →
    p.applied = true

/-- What one step of one call, from `db` and `p` to the pair `s`, keeps: the schema
constraints, the rows already there, the inputs of the call, the facts of `Proc.Inv`,
and the balance between every counter and what the call has added to it. -/
def StepSpec (p : Proc) (db : DB) (s : DB × Proc) : Prop :=
  s.1.WellFormed ∧ db.Extends s.1 ∧ s.2.call = p.call ∧ s.2.Inv s.1 ∧
  ∀ (orgID : Nat) (year month : Int) (c : Column),
    s.1.counterOf orgID year month c + p.contrib orgID year month c =
      db.counterOf orgID year month c + s.2.contrib orgID year month c

/-- The number of steps a call may still need: 0 once it has returned, otherwise the
statements from its next one to statement 3. -/
def Proc.remaining (p : Proc) : Nat :=
  match p.result with
  | some _ => 0
  | none => 4 - p.pc

/-- `Proc.remaining` of call number `j`, 0 past the end of the list. -/
def remainingAt (procs : List Proc) (j : Nat) : Nat :=
  match procs.get? j with
  | some p => p.remaining
  | none => 0

/-- What a call has asked to add to a counter and has not added yet. -/
def Proc.pending (p : Proc) (orgID : Nat) (year month : Int) (c : Column) : Int :=
  p.call.delta orgID year month c - p.contrib orgID year month c

/-- The total of `Proc.pending` over the calls. -/
def pendingSum (procs : List Proc) (orgID : Nat) (year month : Int) (c : Column) : Int :=
  (procs.map (fun p => p.pending orgID year month c)).sum

/-- A call none of whose statements fails and that adds a non-negative amount, at a
moment when nothing has gone wrong for it: it has returned no error; if it has not
returned, its next statement is one of 0 to 3, the row of its period exists once the
insert has run, and `usage` is filled once the first re-read has run. -/
structure Proc.Healthy (p : Proc) (db : DB) : Prop where
  no_fault : ∀ k, p.call.faults k = none
  nonneg : ∀ col d, p.call.op.target = some (col, d) → 0 ≤ d
  ok : ∀ v e, p.result = some (v, e) → e = none
  pc_le : p.result = none → p.pc ≤ 3
  row : p.result = none → 1 ≤ p.pc → ∃ r ∈ db.monthlyUsages,
    r.hasKey p.call.orgID p.call.now.Year p.call.now.Month.toInt = true
  loaded : p.result = none → 2 ≤ p.pc →
    p.usage.isSome = true ∧ p.call.op.target.isSome = true

/-! ## Lookup by price identifier -/

/-- Function `GetPlanByStripePriceID`.  The loop `for plan, config := range PlanConfigs`
visits the entries of the map in an order the language leaves open; `entries` is the
catalog in the order of that visit.  The first entry whose `StripePriceID` equals
`priceID` ends the loop; `(PlanFree, false)` is returned when the visit ends without
one. -/
def GetPlanByStripePriceID (entries : List (Plan × PlanConfig)) (priceID : String) :
    Plan × Bool :=
  match entries with
  | [] => (PlanFree, false)
  | (plan, config) :: rest =>
    if config.StripePriceID = priceID then (plan, true)
    else GetPlanByStripePriceID rest priceID

/-! ## Entitlement evaluation -/

/-- Modelled from the spec: `billing.EntitlementResult` is not among the sources.  The
spec lists the entitlement dimensions: check count, API key count, log volume, status
page count and the three AI tiers. -/
inductive Dimension where
  | checks
  | apiKeys
  | logVolume
  | statusPages
  | aiLevel1
  | aiLevel2
  | aiLevel3
deriving DecidableEq, Repr

/-- Modelled from the spec: the outcome for one limit, which the spec describes as
allowed or blocked, the current value, the limit, and the remaining quantity if
applicable (`none` for an unlimited dimension, where no remaining quantity is
computed). -/
structure LimitResult where
  Allowed : Bool
  Current : Int
  Limit : Int
  Remaining : Option Int
deriving DecidableEq, Repr

/-- The limit a plan configuration sets on a dimension. -/
def PlanConfig.limit (config : PlanConfig) : Dimension → Int
  | .checks => config.MaxChecks
  | .apiKeys => config.MaxAPIKeys
  | .logVolume => config.LogVolumeBytesPerMonth
  | .statusPages => config.MaxStatusPages
  | .aiLevel1 => config.AILevel1Limit
  | .aiLevel2 => config.AILevel2Limit
  | .aiLevel3 => config.AILevel3Limit

/-- The current value a snapshot holds for a dimension. -/
def UsageSnapshot.current (usage : UsageSnapshot) : Dimension → Int
  | .checks => usage.CheckCount
  | .apiKeys => usage.APIKeyCount
  | .logVolume => usage.LogVolumeBytes
  | .statusPages => usage.StatusPageCount
  | .aiLevel1 => usage.AILevel1Calls
  | .aiLevel2 => usage.AILevel2Calls
  | .aiLevel3 => usage.AILevel3Calls

/-- Modelled from the spec: the evaluation of one dimension is not among the sources.
The spec: if the limit is the unlimited sentinel `-1` the dimension is always allowed,
with no remaining-quantity computation; otherwise it is allowed iff `current < limit`
and remaining is `max(limit - current, 0)`. -/
def evaluateLimit (current limit : Int) : LimitResult :=
  if limit = -1 then
    { Allowed := true, Current := current, Limit := limit, Remaining := none }
  else
    { Allowed := decide (current < limit), Current := current, Limit := limit,
      Remaining := some (max (limit - current) 0) }

/-- Modelled from the spec: `billing.EntitlementResult` is not among the sources; it
holds one outcome per entitlement dimension. -/
structure EntitlementResult where
  Checks : LimitResult
  APIKeys : LimitResult
  LogVolume : LimitResult
  StatusPages : LimitResult
  AILevel1 : LimitResult
  AILevel2 : LimitResult
  AILevel3 : LimitResult
deriving DecidableEq, Repr

/-- The outcome an entitlement result holds for a dimension. -/
def EntitlementResult.get (r : EntitlementResult) : Dimension → LimitResult
  | .checks => r.Checks
  | .apiKeys => r.APIKeys
  | .logVolume => r.LogVolume
  | .statusPages => r.StatusPages
  | .aiLevel1 => r.AILevel1
  | .aiLevel2 => r.AILevel2
  | .aiLevel3 => r.AILevel3

/-- Modelled from the spec: `billing.CheckEntitlements` is not among the sources, only
its call `billing.CheckEntitlements(org.Plan, usage)` in `handlers/debug.go` is.  The
spec: a pure function of the plan and the snapshot that, for each dimension, resolves
the limit of the plan and evaluates the current value of the snapshot against it. -/
def CheckEntitlements (plan : Plan) (usage : UsageSnapshot) : EntitlementResult :=
  let config := GetPlanConfig plan
  { Checks := evaluateLimit usage.CheckCount config.MaxChecks,
    APIKeys := evaluateLimit usage.APIKeyCount config.MaxAPIKeys,
    LogVolume := evaluateLimit usage.LogVolumeBytes config.LogVolumeBytesPerMonth,
    StatusPages := evaluateLimit usage.StatusPageCount config.MaxStatusPages,
    AILevel1 := evaluateLimit usage.AILevel1Calls config.AILevel1Limit,
    AILevel2 := evaluateLimit usage.AILevel2Calls config.AILevel2Limit,
    AILevel3 := evaluateLimit usage.AILevel3Calls config.AILevel3Limit }

/-! ## internal/models/user.go -/

/-- Go `type Role string`. -/
abbrev Role := String

def RoleOwner : Role := "owner"
def RoleAdmin : Role := "admin"
def RoleMember : Role := "member"

/-- Method `Role.IsValid`: the three-way `switch`. -/
def Role.IsValid (r : Role) : Bool :=
  if r = RoleOwner ∨ r = RoleAdmin ∨ r = RoleMember then true else false

/-- Method `Role.CanManageMembers`. -/
def Role.CanManageMembers (r : Role) : Bool :=
  r == RoleOwner || r == RoleAdmin

/-- The `User` model.  `CreatedAt`, `UpdatedAt` and `PasswordHash` are carried through
every statement of the member handlers unread and are left out; the row model keeps
the primary key, the soft-delete mark `DeletedAt gorm.DeletedAt`, the e-mail address
(unique index), the organization and the role. -/
structure User where
  ID : Nat
  DeletedAt : Option Time
  Email : String
  OrgID : Nat
  Role : Role
deriving DecidableEq, Repr

/-! ## Statements on the `users` table

`User` carries a `gorm.DeletedAt` field, so the mapper adds `deleted_at IS NULL` to
every query and update on the model and turns `Delete` into an update of the mark. -/

/-- The row is not soft-deleted. -/
def User.live (u : User) : Bool := u.DeletedAt.isNone

/-- The error of a unique-index violation (SQLSTATE 23505). -/
def DBError.uniqueViolation : DBError := DBError.other 23505

/-- The mapper's `ErrMissingWhereClause`. -/
def DBError.missingWhereClause : DBError := DBError.other 1

/-- A query or statement that is statement `k` of a call: it fails with the fault
given for `k`, if any, and runs otherwise. -/
def Faults.stmt {α : Type} (faults : Faults) (k : Nat) (run : Except DBError α) :
    Except DBError α :=
  match faults k with
  | some err => .error err
  | Option.none => run

/-- The result of `First`: the row, or `ErrRecordNotFound`. -/
def firstOrNotFound (found : Option User) : Except DBError User :=
  match found with
  | some u => .ok u
  | none => .error DBError.ErrRecordNotFound

/-- The query `db.Where("id = ? AND org_id = ?", memberID, orgID).First(&member)`. -/
def firstUserInOrg (users : List User) (id orgID : Nat) : Option User :=
  users.find? (fun u => u.live && decide (u.ID = id) && decide (u.OrgID = orgID))

/-- The query `db.First(&user, userID)`: the row with that primary key, whatever its
organization. -/
def firstUser (users : List User) (id : Nat) : Option User :=
  users.find? (fun u => u.live && decide (u.ID = id))

/-- The query `db.Model(&models.User{}).Where("org_id = ? AND role = ?", orgID, RoleOwner).Count`. -/
def countOwners (users : List User) (orgID : Nat) : Int :=
  ((users.filter (fun u => u.live && decide (u.OrgID = orgID) && decide (u.Role = RoleOwner))).length : Int)

/-- The value left in `ownerCount` by the `Count` call that is statement `k`: the
handlers drop the error of the call, and a failed count leaves `0`. -/
def ownerCountAt (faults : Faults) (k : Nat) (users : List User) (orgID : Nat) : Int :=
  match faults k with
  | some _ => 0
  | none => countOwners users orgID

/-- The next value of the serial primary key of `users`. -/
def nextUserID (users : List User) : Nat :=
  (users.map (fun u => u.ID)).foldr max 0 + 1

/-- Another row (a different primary key) already holds the e-mail address. -/
def emailTaken (users : List User) (id : Nat) (email : String) : Bool :=
  users.any (fun x => decide (x.ID ≠ id) && decide (x.Email = email))

/-- The statement `db.Save(&u)`.  With a zero primary key the mapper inserts the value
under a fresh key.  Otherwise it runs `UPDATE users SET <every column> WHERE id = ? AND
deleted_at IS NULL`, and when that touches no row it retries as
`INSERT ... ON CONFLICT (id) DO UPDATE SET <every column>`.  The unique index on the
e-mail address rejects a value whose address another row holds. -/
def saveUser (users : List User) (u : User) : Except DBError (List User) :=
  if u.ID = 0 then
    if users.any (fun x => decide (x.Email = u.Email)) then .error DBError.uniqueViolation
    else .ok (users ++ [{ u with ID := nextUserID users }])
  else if emailTaken users u.ID u.Email then .error DBError.uniqueViolation
  else if users.any (fun x => x.live && decide (x.ID = u.ID)) then
    .ok (users.map (fun x => if x.live = true ∧ x.ID = u.ID then u else x))
  else if users.any (fun x => decide (x.ID = u.ID)) then
    .ok (users.map (fun x => if x.ID = u.ID then u else x))
  else .ok (users ++ [u])

/-- The statement `db.Delete(&u)`: `UPDATE users SET deleted_at = <now> WHERE id = ? AND
deleted_at IS NULL`.  With a zero primary key the statement has no condition and the
mapper refuses it. -/
def deleteUser (users : List User) (now : Time) (u : User) : Except DBError (List User) :=
  if u.ID = 0 then .error DBError.missingWhereClause
  else .ok (users.map (fun x => if x.live = true ∧ x.ID = u.ID then { x with DeletedAt := some now } else x))

/-! ## internal/handlers/member.go -/

/-- The request values the authentication middleware leaves in `c.Locals`:
`orgID`, `userID` and `role`. -/
structure Ctx where
  orgID : Nat
  userID : Nat
  role : Role
deriving DecidableEq, Repr

/-- The audit actions the member handlers name (`models.AuditActionMemberRoleChanged`,
`models.AuditActionMemberRemoved`). -/
inductive AuditAction where
  | MemberRoleChanged
  | MemberRemoved
deriving DecidableEq, Repr

/-- Modelled from the spec: `logAuditEvent` and the audit-log model are not among the
sources, and the spec treats audit logging as an external collaborator.  The model
records the arguments a handler passes to `logAuditEvent` after its last statement on
`users` (organization, acting user, action, the user the action is about, details) and
leaves the `users` table to the handler's own statements. -/
structure AuditEvent where
  orgID : Nat
  userID : Nat
  action : AuditAction
  resourceID : Nat
  details : List (String × String)
deriving DecidableEq, Repr

/-- What a handler leaves behind: the HTTP status of the response, the `users` table,
and the audit event handed to `logAuditEvent`, if the handler reached that call. -/
structure Response where
  status : Nat
  users : List User
  audit : Option AuditEvent
deriving DecidableEq, Repr

/-- A response sent before any change: the table is as it was. -/
def Response.reject (status : Nat) (users : List User) : Response :=
  { status := status, users := users, audit := none }

def StatusOK : Nat := 200
def StatusBadRequest : Nat := 400
def StatusForbidden : Nat := 403
def StatusNotFound : Nat := 404
def StatusInternalServerError : Nat := 500

/-- The call `strconv.ParseUint(s, 10, 32)`: a non-empty string of decimal digits whose
value fits 32 bits. -/
def parseUint32 (s : String) : Option Nat :=
  let cs := s.toList
  if cs.isEmpty then none
  else if cs.all Char.isDigit then
    let n := cs.foldl (fun acc c => 10 * acc + (c.toNat - 48)) 0
    if n < 2 ^ 32 then some n else none
  else none

/-- Handler `UpdateMemberRole`.  `id` is `c.Params("id")`; `body` is the role read by
`c.BodyParser`, `none` when the parser fails.  Statement 0 finds the member, statement
1 counts the owners, statement 2 saves the member. -/
def UpdateMemberRole (users : List User) (faults : Faults) (c : Ctx) (id : String)
    (body : Option Role) : Response :=
  let orgID := c.orgID
  let currentUserID := c.userID
  let userRole := c.role
  if !userRole.CanManageMembers then Response.reject StatusForbidden users
  else
    match parseUint32 id with
    | none => Response.reject StatusBadRequest users
    | some memberID =>
      match body with
      | none => Response.reject StatusBadRequest users
      | some reqRole =>
        if !reqRole.IsValid then Response.reject StatusBadRequest users
        else
          match faults.stmt 0 (firstOrNotFound (firstUserInOrg users memberID orgID)) with
          | .error _ => Response.reject StatusNotFound users
          | .ok member =>
            if memberID = currentUserID ∧ member.Role = RoleOwner ∧ reqRole ≠ RoleOwner then
              Response.reject StatusBadRequest users
            else if userRole ≠ RoleOwner ∧ (member.Role = RoleOwner ∨ member.Role = RoleAdmin) then
              Response.reject StatusForbidden users
            else if userRole ≠ RoleOwner ∧ (reqRole = RoleOwner ∨ reqRole = RoleAdmin) then
              Response.reject StatusForbidden users
            else if member.Role = RoleOwner ∧ reqRole ≠ RoleOwner ∧
                ownerCountAt faults 1 users orgID ≤ 1 then
              Response.reject StatusBadRequest users
            else
              let oldRole := member.Role
              let member := { member with Role := reqRole }
              match faults.stmt 2 (saveUser users member) with
              | .error _ => Response.reject StatusInternalServerError users
              | .ok users2 =>
                { status := StatusOK, users := users2,
                  audit := some
                    { orgID := orgID, userID := currentUserID,
                      action := AuditAction.MemberRoleChanged, resourceID := member.ID,
                      details := [("email", member.Email), ("old_role", oldRole),
                                  ("new_role", reqRole)] } }

/-- Handler `RemoveMember`.  Statement 0 finds the member, statement 1 counts the
owners, statement 2 soft-deletes the member. -/
def RemoveMember (users : List User) (faults : Faults) (now : Time) (c : Ctx) (id : String) :
    Response :=
  let orgID := c.orgID
  let currentUserID := c.userID
  let userRole := c.role
  if !userRole.CanManageMembers then Response.reject StatusForbidden users
  else
    match parseUint32 id with
    | none => Response.reject StatusBadRequest users
    | some memberID =>
      match faults.stmt 0 (firstOrNotFound (firstUserInOrg users memberID orgID)) with
      | .error _ => Response.reject StatusNotFound users
      | .ok member =>
        if memberID = currentUserID then Response.reject StatusBadRequest users
        else if userRole ≠ RoleOwner ∧ (member.Role = RoleOwner ∨ member.Role = RoleAdmin) then
          Response.reject StatusForbidden users
        else if member.Role = RoleOwner ∧ ownerCountAt faults 1 users orgID ≤ 1 then
          Response.reject StatusBadRequest users
        else
          match faults.stmt 2 (deleteUser users now member) with
          | .error _ => Response.reject StatusInternalServerError users
          | .ok users2 =>
            { status := StatusOK, users := users2,
              audit := some
                { orgID := orgID, userID := currentUserID,
                  action := AuditAction.MemberRemoved, resourceID := member.ID,
                  details := [("email", member.Email), ("role", member.Role)] } }

/-- Handler `LeaveOrganization`.  Statement 0 counts the owners, statement 1 finds the
caller by primary key, statement 2 soft-deletes the caller.  The cookie cleared by
`clearAuthCookie` at the end belongs to the response, not to the table. -/
def LeaveOrganization (users : List User) (faults : Faults) (now : Time) (c : Ctx) : Response :=
  let orgID := c.orgID
  let userID := c.userID
  let userRole := c.role
  if userRole = RoleOwner ∧ ownerCountAt faults 0 users orgID ≤ 1 then
    Response.reject StatusBadRequest users
  else
    match faults.stmt 1 (firstOrNotFound (firstUser users userID)) with
    | .error _ => Response.reject StatusNotFound users
    | .ok user =>
      match faults.stmt 2 (deleteUser users now user) with
      | .error _ => Response.reject StatusInternalServerError users
      | .ok users2 =>
        { status := StatusOK, users := users2,
          audit := some
            { orgID := orgID, userID := userID,
              action := AuditAction.MemberRemoved, resourceID := user.ID,
              details := [("email", user.Email), ("role", user.Role),
                          ("action", "self_leave")] } }

/-- The closure `TransferOwnership` passes to `db.Transaction`, with the transaction
around it: statement 2 opens the transaction, statement 3 saves the target as owner,
statement 4 saves the caller as admin, statement 5 commits.  A failure at any of them
rolls back: the result is an error and the table stays as it was before statement 2. -/
def transferTransaction (users : List User) (faults : Faults) (targetMember currentUser : User) :
    Except DBError (List User × User × User) :=
  match faults 2 with
  | some err => .error err
  | none =>
    let targetMember := { targetMember with Role := RoleOwner }
    match faults.stmt 3 (saveUser users targetMember) with
    | .error err => .error err
    | .ok users1 =>
      let currentUser := { currentUser with Role := RoleAdmin }
      match faults.stmt 4 (saveUser users1 currentUser) with
      | .error err => .error err
      | .ok users2 =>
        match faults 5 with
        | some err => .error err
        | none => .ok (users2, targetMember, currentUser)

/-- Handler `TransferOwnership`.  Statement 0 finds the target member, statement 1
finds the caller by primary key, statements 2 to 5 are the transaction. -/
def TransferOwnership (users : List User) (faults : Faults) (c : Ctx) (id : String) : Response :=
  let orgID := c.orgID
  let currentUserID := c.userID
  let userRole := c.role
  if userRole ≠ RoleOwner then Response.reject StatusForbidden users
  else
    match parseUint32 id with
    | none => Response.reject StatusBadRequest users
    | some memberID =>
      if memberID = currentUserID then Response.reject StatusBadRequest users
      else
        match faults.stmt 0 (firstOrNotFound (firstUserInOrg users memberID orgID)) with
        | .error _ => Response.reject StatusNotFound users
        | .ok targetMember =>
          match faults.stmt 1 (firstOrNotFound (firstUser users currentUserID)) with
          | .error _ => Response.reject StatusNotFound users
          | .ok currentUser =>
            match transferTransaction users faults targetMember currentUser with
            | .error _ => Response.reject StatusInternalServerError users
            | .ok (users2, targetMember, currentUser) =>
              { status := StatusOK, users := users2,
                audit := some
                  { orgID := orgID, userID := currentUserID,
                    action := AuditAction.MemberRoleChanged, resourceID := targetMember.ID,
                    details := [("action", "ownership_transfer"),
                                ("new_owner", targetMember.Email),
                                ("former_owner", currentUser.Email)] } }

/-! ## Member calls taken one after another -/

/-- The four member handlers with the request values each reads. -/
inductive MemberRequest where
  | UpdateMemberRole (id : String) (body : Option Role)
  | RemoveMember (id : String)
  | LeaveOrganization
  | TransferOwnership (id : String)

/-- One call of a member handler: the context set by the middleware, the faults of
its statements, the clock, and the request. -/
structure MemberCall where
  ctx : Ctx
  faults : Faults
  now : Time
  request : MemberRequest

/-- Run the handler a call names. -/
def MemberCall.serve (call : MemberCall) (users : List User) : Response :=
  match call.request with
  | .UpdateMemberRole id body => UpdateMemberRole users call.faults call.ctx id body
  | .RemoveMember id => RemoveMember users call.faults call.now call.ctx id
  | .LeaveOrganization => LeaveOrganization users call.faults call.now call.ctx
  | .TransferOwnership id => TransferOwnership users call.faults call.ctx id

/-- The `users` table after the calls have run one after another. -/
def serveAll (users : List User) : List MemberCall → List User
  | [] => users
  | call :: rest => serveAll (call.serve users).users rest

/-- The primary key of `users`: no two rows share an `ID`. -/
def UsersWellFormed (users : List User) : Prop :=
  (users.map (fun u => u.ID)).Nodup

instance (users : List User) : Decidable (UsersWellFormed users) := by
  unfold UsersWellFormed; infer_instance

/-- The organization has a user that is not soft-deleted and whose role is owner. -/
def hasOwner (users : List User) (orgID : Nat) : Bool :=
  users.any (fun u => u.live && decide (u.OrgID = orgID) && decide (u.Role = RoleOwner))

/-- The context of a call agrees with the stored record of the caller, as far as the
organization `orgID` is concerned: when the caller is a member of `orgID` (a row that
is not soft-deleted), the context names `orgID` and carries the stored role.  A call
made in the context of `orgID` agrees as soon as the context role is the stored role;
a call by a user who is not a member of `orgID` always agrees.  What is left out is a
member of `orgID` calling in the context of another organization: `LeaveOrganization`
and `TransferOwnership` count and search in the organization of the context and read
the caller's row by primary key alone. -/
def Ctx.agrees (c : Ctx) (users : List User) (orgID : Nat) : Bool :=
  users.all (fun u =>
    if u.live = true ∧ u.ID = c.userID ∧ u.OrgID = orgID then
      decide (c.orgID = orgID) && decide (c.role = u.Role)
    else true)

/-- The context role of a call is the stored role of the caller: the row of the
caller that is not soft-deleted, if there is one, holds the role of the context.
Nothing is asked of the context organization. -/
def Ctx.roleAgrees (c : Ctx) (users : List User) : Bool :=
  users.all (fun u =>
    if u.live = true ∧ u.ID = c.userID then decide (c.role = u.Role) else true)

/-- Every call of the sequence meets a table its context agrees with: the first call
the given table, each later call the table its predecessors left. -/
def agreeingRun (orgID : Nat) (users : List User) : List MemberCall → Bool
  | [] => true
  | call :: rest =>
    call.ctx.agrees users orgID && agreeingRun orgID (call.serve users).users rest

/-! ## Sample data -/

/-- A call time in March 2025. -/
def sampleTime : Time := { year := 2025, month := Month.March, nsec := 1000 }

/-- A later call time in the same month. -/
def sampleTimeLater : Time := { year := 2025, month := Month.March, nsec := 5000 }

/-- A store with two ledger rows (organization 1 in March 2025, organization 2 in
February 2025), three checks of organization 1, one of them soft-deleted, and two API
keys of organization 1, one of them soft-deleted. -/
def sampleDB : DB :=
  { monthlyUsages :=
      [ { ID := 1, OrgID := 1, Year := 2025, Month := 3, LogVolumeBytes := 100,
          CheckCount := 9, StatusPageCount := 4, APIKeyCount := 8,
          AILevel1Calls := 5, AILevel2Calls := 6, AILevel3Calls := 7 },
        { ID := 2, OrgID := 2, Year := 2025, Month := 2, LogVolumeBytes := 50,
          CheckCount := 1, StatusPageCount := 0, APIKeyCount := 1,
          AILevel1Calls := 0, AILevel2Calls := 0, AILevel3Calls := 0 } ],
    checks :=
      [ { ID := 1, OrgID := 1, DeletedAt := none },
        { ID := 2, OrgID := 1, DeletedAt := some { year := 2025, month := Month.January, nsec := 0 } },
        { ID := 3, OrgID := 1, DeletedAt := none },
        { ID := 4, OrgID := 2, DeletedAt := none } ],
    apiKeys :=
      [ { ID := 1, OrgID := 1, DeletedAt := none },
        { ID := 2, OrgID := 1, DeletedAt := some { year := 2025, month := Month.January, nsec := 0 } } ] }

/-- Four calls for organization 1 in March 2025: two of `IncrementLogVolume`, with 10
and 20 bytes, and two of `IncrementAICalls` with level 2. -/
def sampleCalls : List Invocation :=
  [ { orgID := 1, now := sampleTime, faults := Faults.none, op := Op.logVolume 10 },
    { orgID := 1, now := sampleTimeLater, faults := Faults.none, op := Op.logVolume 20 },
    { orgID := 1, now := sampleTime, faults := Faults.none, op := Op.aiCalls 2 },
    { orgID := 1, now := sampleTimeLater, faults := Faults.none, op := Op.aiCalls 2 } ]

/-- An interleaving of the statements of the four sample calls that lets each of them
return. -/
def sampleSchedule : List Nat :=
  [0, 1, 2, 3, 1, 0, 3, 2, 2, 1, 0, 3, 0, 1, 3, 2]

/-- A call time in April 2025, a period for which the sample store has no row. -/
def sampleTimeApril : Time := { year := 2025, month := Month.April, nsec := 0 }

/-- Two organizations: 1 with an owner, an admin and a member, 2 with one owner. -/
def sampleUsers : List User :=
  [ { ID := 1, DeletedAt := none, Email := "ann@example.com", OrgID := 1, Role := RoleOwner },
    { ID := 2, DeletedAt := none, Email := "bob@example.com", OrgID := 1, Role := RoleAdmin },
    { ID := 3, DeletedAt := none, Email := "cy@example.com", OrgID := 1, Role := RoleMember },
    { ID := 4, DeletedAt := none, Email := "dee@example.com", OrgID := 2, Role := RoleOwner } ]

/-- A context that names organization 2 for Ann, the owner of organization 1, with
her stored role. -/
def sampleForeignCtx : Ctx := { orgID := 2, userID := 1, role := RoleOwner }

/-- A sequence of member calls on `sampleUsers`: the owner of organization 1 promotes
the member, tries to leave, hands ownership to the admin and is then removed by the
new owner, who tries to demote themself; the owner of organization 2 tries to leave. -/
def sampleMemberCalls : List MemberCall :=
  [ { ctx := { orgID := 1, userID := 1, role := RoleOwner }, faults := Faults.none,
      now := sampleTime, request := MemberRequest.UpdateMemberRole "3" (some RoleAdmin) },
    { ctx := { orgID := 1, userID := 1, role := RoleOwner }, faults := Faults.none,
      now := sampleTime, request := MemberRequest.LeaveOrganization },
    { ctx := { orgID := 1, userID := 1, role := RoleOwner }, faults := Faults.none,
      now := sampleTime, request := MemberRequest.TransferOwnership "2" },
    { ctx := { orgID := 1, userID := 2, role := RoleOwner }, faults := Faults.none,
      now := sampleTimeLater, request := MemberRequest.RemoveMember "1" },
    { ctx := { orgID := 1, userID := 2, role := RoleOwner }, faults := Faults.none,
      now := sampleTimeLater, request := MemberRequest.UpdateMemberRole "2" (some RoleMember) },
    { ctx := { orgID := 2, userID := 4, role := RoleOwner }, faults := Faults.none,
      now := sampleTimeLater, request := MemberRequest.LeaveOrganization } ]

/-! ## Properties of the store statements -/

theorem hasKey_iff (r : MonthlyUsage) (orgID : Nat) (year month : Int) :
    r.hasKey orgID year month = true ↔ r.OrgID = orgID ∧ r.Year = year ∧ r.Month = month := by
  simp [MonthlyUsage.hasKey, and_assoc]

theorem le_foldr_max (l : List Nat) (x : Nat) (h : x ∈ l) : x ≤ l.foldr max 0 := by
  induction l with
  | nil => cases h
  | cons a t ih =>
    simp only [List.foldr_cons]
    rcases List.mem_cons.mp h with rfl | h
    · exact le_max_left _ _
    · exact le_trans (ih h) (le_max_right _ _)

theorem nextUsageID_fresh (db : DB) (r : MonthlyUsage) (h : r ∈ db.monthlyUsages) :
    r.ID < db.nextUsageID := by
  have hm : r.ID ∈ db.monthlyUsages.map (fun r => r.ID) := List.mem_map_of_mem _ h
  have := le_foldr_max _ _ hm
  unfold DB.nextUsageID
  omega

theorem firstByKey_none_iff (db : DB) (orgID : Nat) (year month : Int) :
    db.firstByKey orgID year month = none ↔
      ∀ r ∈ db.monthlyUsages, r.hasKey orgID year month = false := by
  simp [DB.firstByKey, List.find?_eq_none]

theorem firstByKey_some (db : DB) (orgID : Nat) (year month : Int) (r : MonthlyUsage)
    (h : db.firstByKey orgID year month = some r) :
    r ∈ db.monthlyUsages ∧ r.hasKey orgID year month = true := by
  unfold DB.firstByKey at h
  exact ⟨List.mem_of_find?_eq_some h, by simpa using List.find?_some h⟩

theorem create_of_some (db : DB) (u r : MonthlyUsage)
    (h : db.firstByKey u.OrgID u.Year u.Month = some r) :
    db.createOnConflictDoNothing u = db := by
  have hr := firstByKey_some _ _ _ _ _ h
  have hany : db.monthlyUsages.any (fun r => r.hasKey u.OrgID u.Year u.Month) = true :=
    List.any_eq_true.mpr ⟨r, hr.1, hr.2⟩
  unfold DB.createOnConflictDoNothing
  rw [if_pos hany]

theorem create_of_none (db : DB) (u : MonthlyUsage)
    (h : db.firstByKey u.OrgID u.Year u.Month = none) :
    db.createOnConflictDoNothing u =
      { db with monthlyUsages := db.monthlyUsages ++ [{ u with ID := db.nextUsageID }] } := by
  have hn := (firstByKey_none_iff _ _ _ _).mp h
  have hany : ¬ db.monthlyUsages.any (fun r => r.hasKey u.OrgID u.Year u.Month) = true := by
    intro hc
    obtain ⟨r, hr, hk⟩ := List.any_eq_true.mp hc
    rw [hn r hr] at hk
    cases hk
  unfold DB.createOnConflictDoNothing
  rw [if_neg hany]

/-- With the insert and the re-read succeeding, `GetOrCreateMonthlyUsage` on a period
that has a row returns the row and leaves the store alone. -/
theorem getOrCreate_of_some (db : DB) (faults : Faults) (now : Time) (orgID : Nat)
    (r : MonthlyUsage) (h0 : faults 0 = none) (h1 : faults 1 = none)
    (h : db.firstByKey orgID now.Year now.Month.toInt = some r) :
    GetOrCreateMonthlyUsage db faults now orgID = { val := some r, err := none, db := db } := by
  unfold GetOrCreateMonthlyUsage
  simp only [h0, h1]
  rw [create_of_some db _ r h]
  simp only [h]

/-- With the insert and the re-read succeeding, `GetOrCreateMonthlyUsage` on a period
that has no row appends the fresh row and returns it. -/
theorem getOrCreate_of_none (db : DB) (faults : Faults) (now : Time) (orgID : Nat)
    (h0 : faults 0 = none) (h1 : faults 1 = none)
    (h : db.firstByKey orgID now.Year now.Month.toInt = none) :
    GetOrCreateMonthlyUsage db faults now orgID =
      { val := some (db.freshUsage orgID now.Year now.Month.toInt), err := none,
        db := { db with monthlyUsages :=
                  db.monthlyUsages ++ [db.freshUsage orgID now.Year now.Month.toInt] } } := by
  unfold GetOrCreateMonthlyUsage
  simp only [h0, h1]
  rw [create_of_none db _ h]
  have hf : DB.firstByKey
      { db with monthlyUsages :=
          db.monthlyUsages ++ [db.freshUsage orgID now.Year now.Month.toInt] }
      orgID now.Year now.Month.toInt = some (db.freshUsage orgID now.Year now.Month.toInt) := by
    have hn := (firstByKey_none_iff _ _ _ _).mp h
    unfold DB.firstByKey
    simp only [List.find?_append]
    have : db.monthlyUsages.find? (fun r => r.hasKey orgID now.Year now.Month.toInt) = none := h
    rw [this]
    simp [DB.freshUsage, MonthlyUsage.hasKey]
  simp only [DB.freshUsage] at hf ⊢
  simp only [hf]

theorem set_ID (r : MonthlyUsage) (c : Column) (v : Int) : (r.set c v).ID = r.ID := by
  cases c <;> rfl

theorem set_hasKey (r : MonthlyUsage) (c : Column) (v : Int) (orgID : Nat) (year month : Int) :
    (r.set c v).hasKey orgID year month = r.hasKey orgID year month := by
  cases c <;> rfl

theorem get_set (r : MonthlyUsage) (c c' : Column) (v : Int) :
    (r.set c v).get c' = if c' = c then v else r.get c' := by
  cases c <;> cases c' <;> simp [MonthlyUsage.set, MonthlyUsage.get]

theorem filter_map_of_fixed {α : Type} (p : α → Bool) (g : α → α) (l : List α)
    (h : ∀ r ∈ l, p (g r) = p r ∧ (p r = true → g r = r)) :
    (l.map g).filter p = l.filter p := by
  induction l with
  | nil => rfl
  | cons a t ih =>
    have ha := h a (List.mem_cons_self _ _)
    have ht := ih (fun r hr => h r (List.mem_cons_of_mem _ hr))
    simp only [List.map_cons, List.filter_cons, ha.1, ht]
    by_cases hp : p a = true
    · simp [hp, ha.2 hp]
    · simp [hp]

theorem wf_id_inj (db : DB) (h : db.WellFormed) (r r' : MonthlyUsage)
    (hr : r ∈ db.monthlyUsages) (hr' : r' ∈ db.monthlyUsages) (hid : r.ID = r'.ID) : r = r' :=
  List.inj_on_of_nodup_map h.ids hr hr' hid

theorem wf_key_inj (db : DB) (h : db.WellFormed) (r r' : MonthlyUsage)
    (hr : r ∈ db.monthlyUsages) (hr' : r' ∈ db.monthlyUsages) (orgID : Nat) (year month : Int)
    (hk : r.hasKey orgID year month = true) (hk' : r'.hasKey orgID year month = true) :
    r = r' := by
  rw [hasKey_iff] at hk hk'
  apply List.inj_on_of_nodup_map h.keys hr hr'
  simp [hk, hk']

/-- A change of rows that keeps primary keys and composite keys keeps the schema
constraints. -/
theorem wf_map (db : DB) (g : MonthlyUsage → MonthlyUsage) (h : db.WellFormed)
    (hid : ∀ r, (g r).ID = r.ID)
    (hkey : ∀ r, (g r).OrgID = r.OrgID ∧ (g r).Year = r.Year ∧ (g r).Month = r.Month) :
    DB.WellFormed { db with monthlyUsages := db.monthlyUsages.map g } := by
  constructor
  · have : (fun r : MonthlyUsage => r.ID) ∘ g = fun r => r.ID := by
      funext r; exact hid r
    simpa [List.map_map, this] using h.ids
  · have : (fun r : MonthlyUsage => (r.OrgID, r.Year, r.Month)) ∘ g =
        fun r => (r.OrgID, r.Year, r.Month) := by
      funext r; simp [(hkey r).1, (hkey r).2.1, (hkey r).2.2]
    simpa [List.map_map, this] using h.keys

theorem set_key (r : MonthlyUsage) (c : Column) (v : Int) :
    (r.set c v).OrgID = r.OrgID ∧ (r.set c v).Year = r.Year ∧ (r.set c v).Month = r.Month := by
  cases c <;> exact ⟨rfl, rfl, rfl⟩

theorem wf_createOnConflictDoNothing (db : DB) (u : MonthlyUsage) (h : db.WellFormed) :
    (db.createOnConflictDoNothing u).WellFormed := by
  cases hf : db.firstByKey u.OrgID u.Year u.Month with
  | some r => rw [create_of_some db u r hf]; exact h
  | none =>
    rw [create_of_none db u hf]
    have hn := (firstByKey_none_iff _ _ _ _).mp hf
    constructor
    · simp only [List.map_append, List.map_cons, List.map_nil]
      refine List.Nodup.append h.ids (List.nodup_singleton _) ?_
      intro x hx hx'
      simp only [List.mem_singleton] at hx'
      obtain ⟨r, hr, rfl⟩ := List.mem_map.mp hx
      have := nextUsageID_fresh db r hr
      omega
    · simp only [List.map_append, List.map_cons, List.map_nil]
      refine List.Nodup.append h.keys (List.nodup_singleton _) ?_
      intro x hx hx'
      simp only [List.mem_singleton] at hx'
      obtain ⟨r, hr, rfl⟩ := List.mem_map.mp hx
      have hk := hn r hr
      have : r.hasKey u.OrgID u.Year u.Month = true := by
        rw [hasKey_iff]
        simp only [Prod.mk.injEq] at hx'
        exact hx'
      rw [this] at hk
      cases hk

theorem wf_updateAdd (db db2 : DB) (id : Nat) (c : Column) (d : Int) (h : db.WellFormed)
    (hu : db.updateAdd id c d = .ok db2) : db2.WellFormed := by
  unfold DB.updateAdd at hu
  split at hu
  · cases hu
  · injection hu with hu
    subst hu
    apply wf_map db _ h
    · intro r; split
      · exact set_ID _ _ _
      · rfl
    · intro r; split
      · exact set_key _ _ _
      · exact ⟨rfl, rfl, rfl⟩

theorem wf_updateCounts (db : DB) (id : Nat) (a b : Int) (h : db.WellFormed) :
    (db.updateCounts id a b).WellFormed := by
  unfold DB.updateCounts
  apply wf_map db _ h
  · intro r; split <;> rfl
  · intro r; split <;> exact ⟨rfl, rfl, rfl⟩

/-! ## The schema constraints are kept by every call -/

theorem getOrCreate_db_cases (db : DB) (faults : Faults) (now : Time) (orgID : Nat) :
    (GetOrCreateMonthlyUsage db faults now orgID).db = db ∨
    (GetOrCreateMonthlyUsage db faults now orgID).db =
      db.createOnConflictDoNothing
        { ID := 0, OrgID := orgID, Year := now.Year, Month := now.Month.toInt,
          LogVolumeBytes := 0, CheckCount := 0, StatusPageCount := 0, APIKeyCount := 0,
          AILevel1Calls := 0, AILevel2Calls := 0, AILevel3Calls := 0 } := by
  unfold GetOrCreateMonthlyUsage
  dsimp only
  split
  · exact Or.inl rfl
  · split
    · exact Or.inr rfl
    · split <;> exact Or.inr rfl

theorem wf_getOrCreate (db : DB) (faults : Faults) (now : Time) (orgID : Nat)
    (h : db.WellFormed) : (GetOrCreateMonthlyUsage db faults now orgID).db.WellFormed := by
  rcases getOrCreate_db_cases db faults now orgID with hdb | hdb
  · rw [hdb]; exact h
  · rw [hdb]; exact wf_createOnConflictDoNothing db _ h

theorem wf_incrementLogVolume (db : DB) (faults : Faults) (now : Time) (orgID : Nat)
    (bytes : Int) (h : db.WellFormed) :
    (IncrementLogVolume db faults now orgID bytes).db.WellFormed := by
  have hg := wf_getOrCreate db faults now orgID h
  unfold IncrementLogVolume
  dsimp only
  split
  · split
    · exact hg
    · split
      · exact hg
      · rename_i db2 hu
        have h2 := wf_updateAdd _ _ _ _ _ hg hu
        split
        · exact h2
        · split <;> exact h2
  · exact hg

theorem wf_incrementColumn (db : DB) (faults : Faults) (id : Nat) (c : Column)
    (h : db.WellFormed) : (incrementColumn db faults id c).db.WellFormed := by
  unfold incrementColumn
  split
  · exact h
  · split
    · exact h
    · rename_i db2 hu
      exact wf_updateAdd _ _ _ _ _ h hu

theorem wf_incrementAICalls (db : DB) (faults : Faults) (now : Time) (orgID : Nat)
    (level : Int) (h : db.WellFormed) :
    (IncrementAICalls db faults now orgID level).db.WellFormed := by
  have hg := wf_getOrCreate db faults now orgID h
  unfold IncrementAICalls
  dsimp only
  split
  · split
    · exact wf_incrementColumn _ _ _ _ hg
    · split
      · exact wf_incrementColumn _ _ _ _ hg
      · split
        · exact wf_incrementColumn _ _ _ _ hg
        · exact hg
  · exact hg

theorem wf_syncResourceCounts (db : DB) (faults : Faults) (now : Time) (orgID : Nat)
    (h : db.WellFormed) : (SyncResourceCounts db faults now orgID).db.WellFormed := by
  have hg := wf_getOrCreate db faults now orgID h
  unfold SyncResourceCounts
  dsimp only
  split
  · split
    · exact hg
    · split
      · exact hg
      · split
        · exact hg
        · exact wf_updateCounts _ _ _ _ hg
  · exact hg

theorem wf_getUsageSnapshot (db : DB) (faults : Faults) (now : Time) (orgID : Nat)
    (h : db.WellFormed) : (GetUsageSnapshot db faults now orgID).db.WellFormed := by
  have hg := wf_getOrCreate db (faults.shift 2) now orgID h
  unfold GetUsageSnapshot
  dsimp only
  split
  · exact h
  · split
    · exact h
    · split <;> exact hg

theorem wf_getCurrentLogVolume (db : DB) (faults : Faults) (now : Time) (orgID : Nat)
    (h : db.WellFormed) : (GetCurrentLogVolume db faults now orgID).db.WellFormed := by
  have hg := wf_getOrCreate db faults now orgID h
  unfold GetCurrentLogVolume
  dsimp only
  split <;> exact hg

theorem wf_apply (db : DB) (call : Call) (h : db.WellFormed) : (call.apply db).WellFormed := by
  cases call with
  | getOrCreateMonthlyUsage faults now orgID => exact wf_getOrCreate db faults now orgID h
  | incrementLogVolume faults now orgID bytes => exact wf_incrementLogVolume db faults now orgID bytes h
  | incrementAICalls faults now orgID level => exact wf_incrementAICalls db faults now orgID level h
  | syncResourceCounts faults now orgID => exact wf_syncResourceCounts db faults now orgID h
  | getUsageSnapshot faults now orgID => exact wf_getUsageSnapshot db faults now orgID h
  | getCurrentLogVolume faults now orgID => exact wf_getCurrentLogVolume db faults now orgID h
  | setResources checks apiKeys => exact ⟨h.ids, h.keys⟩

theorem wf_run (calls : List Call) (db : DB) (h : db.WellFormed) : (db.run calls).WellFormed := by
  induction calls generalizing db with
  | nil => exact h
  | cons call rest ih => exact ih (call.apply db) (wf_apply db call h)

theorem wf_emptyLedger (checks : List Check) (apiKeys : List APIKey) :
    (DB.emptyLedger checks apiKeys).WellFormed :=
  ⟨List.nodup_nil, List.nodup_nil⟩

theorem rowsWithKey_length_le_one (db : DB) (h : db.WellFormed) (orgID : Nat) (year month : Int) :
    (db.rowsWithKey orgID year month).length ≤ 1 := by
  by_contra hc
  have h2 : 2 ≤ (db.rowsWithKey orgID year month).length := by omega
  have hnd : (db.rowsWithKey orgID year month).Nodup := by
    have : db.monthlyUsages.Nodup := List.Nodup.of_map _ h.ids
    exact this.filter _
  match hl : db.rowsWithKey orgID year month, h2, hnd with
  | a :: b :: t, _, hnd =>
    have ha : a ∈ db.rowsWithKey orgID year month := by rw [hl]; simp
    have hb : b ∈ db.rowsWithKey orgID year month := by rw [hl]; simp
    unfold DB.rowsWithKey at ha hb
    rw [List.mem_filter] at ha hb
    have hab := wf_key_inj db h a b ha.1 hb.1 orgID year month ha.2 hb.2
    simp [hab] at hnd

/-! ## Reading and rewriting the row of a period -/

theorem firstByKey_of_mem (db : DB) (h : db.WellFormed) (r : MonthlyUsage)
    (hr : r ∈ db.monthlyUsages) (orgID : Nat) (year month : Int)
    (hk : r.hasKey orgID year month = true) : db.firstByKey orgID year month = some r := by
  cases hf : db.firstByKey orgID year month with
  | none =>
    have := (firstByKey_none_iff _ _ _ _).mp hf r hr
    rw [hk] at this
    cases this
  | some x =>
    have hx := firstByKey_some _ _ _ _ _ hf
    rw [wf_key_inj db h x r hx.1 hr orgID year month hx.2 hk]

theorem firstByID_of_mem (db : DB) (h : db.WellFormed) (r : MonthlyUsage)
    (hr : r ∈ db.monthlyUsages) : db.firstByID r.ID = some r := by
  unfold DB.firstByID
  cases hf : db.monthlyUsages.find? (fun x => decide (x.ID = r.ID)) with
  | none =>
    have := List.find?_eq_none.mp hf r hr
    simp at this
  | some x =>
    have hx : x.ID = r.ID := by simpa using List.find?_some hf
    rw [wf_id_inj db h x r (List.mem_of_find?_eq_some hf) hr hx]

theorem rowsWithKey_eq_singleton (db : DB) (h : db.WellFormed) (r : MonthlyUsage)
    (hr : r ∈ db.monthlyUsages) (orgID : Nat) (year month : Int)
    (hk : r.hasKey orgID year month = true) : db.rowsWithKey orgID year month = [r] := by
  have hle := rowsWithKey_length_le_one db h orgID year month
  have hmem : r ∈ db.rowsWithKey orgID year month := by
    unfold DB.rowsWithKey
    exact List.mem_filter.mpr ⟨hr, hk⟩
  match hl : db.rowsWithKey orgID year month, hle, hmem with
  | [a], _, hmem =>
    rw [List.mem_singleton] at hmem
    rw [hmem]
  | a :: b :: t, hle, _ => simp at hle

theorem wf_mapRow (db : DB) (h : db.WellFormed) (id : Nat) (f : MonthlyUsage → MonthlyUsage)
    (hid : ∀ r, (f r).ID = r.ID)
    (hkey : ∀ r, (f r).OrgID = r.OrgID ∧ (f r).Year = r.Year ∧ (f r).Month = r.Month) :
    (db.mapRow id f).WellFormed := by
  unfold DB.mapRow
  apply wf_map db _ h
  · intro r; split
    · exact hid r
    · rfl
  · intro r; split
    · exact hkey r
    · exact ⟨rfl, rfl, rfl⟩

theorem mem_mapRow (db : DB) (r : MonthlyUsage) (hr : r ∈ db.monthlyUsages)
    (f : MonthlyUsage → MonthlyUsage) : f r ∈ (db.mapRow r.ID f).monthlyUsages := by
  unfold DB.mapRow
  simp only [List.mem_map]
  exact ⟨r, hr, by simp⟩

theorem hasKey_of_key (r r' : MonthlyUsage)
    (h : r'.OrgID = r.OrgID ∧ r'.Year = r.Year ∧ r'.Month = r.Month)
    (orgID : Nat) (year month : Int) :
    r'.hasKey orgID year month = r.hasKey orgID year month := by
  simp [MonthlyUsage.hasKey, h.1, h.2.1, h.2.2]

theorem rowsOutsideKey_mapRow (db : DB) (h : db.WellFormed) (r : MonthlyUsage)
    (hr : r ∈ db.monthlyUsages) (orgID : Nat) (year month : Int)
    (hk : r.hasKey orgID year month = true) (f : MonthlyUsage → MonthlyUsage)
    (hkey : ∀ r, (f r).OrgID = r.OrgID ∧ (f r).Year = r.Year ∧ (f r).Month = r.Month) :
    (db.mapRow r.ID f).rowsOutsideKey orgID year month = db.rowsOutsideKey orgID year month := by
  unfold DB.rowsOutsideKey DB.mapRow
  apply filter_map_of_fixed
  intro x hx
  constructor
  · split
    · rw [hasKey_of_key x (f x) (hkey x)]
    · rfl
  · intro hp
    split
    · rename_i hid
      have := wf_id_inj db h x r hx hr hid
      subst this
      rw [hk] at hp
      cases hp
    · rfl

/-- Rewriting the row of a period by primary key, in a store that satisfies the schema
constraints, changes that row and nothing else. -/
theorem mapRow_summary (db : DB) (h : db.WellFormed) (r : MonthlyUsage)
    (hr : r ∈ db.monthlyUsages) (orgID : Nat) (year month : Int)
    (hk : r.hasKey orgID year month = true) (f : MonthlyUsage → MonthlyUsage)
    (hid : ∀ r, (f r).ID = r.ID)
    (hkey : ∀ r, (f r).OrgID = r.OrgID ∧ (f r).Year = r.Year ∧ (f r).Month = r.Month) :
    (db.mapRow r.ID f).WellFormed ∧
    (db.mapRow r.ID f).firstByKey orgID year month = some (f r) ∧
    (db.mapRow r.ID f).firstByID r.ID = some (f r) ∧
    (db.mapRow r.ID f).rowsWithKey orgID year month = [f r] ∧
    (db.mapRow r.ID f).rowsOutsideKey orgID year month = db.rowsOutsideKey orgID year month ∧
    (db.mapRow r.ID f).checks = db.checks ∧ (db.mapRow r.ID f).apiKeys = db.apiKeys := by
  have hwf := wf_mapRow db h r.ID f hid hkey
  have hmem := mem_mapRow db r hr f
  have hk' : (f r).hasKey orgID year month = true := by
    rw [hasKey_of_key r (f r) (hkey r)]; exact hk
  refine ⟨hwf, firstByKey_of_mem _ hwf _ hmem _ _ _ hk', ?_,
    rowsWithKey_eq_singleton _ hwf _ hmem _ _ _ hk',
    rowsOutsideKey_mapRow db h r hr orgID year month hk f hkey, rfl, rfl⟩
  have := firstByID_of_mem _ hwf _ hmem
  rwa [hid r] at this

/-- With the insert and the re-read succeeding, `GetOrCreateMonthlyUsage` returns the
row of the period, which afterwards is in the store; every other row, the check table
and the API-key table are as before. -/
theorem getOrCreate_summary (db : DB) (faults : Faults) (now : Time) (orgID : Nat)
    (hwf : db.WellFormed) (h0 : faults 0 = none) (h1 : faults 1 = none) :
    ∃ r0 db1, GetOrCreateMonthlyUsage db faults now orgID =
        { val := some r0, err := none, db := db1 } ∧
      db1.WellFormed ∧ r0 ∈ db1.monthlyUsages ∧
      r0.hasKey orgID now.Year now.Month.toInt = true ∧
      db1.checks = db.checks ∧ db1.apiKeys = db.apiKeys ∧
      db1.rowsOutsideKey orgID now.Year now.Month.toInt =
        db.rowsOutsideKey orgID now.Year now.Month.toInt ∧
      (∀ c, r0.get c = db.counterOf orgID now.Year now.Month.toInt c) ∧
      ((db.firstByKey orgID now.Year now.Month.toInt = some r0 ∧ db1 = db) ∨
       (db.firstByKey orgID now.Year now.Month.toInt = none ∧
        r0 = db.freshUsage orgID now.Year now.Month.toInt ∧
        db1.monthlyUsages = db.monthlyUsages ++ [r0])) := by
  cases hf : db.firstByKey orgID now.Year now.Month.toInt with
  | some r =>
    have hr := firstByKey_some _ _ _ _ _ hf
    refine ⟨r, db, getOrCreate_of_some db faults now orgID r h0 h1 hf, hwf, hr.1, hr.2,
      rfl, rfl, rfl, ?_, Or.inl ⟨rfl, rfl⟩⟩
    intro c
    simp only [DB.counterOf, hf]
  | none =>
    have hg := getOrCreate_of_none db faults now orgID h0 h1 hf
    have hwf1 := wf_getOrCreate db faults now orgID hwf
    rw [hg] at hwf1
    refine ⟨_, _, hg, hwf1, by simp, by simp [DB.freshUsage, MonthlyUsage.hasKey],
      rfl, rfl, ?_, ?_, Or.inr ⟨rfl, rfl, rfl⟩⟩
    · simp [DB.rowsOutsideKey, DB.freshUsage, MonthlyUsage.hasKey]
    · intro c
      simp only [DB.counterOf, hf]
      cases c <;> rfl

/-! ## Plan lookup -/

/-- C1. Plan lookup is fail-safe: a plan value that is no key of the catalog resolves to
the free-tier entry `PlanConfigs[PlanFree]`; `GetOrgPlanConfig` gives that same entry
for a nil organization and for an organization whose plan is not valid, and
`GetPlanConfig org.Plan` otherwise.  Both are total functions. -/
theorem plan_lookup_fail_safe (p : Plan) (org : Organization) :
    (p ∉ PlanConfigs.keys → GetPlanConfig p = PlanConfigs.index PlanFree) ∧
    GetOrgPlanConfig none = PlanConfigs.index PlanFree ∧
    (org.Plan.IsValid = false → GetOrgPlanConfig (some org) = PlanConfigs.index PlanFree) ∧
    (org.Plan.IsValid = true → GetOrgPlanConfig (some org) = GetPlanConfig org.Plan) ∧
    PlanConfigs.get? PlanFree = some (PlanConfigs.index PlanFree) ∧
    (PlanConfigs.index PlanFree).Name = "Free" := by
  refine ⟨?_, rfl, ?_, ?_, by decide, by decide⟩
  · intro hp
    have hp' : p ≠ "free" ∧ p ≠ "indie_pro" ∧ p ≠ "team" ∧ p ≠ "agency" := by
      simpa [PlanConfigs.keys, PlanConfigs, PlanFree, PlanIndiePro, PlanTeam, PlanAgency]
        using hp
    have h1 : (p == "free") = false := beq_eq_false_iff_ne.mpr hp'.1
    have h2 : (p == "indie_pro") = false := beq_eq_false_iff_ne.mpr hp'.2.1
    have h3 : (p == "team") = false := beq_eq_false_iff_ne.mpr hp'.2.2.1
    have h4 : (p == "agency") = false := beq_eq_false_iff_ne.mpr hp'.2.2.2
    have : PlanConfigs.get? p = none := by
      simp only [PlanConfigs.get?, PlanConfigs, List.lookup, PlanFree, PlanIndiePro, PlanTeam,
        PlanAgency, h1, h2, h3, h4]
    simp only [GetPlanConfig, this]
  · intro hv
    simp [GetOrgPlanConfig, hv]
  · intro hv
    simp [GetOrgPlanConfig, hv]

/-- The unknown plan "platinum" resolves to the free tier, directly and through an
organization that holds it. -/
theorem plan_lookup_fail_safe_witness :
    GetPlanConfig "platinum" = PlanConfigs.index PlanFree ∧
    GetOrgPlanConfig (some { ID := 7, Plan := "platinum" }) = PlanConfigs.index PlanFree ∧
    GetOrgPlanConfig (some { ID := 8, Plan := "team" }) = GetPlanConfig "team" :=
  ⟨(plan_lookup_fail_safe "platinum" { ID := 7, Plan := "platinum" }).1 (by decide),
   (plan_lookup_fail_safe "platinum" { ID := 7, Plan := "platinum" }).2.2.1 (by decide),
   (plan_lookup_fail_safe "platinum" { ID := 8, Plan := "team" }).2.2.2.1 (by decide)⟩

/-! ## The ledger -/

/-- C2. In every store reached from an empty ledger by a sequence of calls of
`GetOrCreateMonthlyUsage`, `IncrementLogVolume`, `IncrementAICalls`,
`SyncResourceCounts`, `GetUsageSnapshot` and `GetCurrentLogVolume` (any organizations,
call times, arguments and statement failures, interleaved with any changes of the
check and API-key tables) each key `(OrgID, Year, Month)` has at most one row. -/
theorem ledger_row_unique (checks : List Check) (apiKeys : List APIKey) (calls : List Call)
    (orgID : Nat) (year month : Int) :
    (((DB.emptyLedger checks apiKeys).run calls).rowsWithKey orgID year month).length ≤ 1 :=
  rowsWithKey_length_le_one _ (wf_run calls _ (wf_emptyLedger checks apiKeys)) orgID year month

theorem sampleDB_wf : sampleDB.WellFormed :=
  ⟨by decide, by decide⟩

theorem month_toInt_range (m : Month) : 1 ≤ m.toInt ∧ m.toInt ≤ 12 := by
  cases m <;> exact ⟨by decide, by decide⟩

/-- `GetOrCreateMonthlyUsage` returns no error exactly when neither of its two
statements fails. -/
theorem getOrCreate_err_none_iff (db : DB) (faults : Faults) (now : Time) (orgID : Nat) :
    (GetOrCreateMonthlyUsage db faults now orgID).err = none ↔
      faults 0 = none ∧ faults 1 = none := by
  constructor
  · intro h
    unfold GetOrCreateMonthlyUsage at h
    dsimp only at h
    split at h
    · cases h
    · rename_i h0
      split at h
      · cases h
      · rename_i h1
        exact ⟨h0, h1⟩
  · rintro ⟨h0, h1⟩
    cases hf : db.firstByKey orgID now.Year now.Month.toInt with
    | some r => rw [getOrCreate_of_some db faults now orgID r h0 h1 hf]
    | none => rw [getOrCreate_of_none db faults now orgID h0 h1 hf]

/-- C3. A call of `GetOrCreateMonthlyUsage` succeeds exactly when its insert and its
re-read do not fail.  A successful call returns a row with the given organization and
the UTC year and month (1 to 12) of the call time; if the period had a row, the store
is unchanged and the returned row is that stored row; if it had none, one row with
that key and seven zero counters is appended and returned, and the check and API-key
tables are untouched.  A second successful call in the same period returns the same
row and leaves the store as the first call left it. -/
theorem getOrCreate_postcondition (db : DB) (faults : Faults) (now : Time) (orgID : Nat)
    (hwf : db.WellFormed)
    (hok : (GetOrCreateMonthlyUsage db faults now orgID).err = none) :
    ∃ row : MonthlyUsage,
      (GetOrCreateMonthlyUsage db faults now orgID).val = some row ∧
      row.OrgID = orgID ∧ row.Year = now.Year ∧ row.Month = now.Month.toInt ∧
      1 ≤ row.Month ∧ row.Month ≤ 12 ∧
      (∀ r ∈ db.monthlyUsages, r.hasKey orgID now.Year now.Month.toInt = true →
        (GetOrCreateMonthlyUsage db faults now orgID).db = db ∧ row = r) ∧
      ((∀ r ∈ db.monthlyUsages, r.hasKey orgID now.Year now.Month.toInt = false) →
        (GetOrCreateMonthlyUsage db faults now orgID).db.monthlyUsages =
          db.monthlyUsages ++ [row] ∧
        (GetOrCreateMonthlyUsage db faults now orgID).db.checks = db.checks ∧
        (GetOrCreateMonthlyUsage db faults now orgID).db.apiKeys = db.apiKeys ∧
        row.counters = [0, 0, 0, 0, 0, 0, 0]) ∧
      (∀ (faults2 : Faults) (now2 : Time),
        now2.Year = now.Year → now2.Month = now.Month →
        (GetOrCreateMonthlyUsage (GetOrCreateMonthlyUsage db faults now orgID).db
          faults2 now2 orgID).err = none →
        (GetOrCreateMonthlyUsage (GetOrCreateMonthlyUsage db faults now orgID).db
          faults2 now2 orgID).val = some row ∧
        (GetOrCreateMonthlyUsage (GetOrCreateMonthlyUsage db faults now orgID).db
          faults2 now2 orgID).db = (GetOrCreateMonthlyUsage db faults now orgID).db) := by
  obtain ⟨h0, h1⟩ := (getOrCreate_err_none_iff db faults now orgID).mp hok
  obtain ⟨r0, db1, hg, hwf1, hmem, hk, hc, ha, _, _, hcase⟩ :=
    getOrCreate_summary db faults now orgID hwf h0 h1
  rw [hg]
  have hk3 := (hasKey_iff _ _ _ _).mp hk
  have hm := month_toInt_range now.Month
  refine ⟨r0, rfl, hk3.1, hk3.2.1, hk3.2.2, by rw [hk3.2.2]; exact hm.1,
    by rw [hk3.2.2]; exact hm.2, ?_, ?_, ?_⟩
  · intro r hr hkr
    rcases hcase with ⟨hf, hdb⟩ | ⟨hf, _, _⟩
    · have h0' := firstByKey_some _ _ _ _ _ hf
      exact ⟨hdb, wf_key_inj db hwf r0 r h0'.1 hr _ _ _ h0'.2 hkr⟩
    · have := (firstByKey_none_iff _ _ _ _).mp hf r hr
      rw [hkr] at this
      cases this
  · intro hnone
    rcases hcase with ⟨hf, _⟩ | ⟨_, hfresh, hrows⟩
    · have h0' := firstByKey_some _ _ _ _ _ hf
      have := hnone r0 h0'.1
      rw [h0'.2] at this
      cases this
    · refine ⟨hrows, hc, ha, ?_⟩
      rw [hfresh]
      rfl
  · intro faults2 now2 hy hmo hok2
    obtain ⟨h20, h21⟩ := (getOrCreate_err_none_iff db1 faults2 now2 orgID).mp hok2
    have hf1 : db1.firstByKey orgID now2.Year now2.Month.toInt = some r0 := by
      rw [hy, hmo]
      exact firstByKey_of_mem db1 hwf1 r0 hmem _ _ _ hk
    rw [getOrCreate_of_some db1 faults2 now2 orgID r0 h20 h21 hf1]
    exact ⟨rfl, rfl⟩

/-- On the sample store, organization 1 already has its March 2025 row: the call
succeeds, returns a row and leaves the store unchanged. -/
theorem getOrCreate_postcondition_witness :
    sampleDB.WellFormed ∧
    (GetOrCreateMonthlyUsage sampleDB Faults.none sampleTime 1).err = none ∧
    ∃ row : MonthlyUsage,
      (GetOrCreateMonthlyUsage sampleDB Faults.none sampleTime 1).val = some row ∧
      row.OrgID = 1 ∧ row.Year = sampleTime.Year ∧ row.Month = sampleTime.Month.toInt := by
  refine ⟨sampleDB_wf, rfl, ?_⟩
  obtain ⟨row, h1, h2, h3, h4, _⟩ :=
    getOrCreate_postcondition sampleDB Faults.none sampleTime 1 sampleDB_wf rfl
  exact ⟨row, h1, h2, h3, h4⟩

/-! ## IncrementLogVolume -/

theorem updateAdd_ok (db : DB) (h : db.WellFormed) (r : MonthlyUsage)
    (hr : r ∈ db.monthlyUsages) (c : Column) (d : Int)
    (hrange : inInt64 (r.get c + d) = true) :
    db.updateAdd r.ID c d = .ok (db.mapRow r.ID (fun x => x.set c (x.get c + d))) := by
  have hany : ¬ db.monthlyUsages.any
      (fun x => decide (x.ID = r.ID) && !inInt64 (x.get c + d)) = true := by
    intro hc
    obtain ⟨x, hx, hp⟩ := List.any_eq_true.mp hc
    simp only [Bool.and_eq_true, decide_eq_true_eq, Bool.not_eq_true'] at hp
    have := wf_id_inj db h x r hx hr hp.1
    subst this
    rw [hrange] at hp
    cases hp.2
  unfold DB.updateAdd
  rw [if_neg hany]
  rfl

theorem updateAdd_error (db : DB) (r : MonthlyUsage) (hr : r ∈ db.monthlyUsages) (c : Column)
    (d : Int) (hrange : inInt64 (r.get c + d) = false) :
    db.updateAdd r.ID c d = .error DBError.NumericValueOutOfRange := by
  have hany : db.monthlyUsages.any
      (fun x => decide (x.ID = r.ID) && !inInt64 (x.get c + d)) = true :=
    List.any_eq_true.mpr ⟨r, hr, by simp [hrange]⟩
  unfold DB.updateAdd
  rw [if_pos hany]

theorem counterOf_of_firstByKey (db : DB) (orgID : Nat) (year month : Int) (r : MonthlyUsage)
    (h : db.firstByKey orgID year month = some r) (c : Column) :
    db.counterOf orgID year month c = r.get c := by
  simp only [DB.counterOf, h]

/-- The exact result of `IncrementLogVolume` when no statement fails and the sum fits
the column: the row of the period, as `GetOrCreateMonthlyUsage` leaves it, has its
log volume rewritten to the sum. -/
theorem incrementLogVolume_of_getOrCreate (db : DB) (faults : Faults) (now : Time)
    (orgID : Nat) (bytes : Int) (r0 : MonthlyUsage) (db1 : DB)
    (hg : GetOrCreateMonthlyUsage db faults now orgID =
      { val := some r0, err := none, db := db1 })
    (hwf1 : db1.WellFormed) (hmem : r0 ∈ db1.monthlyUsages)
    (h2 : faults 2 = none) (h3 : faults 3 = none)
    (hrange : inInt64 (r0.get Column.log_volume_bytes + bytes) = true) :
    IncrementLogVolume db faults now orgID bytes =
      { val := r0.LogVolumeBytes + bytes, err := none,
        db := db1.mapRow r0.ID
          (fun x => x.set Column.log_volume_bytes (x.get Column.log_volume_bytes + bytes)) } := by
  have hu := updateAdd_ok db1 hwf1 r0 hmem Column.log_volume_bytes bytes hrange
  have hwf2 := wf_mapRow db1 hwf1 r0.ID
    (fun x => x.set Column.log_volume_bytes (x.get Column.log_volume_bytes + bytes))
    (fun x => set_ID _ _ _) (fun x => set_key _ _ _)
  have hid := firstByID_of_mem _ hwf2 _ (mem_mapRow db1 r0 hmem
    (fun x => x.set Column.log_volume_bytes (x.get Column.log_volume_bytes + bytes)))
  rw [set_ID] at hid
  unfold IncrementLogVolume
  simp only [hg, h2, h3, hu, hid]
  rfl

/-- The counters of the period after its row `r0` has been rewritten by `f`. -/
theorem counterOf_mapRow (db : DB) (h : db.WellFormed) (r : MonthlyUsage)
    (hr : r ∈ db.monthlyUsages) (orgID : Nat) (year month : Int)
    (hk : r.hasKey orgID year month = true) (f : MonthlyUsage → MonthlyUsage)
    (hid : ∀ r, (f r).ID = r.ID)
    (hkey : ∀ r, (f r).OrgID = r.OrgID ∧ (f r).Year = r.Year ∧ (f r).Month = r.Month)
    (c : Column) :
    (db.mapRow r.ID f).counterOf orgID year month c = (f r).get c :=
  counterOf_of_firstByKey _ _ _ _ _
    (mapRow_summary db h r hr orgID year month hk f hid hkey).2.1 c

/-- C4. When no statement fails and `old + bytes` fits a signed 64-bit column, where
`old` is the log volume of the organization's row for the current period before the
call (0 when there is no row), `IncrementLogVolume` returns `old + bytes` with no
error; afterwards the period has exactly one row, its log volume is `old + bytes`, its
other six counters are what they were (0 for a new row), and the rows of every other
organization or period, the check table and the API-key table are unchanged. -/
theorem incrementLogVolume_effect (db : DB) (faults : Faults) (now : Time) (orgID : Nat)
    (bytes : Int) (hwf : db.WellFormed)
    (hf : ∀ k, k < 4 → faults k = none)
    (hrange : inInt64
      (db.counterOf orgID now.Year now.Month.toInt Column.log_volume_bytes + bytes) = true) :
    ∃ db2, IncrementLogVolume db faults now orgID bytes =
        { val := db.counterOf orgID now.Year now.Month.toInt Column.log_volume_bytes + bytes,
          err := none, db := db2 } ∧
      db2.counterOf orgID now.Year now.Month.toInt Column.log_volume_bytes =
        db.counterOf orgID now.Year now.Month.toInt Column.log_volume_bytes + bytes ∧
      (∀ c, c ≠ Column.log_volume_bytes →
        db2.counterOf orgID now.Year now.Month.toInt c =
          db.counterOf orgID now.Year now.Month.toInt c) ∧
      (db2.rowsWithKey orgID now.Year now.Month.toInt).length = 1 ∧
      db2.rowsOutsideKey orgID now.Year now.Month.toInt =
        db.rowsOutsideKey orgID now.Year now.Month.toInt ∧
      db2.checks = db.checks ∧ db2.apiKeys = db.apiKeys := by
  obtain ⟨r0, db1, hg, hwf1, hmem, hk, hc, ha, hout, hcnt, _⟩ :=
    getOrCreate_summary db faults now orgID hwf (hf 0 (by decide)) (hf 1 (by decide))
  have hr : inInt64 (r0.get Column.log_volume_bytes + bytes) = true := by
    rw [hcnt]; exact hrange
  have hres := incrementLogVolume_of_getOrCreate db faults now orgID bytes r0 db1 hg hwf1 hmem
    (hf 2 (by decide)) (hf 3 (by decide)) hr
  have hs := mapRow_summary db1 hwf1 r0 hmem orgID now.Year now.Month.toInt hk
    (fun x => x.set Column.log_volume_bytes (x.get Column.log_volume_bytes + bytes))
    (fun x => set_ID _ _ _) (fun x => set_key _ _ _)
  have hco := counterOf_mapRow db1 hwf1 r0 hmem orgID now.Year now.Month.toInt hk
    (fun x => x.set Column.log_volume_bytes (x.get Column.log_volume_bytes + bytes))
    (fun x => set_ID _ _ _) (fun x => set_key _ _ _)
  refine ⟨db1.mapRow r0.ID
    (fun x => x.set Column.log_volume_bytes (x.get Column.log_volume_bytes + bytes)),
    ?_, ?_, ?_, ?_, ?_, ?_, ?_⟩
  · rw [hres, ← hcnt]; rfl
  · rw [hco, get_set, if_pos rfl, hcnt]
  · intro c hcne
    rw [hco, get_set, if_neg hcne, hcnt]
  · rw [hs.2.2.2.1]; rfl
  · rw [hs.2.2.2.2.1, hout]
  · rw [hs.2.2.2.2.2.1, hc]
  · rw [hs.2.2.2.2.2.2, ha]

/-- On the sample store, adding 25 bytes for organization 1 in March 2025 returns
125 and stores 125. -/
theorem incrementLogVolume_effect_witness :
    sampleDB.WellFormed ∧ (∀ k, k < 4 → Faults.none k = none) ∧
    (IncrementLogVolume sampleDB Faults.none sampleTime 1 25).val = 125 ∧
    (IncrementLogVolume sampleDB Faults.none sampleTime 1 25).err = none ∧
    (IncrementLogVolume sampleDB Faults.none sampleTime 1 25).db.counterOf 1 2025 3
      Column.log_volume_bytes = 125 := by
  obtain ⟨db2, h, h1, _⟩ :=
    incrementLogVolume_effect sampleDB Faults.none sampleTime 1 25 sampleDB_wf
      (fun _ _ => rfl) (by decide)
  refine ⟨sampleDB_wf, fun _ _ => rfl, ?_, ?_, ?_⟩
  · rw [h]
    show sampleDB.counterOf 1 sampleTime.Year sampleTime.Month.toInt
      Column.log_volume_bytes + 25 = 125
    decide
  · rw [h]
  · rw [h]; exact h1.trans (by decide)

/-! ## IncrementAICalls -/

theorem incrementAICalls_of_getOrCreate (db : DB) (faults : Faults) (now : Time)
    (orgID : Nat) (level : Int) (c : Column) (r0 : MonthlyUsage) (db1 : DB)
    (hlevel : aiColumn level = some c)
    (hg : GetOrCreateMonthlyUsage db faults now orgID =
      { val := some r0, err := none, db := db1 }) :
    IncrementAICalls db faults now orgID level = incrementColumn db1 faults r0.ID c := by
  unfold aiColumn at hlevel
  unfold IncrementAICalls
  simp only [hg]
  split_ifs at hlevel ⊢ <;> simp_all

theorem incrementAICalls_of_default (db : DB) (faults : Faults) (now : Time)
    (orgID : Nat) (level : Int) (hlevel : aiColumn level = none) :
    IncrementAICalls db faults now orgID level =
      { val := (), err := (GetOrCreateMonthlyUsage db faults now orgID).err,
        db := (GetOrCreateMonthlyUsage db faults now orgID).db } := by
  unfold aiColumn at hlevel
  unfold IncrementAICalls
  dsimp only
  split_ifs at hlevel with h1 h2 h3
  split
  · rename_i heq
    rw [if_neg h1, if_neg h2, if_neg h3, heq]
  · rfl

theorem inInt64_iff (v : Int) :
    inInt64 v = true ↔ -9223372036854775808 ≤ v ∧ v < 9223372036854775808 := by
  unfold inInt64
  simp only [Bool.and_eq_true, decide_eq_true_eq]
  norm_num

/-- One successful call of `IncrementAICalls` with a level the `switch` knows. -/
theorem incrementAICalls_step (db : DB) (faults : Faults) (now : Time) (orgID : Nat)
    (level : Int) (c : Column) (hwf : db.WellFormed) (hlevel : aiColumn level = some c)
    (hf : ∀ k, k < 3 → faults k = none)
    (hrange : inInt64 (db.counterOf orgID now.Year now.Month.toInt c + 1) = true) :
    ∃ db2, IncrementAICalls db faults now orgID level = { val := (), err := none, db := db2 } ∧
      db2.WellFormed ∧
      db2.counterOf orgID now.Year now.Month.toInt c =
        db.counterOf orgID now.Year now.Month.toInt c + 1 ∧
      (∀ c', c' ≠ c →
        db2.counterOf orgID now.Year now.Month.toInt c' =
          db.counterOf orgID now.Year now.Month.toInt c') ∧
      (db2.rowsWithKey orgID now.Year now.Month.toInt).length = 1 ∧
      db2.rowsOutsideKey orgID now.Year now.Month.toInt =
        db.rowsOutsideKey orgID now.Year now.Month.toInt ∧
      db2.checks = db.checks ∧ db2.apiKeys = db.apiKeys := by
  obtain ⟨r0, db1, hg, hwf1, hmem, hk, hc, ha, hout, hcnt, _⟩ :=
    getOrCreate_summary db faults now orgID hwf (hf 0 (by decide)) (hf 1 (by decide))
  have hr : inInt64 (r0.get c + 1) = true := by
    rw [hcnt]; exact hrange
  have hu := updateAdd_ok db1 hwf1 r0 hmem c 1 hr
  have hs := mapRow_summary db1 hwf1 r0 hmem orgID now.Year now.Month.toInt hk
    (fun x => x.set c (x.get c + 1)) (fun x => set_ID _ _ _) (fun x => set_key _ _ _)
  have hco := counterOf_mapRow db1 hwf1 r0 hmem orgID now.Year now.Month.toInt hk
    (fun x => x.set c (x.get c + 1)) (fun x => set_ID _ _ _) (fun x => set_key _ _ _)
  refine ⟨db1.mapRow r0.ID (fun x => x.set c (x.get c + 1)), ?_, hs.1, ?_, ?_, ?_, ?_, ?_, ?_⟩
  · rw [incrementAICalls_of_getOrCreate db faults now orgID level c r0 db1 hlevel hg]
    unfold incrementColumn
    simp only [hf 2 (by decide), hu]
  · rw [hco, get_set, if_pos rfl, hcnt]
  · intro c' hcne
    rw [hco, get_set, if_neg hcne, hcnt]
  · rw [hs.2.2.2.1]; rfl
  · rw [hs.2.2.2.2.1, hout]
  · rw [hs.2.2.2.2.2.1, hc]
  · rw [hs.2.2.2.2.2.2, ha]

/-- Sequential successful calls of `IncrementAICalls` in one period add one each. -/
theorem incrementAICallsSeq_ok (orgID : Nat) (level : Int) (c : Column) (year month : Int)
    (hlevel : aiColumn level = some c) (calls : List (Faults × Time)) :
    ∀ db : DB, db.WellFormed →
      (∀ call ∈ calls, (∀ k, k < 3 → call.1 k = none) ∧
        call.2.Year = year ∧ call.2.Month.toInt = month) →
      inInt64 (db.counterOf orgID year month c) = true →
      inInt64 (db.counterOf orgID year month c + calls.length) = true →
      (incrementAICallsSeq db orgID level calls).1 = List.replicate calls.length none ∧
      (incrementAICallsSeq db orgID level calls).2.counterOf orgID year month c =
        db.counterOf orgID year month c + calls.length ∧
      (∀ c', c' ≠ c →
        (incrementAICallsSeq db orgID level calls).2.counterOf orgID year month c' =
          db.counterOf orgID year month c') := by
  induction calls with
  | nil =>
    intro db _ _ _ _
    simp [incrementAICallsSeq]
  | cons call rest ih =>
    intro db hwf hcalls hlo hhi
    obtain ⟨faults, now⟩ := call
    have hcall := hcalls (faults, now) (List.mem_cons_self _ _)
    obtain ⟨hf, hy, hm⟩ := hcall
    simp only at hf hy hm
    subst hy hm
    rw [inInt64_iff] at hlo hhi
    simp only [List.length_cons, Nat.cast_add, Nat.cast_one] at hhi
    have hr1 : inInt64 (db.counterOf orgID now.Year now.Month.toInt c + 1) = true := by
      rw [inInt64_iff]; omega
    obtain ⟨db2, hres, hwf2, hc2, hother, _⟩ :=
      incrementAICalls_step db faults now orgID level c hwf hlevel hf hr1
    have hlo2 : inInt64 (db2.counterOf orgID now.Year now.Month.toInt c) = true := by
      rw [hc2, inInt64_iff]; omega
    have hhi2 : inInt64 (db2.counterOf orgID now.Year now.Month.toInt c + rest.length) = true := by
      rw [hc2, inInt64_iff]; omega
    obtain ⟨i1, i2, i3⟩ := ih db2 hwf2
      (fun call hc => hcalls call (List.mem_cons_of_mem _ hc)) hlo2 hhi2
    simp only [incrementAICallsSeq, hres, List.length_cons, List.replicate_succ, i1, i2, hc2,
      Nat.cast_add, Nat.cast_one]
    refine ⟨trivial, by omega, ?_⟩
    intro c' hcne
    rw [i3 c' hcne, hother c' hcne]

/-- C6. `IncrementAICalls` with level 1, 2 or 3, when no statement fails (and the
counter plus one fits its column), returns no error, adds 1 to the counter of that
level on the organization's row for the current period and leaves the other six
counters of that row, every other row, the check table and the API-key table
unchanged.  The call has no plan among its inputs: any number of sequential calls in
one period all return no error and leave the counter increased by their number. -/
theorem incrementAICalls_effect (db : DB) (orgID : Nat) (level : Int) (c : Column)
    (hwf : db.WellFormed) (hlevel : aiColumn level = some c) :
    (level = 1 ∧ c = Column.ai_level1_calls ∨ level = 2 ∧ c = Column.ai_level2_calls ∨
      level = 3 ∧ c = Column.ai_level3_calls) ∧
    (∀ (faults : Faults) (now : Time), (∀ k, k < 3 → faults k = none) →
      inInt64 (db.counterOf orgID now.Year now.Month.toInt c + 1) = true →
      ∃ db2, IncrementAICalls db faults now orgID level =
          { val := (), err := none, db := db2 } ∧
        db2.counterOf orgID now.Year now.Month.toInt c =
          db.counterOf orgID now.Year now.Month.toInt c + 1 ∧
        (∀ c', c' ≠ c →
          db2.counterOf orgID now.Year now.Month.toInt c' =
            db.counterOf orgID now.Year now.Month.toInt c') ∧
        (db2.rowsWithKey orgID now.Year now.Month.toInt).length = 1 ∧
        db2.rowsOutsideKey orgID now.Year now.Month.toInt =
          db.rowsOutsideKey orgID now.Year now.Month.toInt ∧
        db2.checks = db.checks ∧ db2.apiKeys = db.apiKeys) ∧
    (∀ (year month : Int) (calls : List (Faults × Time)),
      (∀ call ∈ calls, (∀ k, k < 3 → call.1 k = none) ∧
        call.2.Year = year ∧ call.2.Month.toInt = month) →
      inInt64 (db.counterOf orgID year month c) = true →
      inInt64 (db.counterOf orgID year month c + calls.length) = true →
      (incrementAICallsSeq db orgID level calls).1 = List.replicate calls.length none ∧
      (incrementAICallsSeq db orgID level calls).2.counterOf orgID year month c =
        db.counterOf orgID year month c + calls.length) := by
  refine ⟨?_, ?_, ?_⟩
  · unfold aiColumn at hlevel
    split_ifs at hlevel with h1 h2 h3
    · exact Or.inl ⟨h1, (Option.some.inj hlevel).symm⟩
    · exact Or.inr (Or.inl ⟨h2, (Option.some.inj hlevel).symm⟩)
    · exact Or.inr (Or.inr ⟨h3, (Option.some.inj hlevel).symm⟩)
  · intro faults now hf hrange
    obtain ⟨db2, h1, _, h2⟩ :=
      incrementAICalls_step db faults now orgID level c hwf hlevel hf hrange
    exact ⟨db2, h1, h2⟩
  · intro year month calls hcalls hlo hhi
    obtain ⟨h1, h2, _⟩ :=
      incrementAICallsSeq_ok orgID level c year month hlevel calls db hwf hcalls hlo hhi
    exact ⟨h1, h2⟩

/-- On the sample store organization 1 has 6 level-2 calls in March 2025; the free plan
allows none, and 31 sequential level-2 calls all return no error and leave 37. -/
theorem incrementAICalls_effect_witness :
    sampleDB.WellFormed ∧ aiColumn 2 = some Column.ai_level2_calls ∧
    (GetPlanConfig PlanFree).AILevel2Limit = 0 ∧
    (incrementAICallsSeq sampleDB 1 2 (List.replicate 31 (Faults.none, sampleTime))).1 =
      List.replicate 31 none ∧
    (incrementAICallsSeq sampleDB 1 2 (List.replicate 31 (Faults.none, sampleTime))).2.counterOf
      1 2025 3 Column.ai_level2_calls = 37 := by
  have h := (incrementAICalls_effect sampleDB 1 2 Column.ai_level2_calls sampleDB_wf rfl).2.2
    2025 3 (List.replicate 31 (Faults.none, sampleTime))
    (fun call hc => by
      rw [List.eq_of_mem_replicate hc]
      exact ⟨fun _ _ => rfl, rfl, rfl⟩)
    (by decide) (by decide)
  refine ⟨sampleDB_wf, rfl, by decide, ?_, ?_⟩
  · simpa using h.1
  · rw [h.2]; decide

/-- Whatever fails, `GetOrCreateMonthlyUsage` leaves the check and API-key tables alone
and either leaves the ledger alone or appends the fresh row of the period; it leaves
the whole store alone when the period already has a row. -/
theorem getOrCreate_db_shape (db : DB) (faults : Faults) (now : Time) (orgID : Nat) :
    ((GetOrCreateMonthlyUsage db faults now orgID).db = db ∨
      (db.firstByKey orgID now.Year now.Month.toInt = none ∧
       (GetOrCreateMonthlyUsage db faults now orgID).db.monthlyUsages =
        db.monthlyUsages ++ [db.freshUsage orgID now.Year now.Month.toInt])) ∧
    (GetOrCreateMonthlyUsage db faults now orgID).db.checks = db.checks ∧
    (GetOrCreateMonthlyUsage db faults now orgID).db.apiKeys = db.apiKeys := by
  rcases getOrCreate_db_cases db faults now orgID with hdb | hdb
  · rw [hdb]; exact ⟨Or.inl rfl, rfl, rfl⟩
  · rw [hdb]
    cases hf : db.firstByKey orgID now.Year now.Month.toInt with
    | some r =>
      rw [create_of_some db _ r hf]
      exact ⟨Or.inl rfl, rfl, rfl⟩
    | none =>
      rw [create_of_none db _ hf]
      exact ⟨Or.inr ⟨rfl, rfl⟩, rfl, rfl⟩

/-- Counterexample to C7.  Level 0 is outside 1, 2, 3.  On a store whose ledger is
empty the call returns no error but the store is not what it was: the row of the
period has been created.  And when the storage statements fail, the call returns the
error. -/
theorem incrementAICalls_default_not_noop :
    aiColumn 0 = none ∧
    (IncrementAICalls (DB.emptyLedger [] []) Faults.none sampleTime 1 0).err = none ∧
    (IncrementAICalls (DB.emptyLedger [] []) Faults.none sampleTime 1 0).db ≠
      DB.emptyLedger [] [] ∧
    (IncrementAICalls (DB.emptyLedger [] []) Faults.none sampleTime 1 0).db.monthlyUsages =
      [(DB.emptyLedger [] []).freshUsage 1 2025 3] ∧
    (IncrementAICalls sampleDB (Faults.all (DBError.other 7)) sampleTime 1 0).err =
      some (DBError.other 7) := by
  refine ⟨by decide, by decide, by decide, by decide, by decide⟩

/-- C7, amended.  For a level outside 1, 2, 3 `IncrementAICalls` does what
`GetOrCreateMonthlyUsage` does and nothing more: it returns that call's error, so no
error when the insert and the re-read succeed; it leaves the store exactly as it was
when the period already has a row; otherwise the only change it can make is to append
the zero-counter row of the period.  No existing row, check or API key changes. -/
theorem incrementAICalls_default (db : DB) (faults : Faults) (now : Time) (orgID : Nat)
    (level : Int) (h1 : level ≠ 1) (h2 : level ≠ 2) (h3 : level ≠ 3) :
    (IncrementAICalls db faults now orgID level).err =
      (GetOrCreateMonthlyUsage db faults now orgID).err ∧
    (IncrementAICalls db faults now orgID level).db =
      (GetOrCreateMonthlyUsage db faults now orgID).db ∧
    (faults 0 = none → faults 1 = none →
      (IncrementAICalls db faults now orgID level).err = none) ∧
    ((∃ r ∈ db.monthlyUsages, r.hasKey orgID now.Year now.Month.toInt = true) →
      (IncrementAICalls db faults now orgID level).db = db) ∧
    ((IncrementAICalls db faults now orgID level).db = db ∨
      (IncrementAICalls db faults now orgID level).db.monthlyUsages =
        db.monthlyUsages ++ [db.freshUsage orgID now.Year now.Month.toInt]) ∧
    (db.freshUsage orgID now.Year now.Month.toInt).counters = [0, 0, 0, 0, 0, 0, 0] ∧
    (IncrementAICalls db faults now orgID level).db.checks = db.checks ∧
    (IncrementAICalls db faults now orgID level).db.apiKeys = db.apiKeys := by
  have hlevel : aiColumn level = none := by
    unfold aiColumn
    rw [if_neg h1, if_neg h2, if_neg h3]
  rw [incrementAICalls_of_default db faults now orgID level hlevel]
  obtain ⟨hshape, hc, ha⟩ := getOrCreate_db_shape db faults now orgID
  refine ⟨rfl, rfl, ?_, ?_, ?_, rfl, hc, ha⟩
  · intro h0 h1
    exact (getOrCreate_err_none_iff db faults now orgID).mpr ⟨h0, h1⟩
  · rintro ⟨r, hr, hk⟩
    rcases hshape with h | ⟨hnone, _⟩
    · exact h
    · have := (firstByKey_none_iff _ _ _ _).mp hnone r hr
      rw [hk] at this
      cases this
  · rcases hshape with h | ⟨_, h⟩
    · exact Or.inl h
    · exact Or.inr h

/-- On the sample store, where organization 1 has its March 2025 row, a call with
level 0 returns no error and leaves the store as it was. -/
theorem incrementAICalls_default_witness :
    (0 : Int) ≠ 1 ∧ (0 : Int) ≠ 2 ∧ (0 : Int) ≠ 3 ∧
    (IncrementAICalls sampleDB Faults.none sampleTime 1 0).err = none ∧
    (IncrementAICalls sampleDB Faults.none sampleTime 1 0).db = sampleDB := by
  have h := incrementAICalls_default sampleDB Faults.none sampleTime 1 0
    (by decide) (by decide) (by decide)
  exact ⟨by decide, by decide, by decide, h.2.2.1 rfl rfl,
    h.2.2.2.1 ⟨_, List.mem_cons_self _ _, by decide⟩⟩

/-! ## GetUsageSnapshot -/

/-- With the insert and the re-read succeeding, `GetOrCreateMonthlyUsage` returns the
first row of the period in the store it leaves, and that row carries the counters the
period had before the call (0 when it had no row). -/
theorem getOrCreate_ok (db : DB) (faults : Faults) (now : Time) (orgID : Nat)
    (h0 : faults 0 = none) (h1 : faults 1 = none) :
    ∃ r0 db1, GetOrCreateMonthlyUsage db faults now orgID =
        { val := some r0, err := none, db := db1 } ∧
      db1.firstByKey orgID now.Year now.Month.toInt = some r0 ∧
      (∀ c, r0.get c = db.counterOf orgID now.Year now.Month.toInt c) := by
  cases hf : db.firstByKey orgID now.Year now.Month.toInt with
  | some r =>
    refine ⟨r, db, getOrCreate_of_some db faults now orgID r h0 h1 hf, hf, ?_⟩
    intro c
    simp only [DB.counterOf, hf]
  | none =>
    refine ⟨_, _, getOrCreate_of_none db faults now orgID h0 h1 hf, ?_, ?_⟩
    · unfold DB.firstByKey at hf ⊢
      simp only [List.find?_append, hf]
      simp [DB.freshUsage, MonthlyUsage.hasKey]
    · intro c
      simp only [DB.counterOf, hf]
      cases c <;> rfl

/-- C8. When no statement fails, `GetUsageSnapshot` returns no error and a snapshot
whose `CheckCount` is the number of non-deleted checks of the organization, whose
`APIKeyCount` is the number of non-deleted API keys of the organization, and whose
log volume, three AI counters and status-page count are those of the organization's
row for the current period, which carries the counters the period had before the call.
The two live counts are the same whatever the ledger holds. -/
theorem getUsageSnapshot_composition (db : DB) (faults : Faults) (now : Time) (orgID : Nat)
    (hf : ∀ k, k < 4 → faults k = none) :
    ∃ row : MonthlyUsage,
      (GetUsageSnapshot db faults now orgID).err = none ∧
      (GetUsageSnapshot db faults now orgID).db.firstByKey orgID now.Year now.Month.toInt =
        some row ∧
      (∀ c, row.get c = db.counterOf orgID now.Year now.Month.toInt c) ∧
      (GetUsageSnapshot db faults now orgID).val.CheckCount =
        ((db.checks.filter
          (fun c => decide (c.OrgID = orgID) && decide (c.DeletedAt = none))).length : Int) ∧
      (GetUsageSnapshot db faults now orgID).val.APIKeyCount =
        ((db.apiKeys.filter
          (fun k => decide (k.OrgID = orgID) && decide (k.DeletedAt = none))).length : Int) ∧
      (GetUsageSnapshot db faults now orgID).val.LogVolumeBytes = row.LogVolumeBytes ∧
      (GetUsageSnapshot db faults now orgID).val.AILevel1Calls = row.AILevel1Calls ∧
      (GetUsageSnapshot db faults now orgID).val.AILevel2Calls = row.AILevel2Calls ∧
      (GetUsageSnapshot db faults now orgID).val.AILevel3Calls = row.AILevel3Calls ∧
      (GetUsageSnapshot db faults now orgID).val.StatusPageCount = row.StatusPageCount ∧
      (∀ ledger : List MonthlyUsage,
        (GetUsageSnapshot { db with monthlyUsages := ledger } faults now orgID).val.CheckCount =
          (GetUsageSnapshot db faults now orgID).val.CheckCount ∧
        (GetUsageSnapshot { db with monthlyUsages := ledger } faults now orgID).val.APIKeyCount =
          (GetUsageSnapshot db faults now orgID).val.APIKeyCount) := by
  have key : ∀ d : DB, ∃ r0 db1,
      GetOrCreateMonthlyUsage d (faults.shift 2) now orgID =
        { val := some r0, err := none, db := db1 } ∧
      db1.firstByKey orgID now.Year now.Month.toInt = some r0 ∧
      (∀ c, r0.get c = d.counterOf orgID now.Year now.Month.toInt c) ∧
      GetUsageSnapshot d faults now orgID =
        { val := { CheckCount := d.countChecks orgID, LogVolumeBytes := r0.LogVolumeBytes,
                   StatusPageCount := r0.StatusPageCount, APIKeyCount := d.countAPIKeys orgID,
                   AILevel1Calls := r0.AILevel1Calls, AILevel2Calls := r0.AILevel2Calls,
                   AILevel3Calls := r0.AILevel3Calls },
          err := none, db := db1 } := by
    intro d
    obtain ⟨r0, db1, hg, hfirst, hcnt⟩ :=
      getOrCreate_ok d (faults.shift 2) now orgID (hf 2 (by decide)) (hf 3 (by decide))
    refine ⟨r0, db1, hg, hfirst, hcnt, ?_⟩
    unfold GetUsageSnapshot
    simp only [hf 0 (by decide), hf 1 (by decide), hg]
  obtain ⟨r0, db1, _, hfirst, hcnt, hres⟩ := key db
  have hcc : db.countChecks orgID = ((db.checks.filter
      (fun c => decide (c.OrgID = orgID) && decide (c.DeletedAt = none))).length : Int) := by
    unfold DB.countChecks
    congr 2
    apply List.filter_congr
    intro c _
    cases c.DeletedAt <;> simp
  have hak : db.countAPIKeys orgID = ((db.apiKeys.filter
      (fun k => decide (k.OrgID = orgID) && decide (k.DeletedAt = none))).length : Int) := by
    unfold DB.countAPIKeys
    congr 2
    apply List.filter_congr
    intro c _
    cases c.DeletedAt <;> simp
  refine ⟨r0, ?_, ?_, hcnt, ?_, ?_, ?_, ?_, ?_, ?_, ?_, ?_⟩
  · rw [hres]
  · rw [hres]; exact hfirst
  · rw [hres]; exact hcc
  · rw [hres]; exact hak
  · rw [hres]
  · rw [hres]
  · rw [hres]
  · rw [hres]
  · rw [hres]
  · intro ledger
    obtain ⟨_, _, _, _, _, hres'⟩ := key { db with monthlyUsages := ledger }
    rw [hres, hres']
    exact ⟨rfl, rfl⟩

/-- On the sample store the cached counts of organization 1 are 9 checks and 8 API
keys, the live counts are 2 and 1; the snapshot reports 2 and 1, and the ledger's 100
bytes, 5, 6, 7 AI calls and 4 status pages. -/
theorem getUsageSnapshot_composition_witness :
    (∀ k, k < 4 → Faults.none k = none) ∧
    (GetUsageSnapshot sampleDB Faults.none sampleTime 1).err = none ∧
    (GetUsageSnapshot sampleDB Faults.none sampleTime 1).val =
      { CheckCount := 2, LogVolumeBytes := 100, StatusPageCount := 4, APIKeyCount := 1,
        AILevel1Calls := 5, AILevel2Calls := 6, AILevel3Calls := 7 } := by
  obtain ⟨row, h1, _⟩ :=
    getUsageSnapshot_composition sampleDB Faults.none sampleTime 1 (fun _ _ => rfl)
  exact ⟨fun _ _ => rfl, h1, by decide⟩

/-- Counterexample to C9.  On the sample store, when the check count succeeds and the
API-key count fails, the call returns the error together with a snapshot that carries
the check count 2 already obtained; it is not the all-zero snapshot. -/
theorem getUsageSnapshot_partial_on_error :
    (GetUsageSnapshot sampleDB (Faults.only 1 (DBError.other 9)) sampleTime 1).err =
      some (DBError.other 9) ∧
    (GetUsageSnapshot sampleDB (Faults.only 1 (DBError.other 9)) sampleTime 1).val.CheckCount = 2 ∧
    (GetUsageSnapshot sampleDB (Faults.only 1 (DBError.other 9)) sampleTime 1).val ≠
      UsageSnapshot.zero := by
  refine ⟨by decide, by decide, by decide⟩

/-- C9, amended.  When a sub-step of `GetUsageSnapshot` fails the call returns the
error of that sub-step and stops.  The snapshot returned with the error has zero in the
five fields taken from the ledger; it carries the live check count when the failure
came after the check count, and the live API-key count as well when the failure came
from `GetOrCreateMonthlyUsage`; it is the all-zero snapshot when the check count itself
failed. -/
theorem getUsageSnapshot_error (db : DB) (faults : Faults) (now : Time) (orgID : Nat)
    (e : DBError) :
    (faults 0 = some e →
      GetUsageSnapshot db faults now orgID =
        { val := UsageSnapshot.zero, err := some e, db := db }) ∧
    (faults 0 = none → faults 1 = some e →
      GetUsageSnapshot db faults now orgID =
        { val := { CheckCount := db.countChecks orgID, LogVolumeBytes := 0,
                   StatusPageCount := 0, APIKeyCount := 0,
                   AILevel1Calls := 0, AILevel2Calls := 0, AILevel3Calls := 0 },
          err := some e, db := db }) ∧
    (faults 0 = none → faults 1 = none →
      (GetOrCreateMonthlyUsage db (faults.shift 2) now orgID).err = some e →
      GetUsageSnapshot db faults now orgID =
        { val := { CheckCount := db.countChecks orgID, LogVolumeBytes := 0,
                   StatusPageCount := 0, APIKeyCount := db.countAPIKeys orgID,
                   AILevel1Calls := 0, AILevel2Calls := 0, AILevel3Calls := 0 },
          err := some e,
          db := (GetOrCreateMonthlyUsage db (faults.shift 2) now orgID).db }) ∧
    ((GetUsageSnapshot db faults now orgID).err = some e →
      (faults 0 = some e ∨ faults 0 = none ∧ faults 1 = some e ∨
        faults 0 = none ∧ faults 1 = none ∧
          (GetOrCreateMonthlyUsage db (faults.shift 2) now orgID).err = some e) ∧
      (GetUsageSnapshot db faults now orgID).val.LogVolumeBytes = 0 ∧
      (GetUsageSnapshot db faults now orgID).val.StatusPageCount = 0 ∧
      (GetUsageSnapshot db faults now orgID).val.AILevel1Calls = 0 ∧
      (GetUsageSnapshot db faults now orgID).val.AILevel2Calls = 0 ∧
      (GetUsageSnapshot db faults now orgID).val.AILevel3Calls = 0) := by
  have p1 : ∀ e' : DBError, faults 0 = some e' →
      GetUsageSnapshot db faults now orgID =
        { val := UsageSnapshot.zero, err := some e', db := db } := by
    intro e' h0
    unfold GetUsageSnapshot
    simp only [h0]
  have p2 : ∀ e' : DBError, faults 0 = none → faults 1 = some e' →
      GetUsageSnapshot db faults now orgID =
        { val := { CheckCount := db.countChecks orgID, LogVolumeBytes := 0,
                   StatusPageCount := 0, APIKeyCount := 0,
                   AILevel1Calls := 0, AILevel2Calls := 0, AILevel3Calls := 0 },
          err := some e', db := db } := by
    intro e' h0 h1
    unfold GetUsageSnapshot
    simp only [h0, h1]
    rfl
  have p3 : ∀ e' : DBError, faults 0 = none → faults 1 = none →
      (GetOrCreateMonthlyUsage db (faults.shift 2) now orgID).err = some e' →
      GetUsageSnapshot db faults now orgID =
        { val := { CheckCount := db.countChecks orgID, LogVolumeBytes := 0,
                   StatusPageCount := 0, APIKeyCount := db.countAPIKeys orgID,
                   AILevel1Calls := 0, AILevel2Calls := 0, AILevel3Calls := 0 },
          err := some e',
          db := (GetOrCreateMonthlyUsage db (faults.shift 2) now orgID).db } := by
    intro e' h0 h1 hg
    unfold GetUsageSnapshot
    simp only [h0, h1, hg]
    generalize (GetOrCreateMonthlyUsage db (Faults.shift 2 faults) now orgID).val = v
    cases v <;> rfl
  refine ⟨p1 e, p2 e, p3 e, ?_⟩
  intro herr
  cases h0 : faults 0 with
  | some e0 =>
    rw [p1 e0 h0] at herr ⊢
    have he : e0 = e := Option.some.inj herr
    subst he
    exact ⟨Or.inl rfl, rfl, rfl, rfl, rfl, rfl⟩
  | none =>
    cases h1 : faults 1 with
    | some e1 =>
      rw [p2 e1 h0 h1] at herr ⊢
      have he : e1 = e := Option.some.inj herr
      subst he
      exact ⟨Or.inr (Or.inl ⟨rfl, rfl⟩), rfl, rfl, rfl, rfl, rfl⟩
    | none =>
      cases hg : (GetOrCreateMonthlyUsage db (faults.shift 2) now orgID).err with
      | some e2 =>
        rw [p3 e2 h0 h1 hg] at herr ⊢
        have he : e2 = e := Option.some.inj herr
        subst he
        exact ⟨Or.inr (Or.inr ⟨rfl, rfl, rfl⟩), rfl, rfl, rfl, rfl, rfl⟩
      | none =>
        obtain ⟨h20, h21⟩ := (getOrCreate_err_none_iff db _ now orgID).mp hg
        obtain ⟨r0, db1, hgo, _⟩ := getOrCreate_ok db (faults.shift 2) now orgID h20 h21
        unfold GetUsageSnapshot at herr
        simp only [h0, h1, hgo] at herr
        cases herr

/-- On the sample store, a failing API-key count gives the error and a snapshot with
the check count 2 and zero elsewhere. -/
theorem getUsageSnapshot_error_witness :
    GetUsageSnapshot sampleDB (Faults.only 1 (DBError.other 9)) sampleTime 1 =
      { val := { CheckCount := 2, LogVolumeBytes := 0, StatusPageCount := 0, APIKeyCount := 0,
                 AILevel1Calls := 0, AILevel2Calls := 0, AILevel3Calls := 0 },
        err := some (DBError.other 9), db := sampleDB } :=
  (getUsageSnapshot_error sampleDB (Faults.only 1 (DBError.other 9)) sampleTime 1
    (DBError.other 9)).2.1 rfl rfl

/-! ## SyncResourceCounts -/

theorem syncResourceCounts_of_getOrCreate (db : DB) (faults : Faults) (now : Time)
    (orgID : Nat) (r0 : MonthlyUsage) (db1 : DB)
    (hg : GetOrCreateMonthlyUsage db faults now orgID =
      { val := some r0, err := none, db := db1 })
    (h2 : faults 2 = none) (h3 : faults 3 = none) (h4 : faults 4 = none) :
    SyncResourceCounts db faults now orgID =
      { val := (), err := none,
        db := db1.mapRow r0.ID (fun r =>
          { r with CheckCount := db1.countChecks orgID,
                   APIKeyCount := db1.countAPIKeys orgID }) } := by
  unfold SyncResourceCounts
  simp only [hg, h2, h3, h4]
  rfl

theorem get_setCounts (r : MonthlyUsage) (a b : Int) (c : Column) :
    ({ r with CheckCount := a, APIKeyCount := b } : MonthlyUsage).get c =
      if c = Column.check_count then a else if c = Column.api_key_count then b else r.get c := by
  cases c <;> simp [MonthlyUsage.get]

theorem mapRow_mapRow_idem (db : DB) (id : Nat) (f : MonthlyUsage → MonthlyUsage)
    (hid : ∀ r, (f r).ID = r.ID) (hidem : ∀ r, f (f r) = f r) :
    (db.mapRow id f).mapRow id f = db.mapRow id f := by
  unfold DB.mapRow
  simp only [List.map_map]
  congr 1
  apply List.map_congr_left
  intro r _
  simp only [Function.comp]
  by_cases h : r.ID = id
  · simp [h, hid, hidem]
  · simp [h]

theorem countChecks_congr (db db2 : DB) (h : db2.checks = db.checks) (orgID : Nat) :
    db2.countChecks orgID = db.countChecks orgID := by
  unfold DB.countChecks
  rw [h]

theorem countAPIKeys_congr (db db2 : DB) (h : db2.apiKeys = db.apiKeys) (orgID : Nat) :
    db2.countAPIKeys orgID = db.countAPIKeys orgID := by
  unfold DB.countAPIKeys
  rw [h]

/-- C10. When no statement fails, `SyncResourceCounts` returns no error; afterwards the
organization's row for the current period (exactly one) has `CheckCount` equal to the
live count of non-deleted checks and `APIKeyCount` equal to the live count of API
keys, whatever was cached before; its other five counters, the rows of every other
organization or period, and the check and API-key tables are unchanged; and a second
successful sync in the same period, with no change of the resources in between, leaves
the store exactly as the first left it. -/
theorem syncResourceCounts_effect (db : DB) (faults : Faults) (now : Time) (orgID : Nat)
    (hwf : db.WellFormed) (hf : ∀ k, k < 5 → faults k = none) :
    ∃ db2, SyncResourceCounts db faults now orgID = { val := (), err := none, db := db2 } ∧
      db2.counterOf orgID now.Year now.Month.toInt Column.check_count = db.countChecks orgID ∧
      db2.counterOf orgID now.Year now.Month.toInt Column.api_key_count =
        db.countAPIKeys orgID ∧
      (∀ c, c ≠ Column.check_count → c ≠ Column.api_key_count →
        db2.counterOf orgID now.Year now.Month.toInt c =
          db.counterOf orgID now.Year now.Month.toInt c) ∧
      (db2.rowsWithKey orgID now.Year now.Month.toInt).length = 1 ∧
      db2.rowsOutsideKey orgID now.Year now.Month.toInt =
        db.rowsOutsideKey orgID now.Year now.Month.toInt ∧
      db2.checks = db.checks ∧ db2.apiKeys = db.apiKeys ∧
      (∀ (faults2 : Faults) (now2 : Time), (∀ k, k < 5 → faults2 k = none) →
        now2.Year = now.Year → now2.Month = now.Month →
        SyncResourceCounts db2 faults2 now2 orgID = { val := (), err := none, db := db2 }) := by
  obtain ⟨r0, db1, hg, hwf1, hmem, hk, hc, ha, hout, hcnt, _⟩ :=
    getOrCreate_summary db faults now orgID hwf (hf 0 (by decide)) (hf 1 (by decide))
  have hres := syncResourceCounts_of_getOrCreate db faults now orgID r0 db1 hg
    (hf 2 (by decide)) (hf 3 (by decide)) (hf 4 (by decide))
  rw [countChecks_congr db db1 hc, countAPIKeys_congr db db1 ha] at hres
  have hid : ∀ r : MonthlyUsage,
      ({ r with CheckCount := db.countChecks orgID,
                APIKeyCount := db.countAPIKeys orgID } : MonthlyUsage).ID = r.ID :=
    fun _ => rfl
  have hkey : ∀ r : MonthlyUsage,
      ({ r with CheckCount := db.countChecks orgID,
                APIKeyCount := db.countAPIKeys orgID } : MonthlyUsage).OrgID = r.OrgID ∧
      ({ r with CheckCount := db.countChecks orgID,
                APIKeyCount := db.countAPIKeys orgID } : MonthlyUsage).Year = r.Year ∧
      ({ r with CheckCount := db.countChecks orgID,
                APIKeyCount := db.countAPIKeys orgID } : MonthlyUsage).Month = r.Month :=
    fun _ => ⟨rfl, rfl, rfl⟩
  have hs := mapRow_summary db1 hwf1 r0 hmem orgID now.Year now.Month.toInt hk _ hid hkey
  have hco := counterOf_mapRow db1 hwf1 r0 hmem orgID now.Year now.Month.toInt hk _ hid hkey
  refine ⟨_, hres, ?_, ?_, ?_, ?_, ?_, ?_, ?_, ?_⟩
  · rw [hco, get_setCounts, if_pos rfl]
  · rw [hco, get_setCounts, if_neg (by decide), if_pos rfl]
  · intro c h1 h2
    rw [hco, get_setCounts, if_neg h1, if_neg h2, hcnt]
  · rw [hs.2.2.2.1]; rfl
  · rw [hs.2.2.2.2.1, hout]
  · rw [hs.2.2.2.2.2.1, hc]
  · rw [hs.2.2.2.2.2.2, ha]
  · intro faults2 now2 hf2 hy hm
    have hg2 := getOrCreate_of_some _ faults2 now2 orgID _ (hf2 0 (by decide))
      (hf2 1 (by decide)) (by rw [hy, hm]; exact hs.2.1)
    have hres2 := syncResourceCounts_of_getOrCreate _ faults2 now2 orgID _ _ hg2
      (hf2 2 (by decide)) (hf2 3 (by decide)) (hf2 4 (by decide))
    rw [hres2]
    rw [countChecks_congr db _ (hs.2.2.2.2.2.1.trans hc),
      countAPIKeys_congr db _ (hs.2.2.2.2.2.2.trans ha)]
    rw [show ({ r0 with CheckCount := db.countChecks orgID,
                        APIKeyCount := db.countAPIKeys orgID } : MonthlyUsage).ID = r0.ID
      from rfl]
    rw [mapRow_mapRow_idem db1 r0.ID _ hid (fun _ => rfl)]

/-- On the sample store organization 1 has 9 checks and 8 API keys cached, 2 and 1
live: after the sync the row holds 2 and 1 and the log volume is still 100. -/
theorem syncResourceCounts_effect_witness :
    sampleDB.WellFormed ∧ (∀ k, k < 5 → Faults.none k = none) ∧
    (SyncResourceCounts sampleDB Faults.none sampleTime 1).err = none ∧
    (SyncResourceCounts sampleDB Faults.none sampleTime 1).db.counterOf 1 2025 3
      Column.check_count = 2 ∧
    (SyncResourceCounts sampleDB Faults.none sampleTime 1).db.counterOf 1 2025 3
      Column.api_key_count = 1 ∧
    (SyncResourceCounts sampleDB Faults.none sampleTime 1).db.counterOf 1 2025 3
      Column.log_volume_bytes = 100 ∧
    (SyncResourceCounts (SyncResourceCounts sampleDB Faults.none sampleTime 1).db
      Faults.none sampleTimeLater 1).db =
      (SyncResourceCounts sampleDB Faults.none sampleTime 1).db := by
  obtain ⟨db2, h, h1, h2, h3, _, _, _, _, h4⟩ :=
    syncResourceCounts_effect sampleDB Faults.none sampleTime 1 sampleDB_wf (fun _ _ => rfl)
  refine ⟨sampleDB_wf, fun _ _ => rfl, ?_, ?_, ?_, ?_, ?_⟩
  · rw [h]
  · rw [h]; exact h1.trans (by decide)
  · rw [h]; exact h2.trans (by decide)
  · rw [h]; exact (h3 Column.log_volume_bytes (by decide) (by decide)).trans (by decide)
  · rw [h]
    show (SyncResourceCounts db2 Faults.none sampleTimeLater 1).db = db2
    rw [h4 Faults.none sampleTimeLater (fun _ _ => rfl) rfl rfl]

/-! ## Concurrent callers: one step of one call -/

theorem extends_refl (db : DB) : db.Extends db :=
  fun r hr => ⟨r, hr, rfl, rfl, rfl, rfl⟩

theorem extends_trans (db db2 db3 : DB) (h : db.Extends db2) (h2 : db2.Extends db3) :
    db.Extends db3 := by
  intro r hr
  obtain ⟨r2, hr2, e1, e2, e3, e4⟩ := h r hr
  obtain ⟨r3, hr3, f1, f2, f3, f4⟩ := h2 r2 hr2
  exact ⟨r3, hr3, f1.trans e1, f2.trans e2, f3.trans e3, f4.trans e4⟩

theorem extends_create (db : DB) (u : MonthlyUsage) :
    db.Extends (db.createOnConflictDoNothing u) := by
  intro r hr
  refine ⟨r, ?_, rfl, rfl, rfl, rfl⟩
  unfold DB.createOnConflictDoNothing
  split
  · exact hr
  · exact List.mem_append_left _ hr

theorem extends_mapRow (db : DB) (id : Nat) (f : MonthlyUsage → MonthlyUsage)
    (hid : ∀ r, (f r).ID = r.ID)
    (hkey : ∀ r, (f r).OrgID = r.OrgID ∧ (f r).Year = r.Year ∧ (f r).Month = r.Month) :
    db.Extends (db.mapRow id f) := by
  intro r hr
  refine ⟨if r.ID = id then f r else r, ?_, ?_, ?_⟩
  · unfold DB.mapRow
    exact List.mem_map.mpr ⟨r, hr, rfl⟩
  · split
    · exact hid r
    · rfl
  · split
    · exact hkey r
    · exact ⟨rfl, rfl, rfl⟩

theorem inv_mono (p : Proc) (db db2 : DB) (h : p.Inv db) (he : db.Extends db2) : p.Inv db2 := by
  refine ⟨?_, h.not_applied, h.applied_after, h.applied_of_ok⟩
  intro u hu
  obtain ⟨r, hr, hid, hk⟩ := h.usage_ok u hu
  obtain ⟨r2, hr2, e1, e2, e3, e4⟩ := he r hr
  refine ⟨r2, hr2, e1.trans hid, ?_⟩
  rw [hasKey_of_key r r2 ⟨e2, e3, e4⟩]
  exact hk

theorem counterOf_create (db : DB) (u : MonthlyUsage) (hzero : ∀ c, u.get c = 0)
    (orgID : Nat) (year month : Int) (c : Column) :
    (db.createOnConflictDoNothing u).counterOf orgID year month c =
      db.counterOf orgID year month c := by
  cases hf : db.firstByKey u.OrgID u.Year u.Month with
  | some r => rw [create_of_some db u r hf]
  | none =>
    rw [create_of_none db u hf]
    unfold DB.counterOf DB.firstByKey
    simp only [List.find?_append]
    cases hx : db.monthlyUsages.find? (fun r => r.hasKey orgID year month) with
    | some x => simp
    | none =>
      have hnew : ∀ c, ({ u with ID := db.nextUsageID } : MonthlyUsage).get c = 0 := by
        intro c
        have := hzero c
        cases c <;> simpa [MonthlyUsage.get] using this
      generalize ({ u with ID := db.nextUsageID } : MonthlyUsage) = u2 at hnew ⊢
      simp only [Option.none_or, List.find?_cons, List.find?_nil]
      cases hk : u2.hasKey orgID year month
      · rfl
      · exact hnew c

theorem updateAdd_ok_eq (db db2 : DB) (id : Nat) (c : Column) (d : Int)
    (h : db.updateAdd id c d = .ok db2) :
    db2 = db.mapRow id (fun x => x.set c (x.get c + d)) := by
  unfold DB.updateAdd at h
  split at h
  · cases h
  · injection h with h
    rw [← h]
    rfl

theorem firstByKey_mapRow (db : DB) (id : Nat) (f : MonthlyUsage → MonthlyUsage)
    (hkey : ∀ r, (f r).OrgID = r.OrgID ∧ (f r).Year = r.Year ∧ (f r).Month = r.Month)
    (orgID : Nat) (year month : Int) :
    (db.mapRow id f).firstByKey orgID year month =
      (db.firstByKey orgID year month).map (fun r => if r.ID = id then f r else r) := by
  unfold DB.firstByKey DB.mapRow
  simp only [List.find?_map]
  congr 2
  funext r
  simp only [Function.comp]
  split
  · exact hasKey_of_key r (f r) (hkey r) _ _ _
  · rfl

/-- The counters of every period after the row `r` of one period has been rewritten by
an addition to one column. -/
theorem counterOf_mapRow_add (db : DB) (h : db.WellFormed) (r : MonthlyUsage)
    (hr : r ∈ db.monthlyUsages) (col : Column) (d : Int)
    (orgID : Nat) (year month : Int) (c : Column) :
    (db.mapRow r.ID (fun x => x.set col (x.get col + d))).counterOf orgID year month c =
      db.counterOf orgID year month c +
        (if r.hasKey orgID year month = true ∧ col = c then d else 0) := by
  unfold DB.counterOf
  rw [firstByKey_mapRow db r.ID _ (fun x => set_key _ _ _)]
  cases hf : db.firstByKey orgID year month with
  | none =>
    have := (firstByKey_none_iff _ _ _ _).mp hf r hr
    simp [this]
  | some x =>
    have hx := firstByKey_some _ _ _ _ _ hf
    simp only [Option.map_some']
    by_cases hid : x.ID = r.ID
    · have := wf_id_inj db h x r hx.1 hr hid
      subst this
      simp only [if_true, get_set, hx.2, true_and]
      by_cases hc : c = col
      · subst hc; simp
      · have : ¬ col = c := fun e => hc e.symm
        simp [hc, this]
    · have hk : ¬ r.hasKey orgID year month = true := by
        intro hk
        exact hid (congrArg _ (wf_key_inj db h x r hx.1 hr _ _ _ hx.2 hk))
      simp [hid, hk]

theorem contrib_congr (p p2 : Proc) (hcall : p2.call = p.call) (happ : p2.applied = p.applied)
    (orgID : Nat) (year month : Int) (c : Column) :
    p2.contrib orgID year month c = p.contrib orgID year month c := by
  unfold Proc.contrib
  rw [hcall, happ]

theorem stepSpec_same_db (p p2 : Proc) (db : DB) (hwf : db.WellFormed) (hinv2 : p2.Inv db)
    (hcall : p2.call = p.call) (happ : p2.applied = p.applied) : StepSpec p db (db, p2) :=
  ⟨hwf, extends_refl db, hcall, hinv2, fun orgID year month c => by
    rw [contrib_congr p p2 hcall happ]⟩

theorem inv_ret_err (p : Proc) (db : DB) (h : p.Inv db) (hres : p.result = none) (v : Int)
    (e : DBError) : (p.ret v (some e)).Inv db := by
  refine ⟨h.usage_ok, ?_, h.applied_after, ?_⟩
  · intro h2; cases h2
  · intro w h2
    simp only [Proc.ret, Option.some.injEq, Prod.mk.injEq] at h2
    cases h2.2

theorem inv_ret_ok_applied (p : Proc) (db : DB) (h : p.Inv db) (happ : p.applied = true)
    (v : Int) : (p.ret v none).Inv db := by
  refine ⟨h.usage_ok, ?_, fun _ => happ, fun _ _ _ => happ⟩
  intro h2; cases h2

/-- The step that runs the atomic add of a call on the row its `usage` names. -/
theorem stepSpec_update (p p2 : Proc) (db db2 : DB) (hwf : db.WellFormed) (hinv : p.Inv db)
    (hres : p.result = none) (hpc : p.pc = 2) (u : MonthlyUsage) (husage : p.usage = some u)
    (col : Column) (d : Int) (htar : p.call.op.target = some (col, d))
    (hupd : db.updateAdd u.ID col d = .ok db2)
    (hcall : p2.call = p.call) (hu2 : p2.usage = p.usage) (happ : p2.applied = true)
    (hdone : p2.result = none → 3 ≤ p2.pc) :
    StepSpec p db (db2, p2) := by
  obtain ⟨r, hr, hid, hk⟩ := hinv.usage_ok u husage
  have hdb2 := updateAdd_ok_eq db db2 u.ID col d hupd
  rw [← hid] at hdb2
  subst hdb2
  have hext := extends_mapRow db r.ID (fun x => x.set col (x.get col + d))
    (fun x => set_ID _ _ _) (fun x => set_key _ _ _)
  refine ⟨wf_mapRow db hwf r.ID _ (fun x => set_ID _ _ _) (fun x => set_key _ _ _), hext,
    hcall, ?_, ?_⟩
  · have hm := inv_mono p db _ hinv hext
    refine ⟨?_, ?_, fun _ => happ, fun _ _ _ => happ⟩
    · intro u2 h2
      rw [hu2] at h2
      rw [hcall]
      exact hm.usage_ok u2 h2
    · intro h1 h2
      have h3 : 3 ≤ p2.pc := hdone h1
      have h4 : p2.pc ≤ 2 := h2
      omega
  · intro orgID year month c
    have hp0 : p.applied = false := hinv.not_applied hres (by omega)
    have hk3 := (hasKey_iff _ _ _ _).mp hk
    rw [counterOf_mapRow_add db hwf r hr col d]
    unfold Proc.contrib
    rw [hcall, htar]
    simp only [hp0, happ, true_and, hasKey_iff, hk3.1, hk3.2.1, hk3.2.2, and_assoc]
    simp

theorem step_spec (p : Proc) (db : DB) (hwf : db.WellFormed) (hinv : p.Inv db) :
    StepSpec p db (p.step db) := by
  cases hres : p.result with
  | some x =>
    have hs : p.step db = (db, p) := by
      unfold Proc.step
      simp only [hres]
    rw [hs]
    exact stepSpec_same_db p p db hwf hinv rfl rfl
  | none =>
    match hpc : p.pc with
    | 0 =>
      cases hf : p.call.faults 0 with
      | some err =>
        have hs : p.step db = (db, p.ret 0 (some err)) := by
          unfold Proc.step
          simp only [hres, hpc, hf]
        rw [hs]
        exact stepSpec_same_db p _ db hwf (inv_ret_err p db hinv hres 0 err) rfl rfl
      | none =>
        have hs : p.step db =
            (db.createOnConflictDoNothing
              { ID := 0, OrgID := p.call.orgID, Year := p.call.now.Year,
                Month := p.call.now.Month.toInt, LogVolumeBytes := 0, CheckCount := 0,
                StatusPageCount := 0, APIKeyCount := 0,
                AILevel1Calls := 0, AILevel2Calls := 0, AILevel3Calls := 0 },
             { p with pc := 1 }) := by
          unfold Proc.step
          simp only [hres, hpc, hf]
        rw [hs]
        have hm := inv_mono p db _ hinv (extends_create db
          { ID := 0, OrgID := p.call.orgID, Year := p.call.now.Year,
            Month := p.call.now.Month.toInt, LogVolumeBytes := 0, CheckCount := 0,
            StatusPageCount := 0, APIKeyCount := 0,
            AILevel1Calls := 0, AILevel2Calls := 0, AILevel3Calls := 0 })
        refine ⟨wf_createOnConflictDoNothing db _ hwf, extends_create db _, rfl, ?_, ?_⟩
        · refine ⟨hm.usage_ok, fun _ _ => hinv.not_applied hres (by omega), ?_, ?_⟩
          · intro h3
            simp at h3
          · intro v h2
            rw [show ({ p with pc := 1 } : Proc).result = p.result from rfl, hres] at h2
            cases h2
        · intro orgID year month c
          rw [counterOf_create db _ (fun c => by cases c <;> rfl)]
          rfl
    | 1 =>
      cases hf : p.call.faults 1 with
      | some err =>
        have hs : p.step db = (db, p.ret 0 (some err)) := by
          unfold Proc.step
          simp only [hres, hpc, hf]
        rw [hs]
        exact stepSpec_same_db p _ db hwf (inv_ret_err p db hinv hres 0 err) rfl rfl
      | none =>
        cases hfind : db.firstByKey p.call.orgID p.call.now.Year p.call.now.Month.toInt with
        | none =>
          have hs : p.step db = (db, p.ret 0 (some DBError.ErrRecordNotFound)) := by
            unfold Proc.step
            simp only [hres, hpc, hf, hfind]
          rw [hs]
          exact stepSpec_same_db p _ db hwf (inv_ret_err p db hinv hres 0 _) rfl rfl
        | some found =>
          have hfound := firstByKey_some _ _ _ _ _ hfind
          cases htar : p.call.op.target with
          | none =>
            have hs : p.step db =
                (db, { p with usage := some found, result := some (0, none) }) := by
              unfold Proc.step
              simp only [hres, hpc, hf, hfind, htar]
            rw [hs]
            refine stepSpec_same_db p _ db hwf ⟨?_, ?_, hinv.applied_after, ?_⟩ rfl rfl
            · intro u hu
              have : found = u := Option.some.inj hu
              subst this
              exact ⟨found, hfound.1, rfl, hfound.2⟩
            · intro h2; cases h2
            · intro v _ h3
              rw [show ({ p with usage := some found, result := some (0, none) } : Proc).call
                = p.call from rfl, htar] at h3
              cases h3
          | some t =>
            have hs : p.step db = (db, { p with usage := some found, pc := 2 }) := by
              unfold Proc.step
              simp only [hres, hpc, hf, hfind, htar]
            rw [hs]
            refine stepSpec_same_db p _ db hwf ⟨?_, ?_, ?_, ?_⟩ rfl rfl
            · intro u hu
              have : found = u := Option.some.inj hu
              subst this
              exact ⟨found, hfound.1, rfl, hfound.2⟩
            · intro _ _
              exact hinv.not_applied hres (by omega)
            · intro h3
              simp at h3
            · intro v h2
              rw [show ({ p with usage := some found, pc := 2 } : Proc).result = p.result
                from rfl, hres] at h2
              cases h2
    | 2 =>
      cases husage : p.usage with
      | none =>
        have hs : p.step db = (db, p) := by
          unfold Proc.step
          simp only [hres, hpc, husage]
        rw [hs]
        exact stepSpec_same_db p p db hwf hinv rfl rfl
      | some u =>
        cases htar : p.call.op.target with
        | none =>
          have hs : p.step db = (db, p) := by
            unfold Proc.step
            simp only [hres, hpc, husage, htar]
          rw [hs]
          exact stepSpec_same_db p p db hwf hinv rfl rfl
        | some t =>
          obtain ⟨col, d⟩ := t
          cases hf : p.call.faults 2 with
          | some err =>
            have hs : p.step db = (db, p.ret 0 (some err)) := by
              unfold Proc.step
              simp only [hres, hpc, husage, htar, hf]
            rw [hs]
            exact stepSpec_same_db p _ db hwf (inv_ret_err p db hinv hres 0 err) rfl rfl
          | none =>
            cases hupd : db.updateAdd u.ID col d with
            | error err =>
              have hs : p.step db = (db, p.ret 0 (some err)) := by
                unfold Proc.step
                simp only [hres, hpc, husage, htar, hf, hupd]
              rw [hs]
              exact stepSpec_same_db p _ db hwf (inv_ret_err p db hinv hres 0 err) rfl rfl
            | ok db2 =>
              cases hop : p.call.op with
              | logVolume bytes =>
                have hs : p.step db = (db2, { p with pc := 3, applied := true }) := by
                  have htar2 := htar
                  rw [hop] at htar2
                  unfold Proc.step
                  simp only [hres, hpc, husage, hf, hop, htar2, hupd]
                rw [hs]
                exact stepSpec_update p _ db db2 hwf hinv hres hpc u husage col d htar hupd
                  rfl rfl rfl (fun _ => le_refl 3)
              | aiCalls level =>
                have hs : p.step db =
                    (db2, { p with applied := true, result := some (0, none) }) := by
                  have htar2 := htar
                  rw [hop] at htar2
                  unfold Proc.step
                  simp only [hres, hpc, husage, hf, hop, htar2, hupd]
                rw [hs]
                exact stepSpec_update p _ db db2 hwf hinv hres hpc u husage col d htar hupd
                  rfl rfl rfl (fun h => by cases h)
    | n + 3 =>
      have happ : p.applied = true := hinv.applied_after (by omega)
      cases husage : p.usage with
      | none =>
        have hs : p.step db = (db, p) := by
          unfold Proc.step
          simp only [hres, hpc, husage]
        rw [hs]
        exact stepSpec_same_db p p db hwf hinv rfl rfl
      | some u =>
        cases hf : p.call.faults 3 with
        | some err =>
          have hs : p.step db = (db, p.ret 0 (some err)) := by
            unfold Proc.step
            simp only [hres, hpc, husage, hf]
          rw [hs]
          exact stepSpec_same_db p _ db hwf (inv_ret_err p db hinv hres 0 err) rfl rfl
        | none =>
          cases hfind : db.firstByID u.ID with
          | none =>
            have hs : p.step db = (db, p.ret 0 (some DBError.ErrRecordNotFound)) := by
              unfold Proc.step
              simp only [hres, hpc, husage, hf, hfind]
            rw [hs]
            exact stepSpec_same_db p _ db hwf (inv_ret_err p db hinv hres 0 _) rfl rfl
          | some updated =>
            have hs : p.step db = (db, p.ret updated.LogVolumeBytes none) := by
              unfold Proc.step
              simp only [hres, hpc, husage, hf, hfind]
            rw [hs]
            exact stepSpec_same_db p _ db hwf (inv_ret_ok_applied p db hinv happ _) rfl rfl

/-! ## Concurrent callers: schedules -/

theorem appliedSum_cons (p : Proc) (ps : List Proc) (orgID : Nat) (year month : Int)
    (c : Column) :
    appliedSum (p :: ps) orgID year month c =
      p.contrib orgID year month c + appliedSum ps orgID year month c := by
  simp [appliedSum]

theorem stepAt_spec (ps : List Proc) :
    ∀ (i : Nat) (db : DB), db.WellFormed → (∀ p ∈ ps, p.Inv db) →
      (stepAt i db ps).1.WellFormed ∧ db.Extends (stepAt i db ps).1 ∧
      (stepAt i db ps).2.map Proc.call = ps.map Proc.call ∧
      (∀ p ∈ (stepAt i db ps).2, p.Inv (stepAt i db ps).1) ∧
      ∀ (orgID : Nat) (year month : Int) (c : Column),
        (stepAt i db ps).1.counterOf orgID year month c + appliedSum ps orgID year month c =
          db.counterOf orgID year month c + appliedSum (stepAt i db ps).2 orgID year month c := by
  induction ps with
  | nil =>
    intro i db hwf _
    have hs : stepAt i db [] = (db, []) := by cases i <;> rfl
    rw [hs]
    refine ⟨hwf, extends_refl db, rfl, ?_, fun _ _ _ _ => rfl⟩
    intro p hp
    exact absurd hp (List.not_mem_nil p)
  | cons p ps ih =>
    intro i db hwf hinv
    cases i with
    | zero =>
      have hs : stepAt 0 db (p :: ps) = ((p.step db).1, (p.step db).2 :: ps) := rfl
      rw [hs]
      obtain ⟨h1, h2, h3, h4, h5⟩ := step_spec p db hwf (hinv p (List.mem_cons_self _ _))
      refine ⟨h1, h2, ?_, ?_, ?_⟩
      · simp only [List.map_cons, h3]
      · intro q hq
        rcases List.mem_cons.mp hq with rfl | hq
        · exact h4
        · exact inv_mono q db _ (hinv q (List.mem_cons_of_mem _ hq)) h2
      · intro orgID year month c
        have := h5 orgID year month c
        simp only [appliedSum_cons]
        omega
    | succ i =>
      have hs : stepAt (i + 1) db (p :: ps) =
          ((stepAt i db ps).1, p :: (stepAt i db ps).2) := rfl
      rw [hs]
      obtain ⟨h1, h2, h3, h4, h5⟩ :=
        ih i db hwf (fun q hq => hinv q (List.mem_cons_of_mem _ hq))
      refine ⟨h1, h2, ?_, ?_, ?_⟩
      · simp only [List.map_cons, h3]
      · intro q hq
        rcases List.mem_cons.mp hq with rfl | hq
        · exact inv_mono q db _ (hinv q (List.mem_cons_self _ _)) h2
        · exact h4 q hq
      · intro orgID year month c
        have := h5 orgID year month c
        simp only [appliedSum_cons]
        omega

theorem exec_spec (schedule : List Nat) :
    ∀ w : World, w.db.WellFormed → (∀ p ∈ w.procs, p.Inv w.db) →
      (w.exec schedule).db.WellFormed ∧
      (w.exec schedule).procs.map Proc.call = w.procs.map Proc.call ∧
      (∀ p ∈ (w.exec schedule).procs, p.Inv (w.exec schedule).db) ∧
      ∀ (orgID : Nat) (year month : Int) (c : Column),
        (w.exec schedule).db.counterOf orgID year month c +
            appliedSum w.procs orgID year month c =
          w.db.counterOf orgID year month c +
            appliedSum (w.exec schedule).procs orgID year month c := by
  induction schedule with
  | nil =>
    intro w hwf hinv
    exact ⟨hwf, rfl, hinv, fun _ _ _ _ => rfl⟩
  | cons i rest ih =>
    intro w hwf hinv
    obtain ⟨h1, _, h3, h4, h5⟩ := stepAt_spec w.procs i w.db hwf hinv
    have hs : w.exec (i :: rest) = (w.step i).exec rest := rfl
    rw [hs]
    obtain ⟨k1, k2, k3, k4⟩ := ih (w.step i) h1 h4
    refine ⟨k1, k2.trans h3, k3, ?_⟩
    intro orgID year month c
    have a := h5 orgID year month c
    have b := k4 orgID year month c
    simp only [World.step] at b ⊢
    omega

theorem inv_start (call : Invocation) (db : DB) : (Proc.start call).Inv db :=
  ⟨fun _ h => (by cases h), fun _ _ => rfl, fun h => (by simp [Proc.start] at h),
    fun _ h _ => (by cases h)⟩

theorem appliedSum_start (calls : List Invocation) (orgID : Nat) (year month : Int)
    (c : Column) : appliedSum (calls.map Proc.start) orgID year month c = 0 := by
  induction calls with
  | nil => rfl
  | cons call rest ih =>
    simp only [List.map_cons, appliedSum_cons, ih, add_zero]
    unfold Proc.contrib
    cases htar : call.op.target <;> simp [Proc.start, htar]

theorem appliedSum_of_allSucceeded (procs : List Proc) (db : DB)
    (hinv : ∀ p ∈ procs, p.Inv db)
    (hall : procs.all (fun p =>
      match p.result with
      | some (_, none) => true
      | _ => false) = true)
    (orgID : Nat) (year month : Int) (c : Column) :
    appliedSum procs orgID year month c =
      requestedSum (procs.map Proc.call) orgID year month c := by
  induction procs with
  | nil => rfl
  | cons p ps ih =>
    simp only [List.all_cons, Bool.and_eq_true] at hall
    have hrest := ih (fun q hq => hinv q (List.mem_cons_of_mem _ hq)) hall.2
    have hp := hinv p (List.mem_cons_self _ _)
    have hhead : p.contrib orgID year month c = p.call.delta orgID year month c := by
      unfold Proc.contrib Invocation.delta
      cases htar : p.call.op.target with
      | none => rfl
      | some t =>
        obtain ⟨col, d⟩ := t
        have happ : p.applied = true := by
          cases hr : p.result with
          | none => simp [hr] at hall
          | some x =>
            obtain ⟨v, e⟩ := x
            cases e with
            | some e => simp [hr] at hall
            | none => exact hp.applied_of_ok v hr (by rw [htar]; rfl)
        simp [happ]
    simp only [appliedSum_cons, requestedSum, List.map_cons, List.sum_cons, hhead]
    rw [hrest]
    rfl

/-! ## A call running alone is the sequential function -/

/-- A call of `IncrementLogVolume` that runs its four statements with no other call in
between leaves the store and returns the value and error of the function
`IncrementLogVolume`. -/
theorem exec_alone_incrementLogVolume (db : DB) (faults : Faults) (now : Time) (orgID : Nat)
    (bytes : Int) :
    ((World.init db [Invocation.mk orgID now faults (Op.logVolume bytes)]).exec [0, 0, 0, 0]).db =
      (IncrementLogVolume db faults now orgID bytes).db ∧
    ((World.init db [Invocation.mk orgID now faults (Op.logVolume bytes)]).exec [0, 0, 0, 0]).procs.map Proc.result =
      [some ((IncrementLogVolume db faults now orgID bytes).val,
             (IncrementLogVolume db faults now orgID bytes).err)] := by
  simp only [World.init, World.exec, List.foldl, World.step, stepAt, List.map, Proc.start]
  unfold IncrementLogVolume GetOrCreateMonthlyUsage
  cases h0 : faults 0 with
  | some e0 => simp [Proc.step, Proc.ret, h0]
  | none =>
    cases h1 : faults 1 with
    | some e1 => simp [Proc.step, Proc.ret, h0, h1]
    | none =>
      cases hfind : (db.createOnConflictDoNothing
          { ID := 0, OrgID := orgID, Year := now.Year, Month := now.Month.toInt,
            LogVolumeBytes := 0, CheckCount := 0, StatusPageCount := 0, APIKeyCount := 0,
            AILevel1Calls := 0, AILevel2Calls := 0, AILevel3Calls := 0 }).firstByKey
          orgID now.Year now.Month.toInt with
      | none => simp [Proc.step, Proc.ret, h0, h1, hfind]
      | some found =>
        cases h2 : faults 2 with
        | some e2 => simp [Proc.step, Proc.ret, Op.target, h0, h1, hfind, h2]
        | none =>
          cases hupd : (db.createOnConflictDoNothing
              { ID := 0, OrgID := orgID, Year := now.Year, Month := now.Month.toInt,
                LogVolumeBytes := 0, CheckCount := 0, StatusPageCount := 0, APIKeyCount := 0,
                AILevel1Calls := 0, AILevel2Calls := 0, AILevel3Calls := 0 }).updateAdd
              found.ID Column.log_volume_bytes bytes with
          | error e => simp [Proc.step, Proc.ret, Op.target, h0, h1, hfind, h2, hupd]
          | ok db2 =>
            cases h3 : faults 3 with
            | some e3 => simp [Proc.step, Proc.ret, Op.target, h0, h1, hfind, h2, hupd, h3]
            | none =>
              cases hre : db2.firstByID found.ID with
              | none => simp [Proc.step, Proc.ret, Op.target, h0, h1, hfind, h2, hupd, h3, hre]
              | some updated =>
                simp [Proc.step, Proc.ret, Op.target, h0, h1, hfind, h2, hupd, h3, hre]

/-- A call of `IncrementAICalls` that runs its statements with no other call in
between leaves the store and returns the error of the function `IncrementAICalls`. -/
theorem exec_alone_incrementAICalls (db : DB) (faults : Faults) (now : Time) (orgID : Nat)
    (level : Int) :
    ((World.init db [Invocation.mk orgID now faults (Op.aiCalls level)]).exec [0, 0, 0]).db =
      (IncrementAICalls db faults now orgID level).db ∧
    ((World.init db [Invocation.mk orgID now faults (Op.aiCalls level)]).exec
        [0, 0, 0]).procs.map Proc.result =
      [some (0, (IncrementAICalls db faults now orgID level).err)] := by
  simp only [World.init, World.exec, List.foldl, World.step, stepAt, List.map, Proc.start]
  unfold IncrementAICalls GetOrCreateMonthlyUsage
  cases h0 : faults 0 with
  | some e0 => simp [Proc.step, Proc.ret, h0]
  | none =>
    cases h1 : faults 1 with
    | some e1 => simp [Proc.step, Proc.ret, h0, h1]
    | none =>
      cases hfind : (db.createOnConflictDoNothing
          { ID := 0, OrgID := orgID, Year := now.Year, Month := now.Month.toInt,
            LogVolumeBytes := 0, CheckCount := 0, StatusPageCount := 0, APIKeyCount := 0,
            AILevel1Calls := 0, AILevel2Calls := 0, AILevel3Calls := 0 }).firstByKey
          orgID now.Year now.Month.toInt with
      | none => simp [Proc.step, Proc.ret, h0, h1, hfind]
      | some found =>
        by_cases l1 : level = 1
        · subst l1
          cases h2 : faults 2 with
          | some e2 =>
            simp [Proc.step, Proc.ret, Op.target, aiColumn, incrementColumn, h0, h1, hfind, h2]
          | none =>
            cases hupd : (db.createOnConflictDoNothing
                { ID := 0, OrgID := orgID, Year := now.Year, Month := now.Month.toInt,
                  LogVolumeBytes := 0, CheckCount := 0, StatusPageCount := 0, APIKeyCount := 0,
                  AILevel1Calls := 0, AILevel2Calls := 0, AILevel3Calls := 0 }).updateAdd
                found.ID Column.ai_level1_calls 1 with
            | error e =>
              simp [Proc.step, Proc.ret, Op.target, aiColumn, incrementColumn, h0, h1, hfind, h2,
                hupd]
            | ok db2 =>
              simp [Proc.step, Proc.ret, Op.target, aiColumn, incrementColumn, h0, h1, hfind, h2,
                hupd]
        by_cases l2 : level = 2
        · subst l2
          cases h2 : faults 2 with
          | some e2 =>
            simp [Proc.step, Proc.ret, Op.target, aiColumn, incrementColumn, h0, h1, hfind, h2]
          | none =>
            cases hupd : (db.createOnConflictDoNothing
                { ID := 0, OrgID := orgID, Year := now.Year, Month := now.Month.toInt,
                  LogVolumeBytes := 0, CheckCount := 0, StatusPageCount := 0, APIKeyCount := 0,
                  AILevel1Calls := 0, AILevel2Calls := 0, AILevel3Calls := 0 }).updateAdd
                found.ID Column.ai_level2_calls 1 with
            | error e =>
              simp [Proc.step, Proc.ret, Op.target, aiColumn, incrementColumn, h0, h1, hfind, h2,
                hupd]
            | ok db2 =>
              simp [Proc.step, Proc.ret, Op.target, aiColumn, incrementColumn, h0, h1, hfind, h2,
                hupd]
        by_cases l3 : level = 3
        · subst l3
          cases h2 : faults 2 with
          | some e2 =>
            simp [Proc.step, Proc.ret, Op.target, aiColumn, incrementColumn, h0, h1, hfind, h2]
          | none =>
            cases hupd : (db.createOnConflictDoNothing
                { ID := 0, OrgID := orgID, Year := now.Year, Month := now.Month.toInt,
                  LogVolumeBytes := 0, CheckCount := 0, StatusPageCount := 0, APIKeyCount := 0,
                  AILevel1Calls := 0, AILevel2Calls := 0, AILevel3Calls := 0 }).updateAdd
                found.ID Column.ai_level3_calls 1 with
            | error e =>
              simp [Proc.step, Proc.ret, Op.target, aiColumn, incrementColumn, h0, h1, hfind, h2,
                hupd]
            | ok db2 =>
              simp [Proc.step, Proc.ret, Op.target, aiColumn, incrementColumn, h0, h1, hfind, h2,
                hupd]
        simp [Proc.step, Proc.ret, Op.target, aiColumn, incrementColumn, h0, h1, hfind, l1, l2, l3]

/-! ## Concurrent callers: every call returns -/

theorem healthy_mono (p : Proc) (db db2 : DB) (h : p.Healthy db) (he : db.Extends db2) :
    p.Healthy db2 := by
  refine ⟨h.no_fault, h.nonneg, h.ok, h.pc_le, ?_, h.loaded⟩
  intro h1 h2
  obtain ⟨r, hr, hk⟩ := h.row h1 h2
  obtain ⟨r2, hr2, _, e2, e3, e4⟩ := he r hr
  exact ⟨r2, hr2, by rw [hasKey_of_key r r2 ⟨e2, e3, e4⟩]; exact hk⟩

theorem exists_row_after_create (db : DB) (u : MonthlyUsage) :
    ∃ r ∈ (db.createOnConflictDoNothing u).monthlyUsages,
      r.hasKey u.OrgID u.Year u.Month = true := by
  cases hf : db.firstByKey u.OrgID u.Year u.Month with
  | some r =>
    rw [create_of_some db u r hf]
    exact ⟨r, (firstByKey_some _ _ _ _ _ hf).1, (firstByKey_some _ _ _ _ _ hf).2⟩
  | none =>
    rw [create_of_none db u hf]
    exact ⟨{ u with ID := db.nextUsageID }, by simp, by simp [MonthlyUsage.hasKey]⟩

theorem contrib_nonneg_of_not_applied (p : Proc) (hp : p.applied = false)
    (orgID : Nat) (year month : Int) (c : Column) : p.contrib orgID year month c = 0 := by
  unfold Proc.contrib
  cases p.call.op.target with
  | none => rfl
  | some t => simp [hp]

/-- One step of a healthy call whose atomic add fits the column: the call stays healthy,
comes one step closer to its return, and what it has added does not shrink. -/
theorem step_progress (p : Proc) (db : DB) (hwf : db.WellFormed) (hinv : p.Inv db)
    (hh : p.Healthy db)
    (hsafe : ∀ col d, p.call.op.target = some (col, d) → p.applied = false →
      ∀ r ∈ db.monthlyUsages,
        r.hasKey p.call.orgID p.call.now.Year p.call.now.Month.toInt = true →
        inInt64 (r.get col + d) = true) :
    (p.step db).2.Healthy (p.step db).1 ∧ (p.step db).2.remaining ≤ p.remaining - 1 ∧
    ∀ (orgID : Nat) (year month : Int) (c : Column),
      p.contrib orgID year month c ≤ (p.step db).2.contrib orgID year month c := by
  cases hres : p.result with
  | some x =>
    have hs : p.step db = (db, p) := by
      unfold Proc.step
      simp only [hres]
    rw [hs]
    refine ⟨hh, ?_, fun _ _ _ _ => le_refl _⟩
    simp [Proc.remaining, hres]
  | none =>
    have hrem : p.remaining = 4 - p.pc := by simp [Proc.remaining, hres]
    match hpc : p.pc with
    | 0 =>
      have hs : p.step db =
          (db.createOnConflictDoNothing
            { ID := 0, OrgID := p.call.orgID, Year := p.call.now.Year,
              Month := p.call.now.Month.toInt, LogVolumeBytes := 0, CheckCount := 0,
              StatusPageCount := 0, APIKeyCount := 0,
              AILevel1Calls := 0, AILevel2Calls := 0, AILevel3Calls := 0 },
           { p with pc := 1 }) := by
        unfold Proc.step
        simp only [hres, hpc, hh.no_fault 0]
      rw [hs]
      refine ⟨⟨hh.no_fault, hh.nonneg, ?_, fun _ => (by show (1 : Nat) ≤ 3; decide), ?_, ?_⟩,
        ?_, fun _ _ _ _ => le_refl _⟩
      · intro v e h2
        rw [show ({ p with pc := 1 } : Proc).result = p.result from rfl, hres] at h2
        cases h2
      · intro _ _
        exact exists_row_after_create db _
      · intro _ h2
        simp at h2
      · rw [hrem, hpc]
        simp [Proc.remaining, hres]
    | 1 =>
      obtain ⟨r, hr, hk⟩ := hh.row hres (by omega)
      cases hfind : db.firstByKey p.call.orgID p.call.now.Year p.call.now.Month.toInt with
      | none =>
        have := (firstByKey_none_iff _ _ _ _).mp hfind r hr
        rw [hk] at this
        cases this
      | some found =>
        have hfound := firstByKey_some _ _ _ _ _ hfind
        cases htar : p.call.op.target with
        | none =>
          have hs : p.step db =
              (db, { p with usage := some found, result := some (0, none) }) := by
            unfold Proc.step
            simp only [hres, hpc, hh.no_fault 1, hfind, htar]
          rw [hs]
          refine ⟨⟨hh.no_fault, hh.nonneg, ?_, ?_, ?_, ?_⟩, ?_, fun _ _ _ _ => le_refl _⟩
          · intro v e h2
            simp only [Option.some.injEq, Prod.mk.injEq] at h2
            exact h2.2.symm
          · intro h2; cases h2
          · intro h2; cases h2
          · intro h2; cases h2
          · simp [Proc.remaining]
        | some t =>
          have hs : p.step db = (db, { p with usage := some found, pc := 2 }) := by
            unfold Proc.step
            simp only [hres, hpc, hh.no_fault 1, hfind, htar]
          rw [hs]
          refine ⟨⟨hh.no_fault, hh.nonneg, ?_, fun _ => (by show (2 : Nat) ≤ 3; decide), ?_, ?_⟩,
            ?_, fun _ _ _ _ => le_refl _⟩
          · intro v e h2
            rw [show ({ p with usage := some found, pc := 2 } : Proc).result = p.result
              from rfl, hres] at h2
            cases h2
          · intro _ _
            exact ⟨found, hfound.1, hfound.2⟩
          · intro _ _
            exact ⟨rfl, by
              rw [show ({ p with usage := some found, pc := 2 } : Proc).call = p.call from rfl,
                htar]
              rfl⟩
          · rw [hrem, hpc]
            simp [Proc.remaining, hres]
    | 2 =>
      obtain ⟨hus, hts⟩ := hh.loaded hres (by omega)
      cases husage : p.usage with
      | none => rw [husage] at hus; cases hus
      | some u =>
        cases htar : p.call.op.target with
        | none => rw [htar] at hts; cases hts
        | some t =>
          obtain ⟨col, d⟩ := t
          obtain ⟨r, hr, hid, hk⟩ := hinv.usage_ok u husage
          have hp0 : p.applied = false := hinv.not_applied hres (by omega)
          have hrange := hsafe col d htar hp0 r hr hk
          have hupd : db.updateAdd u.ID col d =
              .ok (db.mapRow r.ID (fun x => x.set col (x.get col + d))) := by
            rw [← hid]
            exact updateAdd_ok db hwf r hr col d hrange
          have hext := extends_mapRow db r.ID (fun x => x.set col (x.get col + d))
            (fun x => set_ID _ _ _) (fun x => set_key _ _ _)
          have hd : 0 ≤ d := hh.nonneg col d htar
          have hcontrib : ∀ (p2 : Proc), p2.call = p.call →
              ∀ (orgID : Nat) (year month : Int) (c : Column),
                p.contrib orgID year month c ≤ p2.contrib orgID year month c := by
            intro p2 hcall orgID year month c
            rw [contrib_nonneg_of_not_applied p hp0]
            unfold Proc.contrib
            rw [hcall, htar]
            simp only
            split
            · exact hd
            · exact le_refl _
          cases hop : p.call.op with
          | logVolume bytes =>
            have hs : p.step db =
                (db.mapRow r.ID (fun x => x.set col (x.get col + d)),
                 { p with pc := 3, applied := true }) := by
              have htar2 := htar
              rw [hop] at htar2
              unfold Proc.step
              simp only [hres, hpc, husage, hh.no_fault 2, hop, htar2, hupd]
            rw [hs]
            refine ⟨⟨hh.no_fault, hh.nonneg, ?_, fun _ => le_refl 3, ?_, ?_⟩, ?_,
              hcontrib _ rfl⟩
            · intro v e h2
              rw [show ({ p with pc := 3, applied := true } : Proc).result = p.result
                from rfl, hres] at h2
              cases h2
            · intro _ _
              obtain ⟨r2, hr2, _, e2, e3, e4⟩ := hext r hr
              exact ⟨r2, hr2, by rw [hasKey_of_key r r2 ⟨e2, e3, e4⟩]; exact hk⟩
            · intro _ _
              exact ⟨by
                rw [show ({ p with pc := 3, applied := true } : Proc).usage = p.usage
                  from rfl, husage]
                rfl, by
                rw [show ({ p with pc := 3, applied := true } : Proc).call = p.call
                  from rfl, htar]
                rfl⟩
            · rw [hrem, hpc]
              simp [Proc.remaining, hres]
          | aiCalls level =>
            have hs : p.step db =
                (db.mapRow r.ID (fun x => x.set col (x.get col + d)),
                 { p with applied := true, result := some (0, none) }) := by
              have htar2 := htar
              rw [hop] at htar2
              unfold Proc.step
              simp only [hres, hpc, husage, hh.no_fault 2, hop, htar2, hupd]
            rw [hs]
            refine ⟨⟨hh.no_fault, hh.nonneg, ?_, ?_, ?_, ?_⟩, ?_, hcontrib _ rfl⟩
            · intro v e h2
              simp only [Option.some.injEq, Prod.mk.injEq] at h2
              exact h2.2.symm
            · intro h2; cases h2
            · intro h2; cases h2
            · intro h2; cases h2
            · simp [Proc.remaining]
    | n + 3 =>
      have hn : n = 0 := by
        have := hh.pc_le hres
        omega
      subst hn
      obtain ⟨hus, _⟩ := hh.loaded hres (by omega)
      cases husage : p.usage with
      | none => rw [husage] at hus; cases hus
      | some u =>
        obtain ⟨r, hr, hid, _⟩ := hinv.usage_ok u husage
        cases hfind : db.firstByID u.ID with
        | none =>
          unfold DB.firstByID at hfind
          have := List.find?_eq_none.mp hfind r hr
          simp [hid] at this
        | some updated =>
          have hs : p.step db = (db, p.ret updated.LogVolumeBytes none) := by
            unfold Proc.step
            simp only [hres, hpc, husage, hh.no_fault 3, hfind]
          rw [hs]
          refine ⟨⟨hh.no_fault, hh.nonneg, ?_, ?_, ?_, ?_⟩, ?_, fun _ _ _ _ => le_refl _⟩
          · intro v e h2
            simp only [Proc.ret, Option.some.injEq, Prod.mk.injEq] at h2
            exact h2.2.symm
          · intro h2; cases h2
          · intro h2; cases h2
          · intro h2; cases h2
          · simp [Proc.remaining, Proc.ret]

theorem pendingSum_cons (p : Proc) (ps : List Proc) (orgID : Nat) (year month : Int)
    (c : Column) :
    pendingSum (p :: ps) orgID year month c =
      p.pending orgID year month c + pendingSum ps orgID year month c := by
  simp [pendingSum]

theorem pending_nonneg (p : Proc) (hn : ∀ col d, p.call.op.target = some (col, d) → 0 ≤ d)
    (orgID : Nat) (year month : Int) (c : Column) : 0 ≤ p.pending orgID year month c := by
  unfold Proc.pending Invocation.delta Proc.contrib
  cases htar : p.call.op.target with
  | none => simp
  | some t =>
    obtain ⟨col, d⟩ := t
    have := hn col d htar
    simp only
    split_ifs <;> first | omega | (exfalso; tauto)

theorem pendingSum_nonneg (ps : List Proc)
    (hn : ∀ p ∈ ps, ∀ col d, p.call.op.target = some (col, d) → 0 ≤ d)
    (orgID : Nat) (year month : Int) (c : Column) : 0 ≤ pendingSum ps orgID year month c := by
  induction ps with
  | nil => simp [pendingSum]
  | cons p ps ih =>
    rw [pendingSum_cons]
    have h1 := pending_nonneg p (hn p (List.mem_cons_self _ _)) orgID year month c
    have h2 := ih (fun q hq => hn q (List.mem_cons_of_mem _ hq))
    omega

theorem pending_own (p : Proc) (hp : p.applied = false) (col : Column) (d : Int)
    (htar : p.call.op.target = some (col, d)) :
    p.pending p.call.orgID p.call.now.Year p.call.now.Month.toInt col = d := by
  unfold Proc.pending Invocation.delta
  rw [contrib_nonneg_of_not_applied p hp, htar]
  simp

theorem remainingAt_zero (p : Proc) (ps : List Proc) :
    remainingAt (p :: ps) 0 = p.remaining := rfl

theorem remainingAt_succ (p : Proc) (ps : List Proc) (j : Nat) :
    remainingAt (p :: ps) (j + 1) = remainingAt ps j := rfl

/-- One step of the world when no statement fails, the amounts are non-negative and the
counters have room for everything still to be added: every call stays healthy, the call
that moved is one step closer to its return, and the room is kept. -/
theorem stepAt_progress (ps : List Proc) :
    ∀ (i : Nat) (db : DB) (slack : Nat → Int → Int → Column → Int), db.WellFormed →
      (∀ p ∈ ps, p.Inv db ∧ p.Healthy db) →
      (∀ orgID year month c, 0 ≤ slack orgID year month c) →
      (∀ orgID year month c,
        -9223372036854775808 ≤ db.counterOf orgID year month c ∧
        db.counterOf orgID year month c + pendingSum ps orgID year month c +
          slack orgID year month c < 9223372036854775808) →
      (∀ p ∈ (stepAt i db ps).2, p.Healthy (stepAt i db ps).1) ∧
      (∀ j, remainingAt (stepAt i db ps).2 j ≤
        remainingAt ps j - (if j = i then 1 else 0)) ∧
      (∀ orgID year month c,
        -9223372036854775808 ≤ (stepAt i db ps).1.counterOf orgID year month c ∧
        (stepAt i db ps).1.counterOf orgID year month c +
          pendingSum (stepAt i db ps).2 orgID year month c +
          slack orgID year month c < 9223372036854775808) := by
  induction ps with
  | nil =>
    intro i db slack _ _ _ hrange
    have hs : stepAt i db [] = (db, []) := by cases i <;> rfl
    rw [hs]
    refine ⟨fun p hp => absurd hp (List.not_mem_nil p), fun j => ?_, hrange⟩
    simp [remainingAt]
  | cons p ps ih =>
    intro i db slack hwf hall hslack hrange
    have hp := hall p (List.mem_cons_self _ _)
    have hnn : ∀ q ∈ ps, ∀ col d, q.call.op.target = some (col, d) → 0 ≤ d :=
      fun q hq => (hall q (List.mem_cons_of_mem _ hq)).2.nonneg
    cases i with
    | zero =>
      have hs : stepAt 0 db (p :: ps) = ((p.step db).1, (p.step db).2 :: ps) := rfl
      rw [hs]
      obtain ⟨_, hext, hcall, _, hbal⟩ := step_spec p db hwf hp.1
      have hsafe : ∀ col d, p.call.op.target = some (col, d) → p.applied = false →
          ∀ r ∈ db.monthlyUsages,
            r.hasKey p.call.orgID p.call.now.Year p.call.now.Month.toInt = true →
            inInt64 (r.get col + d) = true := by
        intro col d htar hp0 r hr hk
        have hc := counterOf_of_firstByKey db _ _ _ r
          (firstByKey_of_mem db hwf r hr _ _ _ hk) col
        have hr1 := hrange p.call.orgID p.call.now.Year p.call.now.Month.toInt col
        rw [pendingSum_cons, pending_own p hp0 col d htar, hc] at hr1
        have h1 := pendingSum_nonneg ps hnn p.call.orgID p.call.now.Year
          p.call.now.Month.toInt col
        have h2 := hslack p.call.orgID p.call.now.Year p.call.now.Month.toInt col
        have h3 := hp.2.nonneg col d htar
        rw [inInt64_iff]
        omega
      obtain ⟨hh2, hrem, hmono⟩ := step_progress p db hwf hp.1 hp.2 hsafe
      refine ⟨?_, ?_, ?_⟩
      · intro q hq
        rcases List.mem_cons.mp hq with rfl | hq
        · exact hh2
        · exact healthy_mono q db _ (hall q (List.mem_cons_of_mem _ hq)).2 hext
      · intro j
        cases j with
        | zero =>
          rw [remainingAt_zero, remainingAt_zero, if_pos rfl]
          exact hrem
        | succ j =>
          rw [remainingAt_succ, remainingAt_succ]
          simp
      · intro orgID year month c
        have hr1 := hrange orgID year month c
        have hb := hbal orgID year month c
        have hm := hmono orgID year month c
        rw [pendingSum_cons] at hr1 ⊢
        have hpend : (p.step db).2.pending orgID year month c =
            p.call.delta orgID year month c - (p.step db).2.contrib orgID year month c := by
          unfold Proc.pending
          rw [hcall]
        have hpend0 : p.pending orgID year month c =
            p.call.delta orgID year month c - p.contrib orgID year month c := rfl
        dsimp only at hr1 hb hm ⊢
        constructor <;> omega
    | succ i =>
      have hs : stepAt (i + 1) db (p :: ps) =
          ((stepAt i db ps).1, p :: (stepAt i db ps).2) := rfl
      rw [hs]
      obtain ⟨_, hext, _, _, _⟩ :=
        stepAt_spec ps i db hwf (fun q hq => (hall q (List.mem_cons_of_mem _ hq)).1)
      have hpn : ∀ orgID year month c, 0 ≤ p.pending orgID year month c :=
        pending_nonneg p hp.2.nonneg
      obtain ⟨k1, k2, k3⟩ := ih i db
        (fun orgID year month c => slack orgID year month c + p.pending orgID year month c)
        hwf (fun q hq => hall q (List.mem_cons_of_mem _ hq))
        (fun orgID year month c => by
          have := hslack orgID year month c
          have := hpn orgID year month c
          dsimp only
          omega)
        (fun orgID year month c => by
          have h := hrange orgID year month c
          rw [pendingSum_cons] at h
          dsimp only
          constructor <;> omega)
      refine ⟨?_, ?_, ?_⟩
      · intro q hq
        rcases List.mem_cons.mp hq with rfl | hq
        · exact healthy_mono q db _ hp.2 hext
        · exact k1 q hq
      · intro j
        cases j with
        | zero =>
          rw [remainingAt_zero, remainingAt_zero]
          simp
        | succ j =>
          rw [remainingAt_succ, remainingAt_succ]
          have := k2 j
          by_cases hji : j = i
          · subst hji
            simpa using this
          · simpa [hji] using this
      · intro orgID year month c
        have h := k3 orgID year month c
        rw [pendingSum_cons]
        dsimp only at h ⊢
        constructor <;> omega

theorem exec_progress (schedule : List Nat) :
    ∀ w : World, w.db.WellFormed → (∀ p ∈ w.procs, p.Inv w.db ∧ p.Healthy w.db) →
      (∀ orgID year month c,
        -9223372036854775808 ≤ w.db.counterOf orgID year month c ∧
        w.db.counterOf orgID year month c + pendingSum w.procs orgID year month c +
          0 < 9223372036854775808) →
      (∀ p ∈ (w.exec schedule).procs, p.Healthy (w.exec schedule).db) ∧
      (∀ j, remainingAt (w.exec schedule).procs j ≤ remainingAt w.procs j - schedule.count j) := by
  induction schedule with
  | nil =>
    intro w _ hall _
    exact ⟨fun p hp => (hall p hp).2, fun j => by simp [World.exec]⟩
  | cons i rest ih =>
    intro w hwf hall hrange
    obtain ⟨h1, _, _, h4, _⟩ := stepAt_spec w.procs i w.db hwf (fun p hp => (hall p hp).1)
    obtain ⟨g1, g2, g3⟩ := stepAt_progress w.procs i w.db (fun _ _ _ _ => 0) hwf hall
      (fun _ _ _ _ => le_refl 0) hrange
    have hs : w.exec (i :: rest) = (w.step i).exec rest := rfl
    rw [hs]
    obtain ⟨k1, k2⟩ := ih (w.step i) h1 (fun p hp => ⟨h4 p hp, g1 p hp⟩) g3
    refine ⟨k1, ?_⟩
    intro j
    have a := g2 j
    have b := k2 j
    simp only [World.step] at b ⊢
    rw [List.count_cons]
    by_cases hji : j = i
    · subst hji
      simp only [if_true] at a
      simp only [beq_self_eq_true, if_true]
      omega
    · have hne : (i == j) = false := by
        simp only [beq_eq_false_iff_ne, ne_eq]
        exact fun h => hji h.symm
      simp only [hji, if_false] at a
      simp only [hne]
      simp only [Bool.false_eq_true, if_false]
      omega

theorem healthy_start (call : Invocation) (db : DB) (hf : ∀ k, call.faults k = none)
    (hn : ∀ col d, call.op.target = some (col, d) → 0 ≤ d) : (Proc.start call).Healthy db :=
  ⟨hf, hn, fun _ _ h => (by cases h), fun _ => Nat.zero_le 3,
    fun _ h => (by simp [Proc.start] at h), fun _ h => (by simp [Proc.start] at h)⟩

theorem pendingSum_start (calls : List Invocation) (orgID : Nat) (year month : Int)
    (c : Column) :
    pendingSum (calls.map Proc.start) orgID year month c =
      requestedSum calls orgID year month c := by
  induction calls with
  | nil => rfl
  | cons call rest ih =>
    simp only [List.map_cons, pendingSum_cons, ih, requestedSum, List.sum_cons]
    unfold Proc.pending
    rw [contrib_nonneg_of_not_applied _ rfl]
    simp [Proc.start]

/-- With no statement failing, non-negative amounts and room in every counter for the
total asked, every call that has been scheduled four times has returned, and returned
no error. -/
theorem allSucceeded_of_fair (db : DB) (hwf : db.WellFormed) (calls : List Invocation)
    (schedule : List Nat)
    (hcalls : ∀ call ∈ calls, (∀ k, call.faults k = none) ∧
      ∀ col d, call.op.target = some (col, d) → 0 ≤ d)
    (hroom : ∀ orgID year month c,
      inInt64 (db.counterOf orgID year month c) = true ∧
      inInt64 (db.counterOf orgID year month c + requestedSum calls orgID year month c) = true)
    (hfair : ∀ j, j < calls.length → 4 ≤ schedule.count j) :
    ((World.init db calls).exec schedule).allSucceeded = true := by
  have hall : ∀ p ∈ (World.init db calls).procs,
      p.Inv (World.init db calls).db ∧ p.Healthy (World.init db calls).db := by
    intro p hp
    obtain ⟨call, hc, rfl⟩ := List.mem_map.mp hp
    exact ⟨inv_start call db, healthy_start call db (hcalls call hc).1 (hcalls call hc).2⟩
  have hrange : ∀ orgID year month c,
      -9223372036854775808 ≤ (World.init db calls).db.counterOf orgID year month c ∧
      (World.init db calls).db.counterOf orgID year month c +
        pendingSum (World.init db calls).procs orgID year month c + 0 <
          9223372036854775808 := by
    intro orgID year month c
    obtain ⟨h1, h2⟩ := hroom orgID year month c
    rw [inInt64_iff] at h1 h2
    have := pendingSum_start calls orgID year month c
    simp only [World.init] at this ⊢
    constructor <;> omega
  obtain ⟨k1, k2⟩ := exec_progress schedule (World.init db calls) hwf hall hrange
  obtain ⟨_, hmap, _, _⟩ := exec_spec schedule (World.init db calls) hwf
    (fun p hp => (hall p hp).1)
  have hlen : ((World.init db calls).exec schedule).procs.length = calls.length := by
    have := congrArg List.length hmap
    simpa [World.init] using this
  unfold World.allSucceeded
  rw [List.all_eq_true]
  intro p hp
  obtain ⟨j, hj, hget⟩ := List.getElem_of_mem hp
  have hrem : p.remaining = 0 := by
    have h1 := k2 j
    have h2 : remainingAt ((World.init db calls).exec schedule).procs j = p.remaining := by
      unfold remainingAt
      rw [List.get?_eq_getElem?, List.getElem?_eq_getElem hj, hget]
    have h3 : remainingAt (World.init db calls).procs j ≤ 4 := by
      unfold remainingAt
      cases hq : (World.init db calls).procs.get? j with
      | none => simp
      | some q =>
        obtain ⟨call, _, rfl⟩ := List.mem_map.mp (List.get?_mem hq)
        simp [Proc.remaining, Proc.start]
    have h4 := hfair j (by omega)
    omega
  have hh := k1 p hp
  cases hr : p.result with
  | none =>
    have := hh.pc_le hr
    simp only [Proc.remaining, hr] at hrem
    omega
  | some x =>
    obtain ⟨v, e⟩ := x
    have := hh.ok v e hr
    subst this
    rfl

/-! ## Concurrent callers: no increment is lost -/

theorem counterOf_bounds (db : DB) (lo hi : Int) (h0 : lo ≤ 0 ∧ 0 ≤ hi)
    (h : ∀ r ∈ db.monthlyUsages, ∀ c, lo ≤ r.get c ∧ r.get c ≤ hi)
    (orgID : Nat) (year month : Int) (c : Column) :
    lo ≤ db.counterOf orgID year month c ∧ db.counterOf orgID year month c ≤ hi := by
  unfold DB.counterOf
  cases hf : db.firstByKey orgID year month with
  | none => exact h0
  | some r => exact h r (firstByKey_some _ _ _ _ _ hf).1 c

/-- C5. Calls of `IncrementLogVolume` and `IncrementAICalls` running at the same time on
a shared store, their storage statements interleaved in any order.  At every moment each
counter of each period equals its value before the calls plus the amounts of the
atomic adds that have taken effect, so no add is ever overwritten.  When every call has
returned without error, the counter equals its value before the calls plus the total
the calls asked to add to that counter of that period, for the log volume and for each
of the three AI counters.  And every call does return without error, whatever the
interleaving, once each has been scheduled four times, when no statement fails, the
amounts are non-negative and every counter has room for the total asked. -/
theorem no_lost_increment (db : DB) (hwf : db.WellFormed) (calls : List Invocation)
    (schedule : List Nat) (orgID : Nat) (year month : Int) (c : Column) :
    ((World.init db calls).exec schedule).db.counterOf orgID year month c =
      db.counterOf orgID year month c +
        appliedSum ((World.init db calls).exec schedule).procs orgID year month c ∧
    (((World.init db calls).exec schedule).allSucceeded = true →
      ((World.init db calls).exec schedule).db.counterOf orgID year month c =
        db.counterOf orgID year month c + requestedSum calls orgID year month c) ∧
    ((∀ call ∈ calls, (∀ k, call.faults k = none) ∧
        ∀ col d, call.op.target = some (col, d) → 0 ≤ d) →
      (∀ o y m col,
        inInt64 (db.counterOf o y m col) = true ∧
        inInt64 (db.counterOf o y m col + requestedSum calls o y m col) = true) →
      (∀ j, j < calls.length → 4 ≤ schedule.count j) →
      ((World.init db calls).exec schedule).allSucceeded = true ∧
      ((World.init db calls).exec schedule).db.counterOf orgID year month c =
        db.counterOf orgID year month c + requestedSum calls orgID year month c) := by
  obtain ⟨_, h2, h3, h4⟩ := exec_spec schedule (World.init db calls) hwf
    (fun p hp => by
      obtain ⟨call, _, rfl⟩ := List.mem_map.mp hp
      exact inv_start call db)
  have h := h4 orgID year month c
  have h0 : appliedSum (World.init db calls).procs orgID year month c = 0 :=
    appliedSum_start calls orgID year month c
  have hmain : ((World.init db calls).exec schedule).db.counterOf orgID year month c =
      db.counterOf orgID year month c +
        appliedSum ((World.init db calls).exec schedule).procs orgID year month c := by
    rw [h0] at h
    simpa [World.init] using h
  have hsucc : ((World.init db calls).exec schedule).allSucceeded = true →
      ((World.init db calls).exec schedule).db.counterOf orgID year month c =
        db.counterOf orgID year month c + requestedSum calls orgID year month c := by
    intro hall
    rw [hmain, appliedSum_of_allSucceeded _ _ h3 hall, h2]
    have hc : (World.init db calls).procs.map Proc.call = calls := by
      simp only [World.init, List.map_map]
      exact List.map_id _
    rw [hc]
  refine ⟨hmain, hsucc, ?_⟩
  intro hcalls hroom hfair
  have hall := allSucceeded_of_fair db hwf calls schedule hcalls hroom hfair
  exact ⟨hall, hsucc hall⟩

/-- On the sample store, two log-volume calls (10 and 20 bytes) and two level-2 AI calls
of organization 1 run interleaved, each scheduled at least four times: all return
without error, the log volume goes from 100 to 130 and the level-2 counter from 6 to
8. -/
theorem no_lost_increment_witness :
    sampleDB.WellFormed ∧
    ((World.init sampleDB sampleCalls).exec sampleSchedule).allSucceeded = true ∧
    ((World.init sampleDB sampleCalls).exec sampleSchedule).db.counterOf 1 2025 3
      Column.log_volume_bytes = 130 ∧
    ((World.init sampleDB sampleCalls).exec sampleSchedule).db.counterOf 1 2025 3
      Column.ai_level2_calls = 8 := by
  have hcalls : ∀ call ∈ sampleCalls, (∀ k, call.faults k = none) ∧
      ∀ col d, call.op.target = some (col, d) → 0 ≤ d := by
    intro call hc
    simp only [sampleCalls, List.mem_cons, List.mem_singleton, List.not_mem_nil, or_false] at hc
    rcases hc with rfl | rfl | rfl | rfl
    all_goals
      refine ⟨fun _ => rfl, ?_⟩
      intro col d h
      simp only [Op.target, aiColumn, Option.some.injEq, Prod.mk.injEq] at h
      first
        | (obtain ⟨_, rfl⟩ := h; decide)
        | (simp at h; obtain ⟨_, rfl⟩ := h; decide)
  have hreq : ∀ o y m col, 0 ≤ requestedSum sampleCalls o y m col ∧
      requestedSum sampleCalls o y m col ≤ 32 := by
    intro o y m col
    simp only [requestedSum, sampleCalls, Invocation.delta, Op.target, aiColumn, List.map_cons,
      List.map_nil, List.sum_cons, List.sum_nil]
    simp only [show ((2 : Int) = 1) = False from by decide, if_false, if_true, Option.map_some']
    split_ifs <;> constructor <;> omega
  have hroom : ∀ o y m col,
      inInt64 (sampleDB.counterOf o y m col) = true ∧
      inInt64 (sampleDB.counterOf o y m col + requestedSum sampleCalls o y m col) = true := by
    intro o y m col
    have hb := counterOf_bounds sampleDB 0 100 (by decide) (by
      intro r hr c
      simp only [sampleDB, List.mem_cons, List.mem_singleton, List.not_mem_nil, or_false] at hr
      rcases hr with rfl | rfl <;> cases c <;> decide) o y m col
    have hq := hreq o y m col
    rw [inInt64_iff, inInt64_iff]
    constructor <;> constructor <;> omega
  have hfair : ∀ j, j < sampleCalls.length → 4 ≤ sampleSchedule.count j := by
    intro j hj
    have : j = 0 ∨ j = 1 ∨ j = 2 ∨ j = 3 := by
      simp only [sampleCalls, List.length_cons, List.length_nil] at hj
      omega
    rcases this with rfl | rfl | rfl | rfl <;> decide
  have h1 := (no_lost_increment sampleDB sampleDB_wf sampleCalls sampleSchedule 1 2025 3
    Column.log_volume_bytes).2.2 hcalls hroom hfair
  have h2 := (no_lost_increment sampleDB sampleDB_wf sampleCalls sampleSchedule 1 2025 3
    Column.ai_level2_calls).2.2 hcalls hroom hfair
  refine ⟨sampleDB_wf, h1.1, ?_, ?_⟩
  · rw [h1.2]; decide
  · rw [h2.2]; decide

/-! ## Sync followed by a snapshot -/

theorem countChecks_eq_filter (db : DB) (orgID : Nat) :
    db.countChecks orgID = ((db.checks.filter
      (fun c => decide (c.OrgID = orgID) && decide (c.DeletedAt = none))).length : Int) := by
  unfold DB.countChecks
  congr 2
  apply List.filter_congr
  intro c _
  cases c.DeletedAt <;> simp

theorem countAPIKeys_eq_filter (db : DB) (orgID : Nat) :
    db.countAPIKeys orgID = ((db.apiKeys.filter
      (fun k => decide (k.OrgID = orgID) && decide (k.DeletedAt = none))).length : Int) := by
  unfold DB.countAPIKeys
  congr 2
  apply List.filter_congr
  intro c _
  cases c.DeletedAt <;> simp

/-- C11. A successful `SyncResourceCounts` followed, in the same period, by a successful
`GetUsageSnapshot`: the snapshot's `CheckCount` and `APIKeyCount` are what
`GetCurrentCheckCount` and `GetCurrentAPIKeyCount` return, the numbers of checks and of
API keys of the organization that are not soft-deleted; and the snapshot is, on all
seven fields, `ToSnapshot` of the ledger row `GetOrCreateMonthlyUsage` returns. -/
theorem sync_then_snapshot (db : DB) (faults1 faults2 : Faults) (now1 now2 : Time)
    (orgID : Nat) (hwf : db.WellFormed)
    (hf1 : ∀ k, k < 5 → faults1 k = none) (hf2 : ∀ k, k < 4 → faults2 k = none)
    (hy : now2.Year = now1.Year) (hm : now2.Month = now1.Month) :
    ∃ (db2 : DB) (row : MonthlyUsage),
      SyncResourceCounts db faults1 now1 orgID = { val := (), err := none, db := db2 } ∧
      (GetUsageSnapshot db2 faults2 now2 orgID).err = none ∧
      (GetUsageSnapshot db2 faults2 now2 orgID).db = db2 ∧
      (GetCurrentCheckCount db2 Faults.none orgID).err = none ∧
      (GetCurrentAPIKeyCount db2 Faults.none orgID).err = none ∧
      (GetUsageSnapshot db2 faults2 now2 orgID).val.CheckCount =
        (GetCurrentCheckCount db2 Faults.none orgID).val ∧
      (GetUsageSnapshot db2 faults2 now2 orgID).val.APIKeyCount =
        (GetCurrentAPIKeyCount db2 Faults.none orgID).val ∧
      (GetCurrentCheckCount db2 Faults.none orgID).val =
        ((db.checks.filter
          (fun c => decide (c.OrgID = orgID) && decide (c.DeletedAt = none))).length : Int) ∧
      (GetCurrentAPIKeyCount db2 Faults.none orgID).val =
        ((db.apiKeys.filter
          (fun k => decide (k.OrgID = orgID) && decide (k.DeletedAt = none))).length : Int) ∧
      GetOrCreateMonthlyUsage db2 Faults.none now2 orgID =
        { val := some row, err := none, db := db2 } ∧
      (GetUsageSnapshot db2 faults2 now2 orgID).val = row.ToSnapshot := by
  obtain ⟨r0, db1, hg, hwf1, hmem, hk, hc, ha, _, _, _⟩ :=
    getOrCreate_summary db faults1 now1 orgID hwf (hf1 0 (by decide)) (hf1 1 (by decide))
  have hres := syncResourceCounts_of_getOrCreate db faults1 now1 orgID r0 db1 hg
    (hf1 2 (by decide)) (hf1 3 (by decide)) (hf1 4 (by decide))
  have hs := mapRow_summary db1 hwf1 r0 hmem orgID now1.Year now1.Month.toInt hk
    (fun r => { r with CheckCount := db1.countChecks orgID,
                       APIKeyCount := db1.countAPIKeys orgID })
    (fun _ => rfl) (fun _ => ⟨rfl, rfl, rfl⟩)
  have hfirst := hs.2.1
  rw [← hy, ← hm] at hfirst
  have hgo := getOrCreate_of_some _ (faults2.shift 2) now2 orgID _
    (hf2 2 (by decide)) (hf2 3 (by decide)) hfirst
  have hgo2 := getOrCreate_of_some _ Faults.none now2 orgID _ rfl rfl hfirst
  have hsnap : GetUsageSnapshot (db1.mapRow r0.ID (fun r =>
        { r with CheckCount := db1.countChecks orgID,
                 APIKeyCount := db1.countAPIKeys orgID })) faults2 now2 orgID =
      { val := { CheckCount := db1.countChecks orgID, LogVolumeBytes := r0.LogVolumeBytes,
                 StatusPageCount := r0.StatusPageCount, APIKeyCount := db1.countAPIKeys orgID,
                 AILevel1Calls := r0.AILevel1Calls, AILevel2Calls := r0.AILevel2Calls,
                 AILevel3Calls := r0.AILevel3Calls },
        err := none,
        db := db1.mapRow r0.ID (fun r =>
          { r with CheckCount := db1.countChecks orgID,
                   APIKeyCount := db1.countAPIKeys orgID }) } := by
    unfold GetUsageSnapshot
    simp only [hf2 0 (by decide), hf2 1 (by decide), hgo]
    rfl
  refine ⟨_, _, hres, ?_, ?_, rfl, rfl, ?_, ?_, ?_, ?_, hgo2, ?_⟩
  · rw [hsnap]
  · rw [hsnap]
  · rw [hsnap]; rfl
  · rw [hsnap]; rfl
  · show DB.countChecks _ orgID = _
    rw [countChecks_congr db _ (hs.2.2.2.2.2.1.trans hc), countChecks_eq_filter]
  · show DB.countAPIKeys _ orgID = _
    rw [countAPIKeys_congr db _ (hs.2.2.2.2.2.2.trans ha), countAPIKeys_eq_filter]
  · rw [hsnap]; rfl

/-- On the sample store (organization 1: three checks, one soft-deleted; two API keys,
one soft-deleted; 9 and 8 cached) a sync followed by a snapshot reports 2 and 1, as the
direct counts do. -/
theorem sync_then_snapshot_witness :
    sampleDB.WellFormed ∧
    (GetUsageSnapshot (SyncResourceCounts sampleDB Faults.none sampleTime 1).db
      Faults.none sampleTimeLater 1).val.CheckCount = 2 ∧
    (GetUsageSnapshot (SyncResourceCounts sampleDB Faults.none sampleTime 1).db
      Faults.none sampleTimeLater 1).val.APIKeyCount = 1 ∧
    (GetCurrentCheckCount sampleDB Faults.none 1).val = 2 ∧
    (GetCurrentAPIKeyCount sampleDB Faults.none 1).val = 1 := by
  obtain ⟨db2, row, h1, _, _, _, _, h6, h7, h8, h9, _, _⟩ :=
    sync_then_snapshot sampleDB Faults.none Faults.none sampleTime sampleTimeLater 1
      sampleDB_wf (fun _ _ => rfl) (fun _ _ => rfl) rfl rfl
  rw [h1]
  refine ⟨sampleDB_wf, ?_, ?_, by decide, by decide⟩
  · show (GetUsageSnapshot db2 Faults.none sampleTimeLater 1).val.CheckCount = 2
    rw [h6, h8]; decide
  · show (GetUsageSnapshot db2 Faults.none sampleTimeLater 1).val.APIKeyCount = 1
    rw [h7, h9]; decide

/-! ## Lookup by price identifier -/

theorem getPlanByStripePriceID_found_iff (order : List (Plan × PlanConfig)) (priceID : String) :
    (GetPlanByStripePriceID order priceID).2 = true ↔
      ∃ e ∈ order, e.2.StripePriceID = priceID := by
  induction order with
  | nil => simp [GetPlanByStripePriceID]
  | cons e rest ih =>
    obtain ⟨plan, config⟩ := e
    unfold GetPlanByStripePriceID
    by_cases h : config.StripePriceID = priceID
    · simp [h]
    · simp only [if_neg h, ih, List.mem_cons]
      constructor
      · rintro ⟨e, he, hid⟩
        exact ⟨e, Or.inr he, hid⟩
      · rintro ⟨e, he | he, hid⟩
        · subst he
          exact absurd hid h
        · exact ⟨e, he, hid⟩

theorem getPlanByStripePriceID_found_mem (order : List (Plan × PlanConfig)) (priceID : String)
    (h : (GetPlanByStripePriceID order priceID).2 = true) :
    ∃ config, ((GetPlanByStripePriceID order priceID).1, config) ∈ order ∧
      config.StripePriceID = priceID := by
  induction order with
  | nil => simp [GetPlanByStripePriceID] at h
  | cons e rest ih =>
    obtain ⟨plan, config⟩ := e
    unfold GetPlanByStripePriceID at h ⊢
    by_cases hc : config.StripePriceID = priceID
    · rw [if_pos hc]
      exact ⟨config, List.mem_cons_self _ _, hc⟩
    · rw [if_neg hc] at h ⊢
      obtain ⟨c, hm, hid⟩ := ih h
      exact ⟨c, List.mem_cons_of_mem _ hm, hid⟩

theorem getPlanByStripePriceID_not_found (order : List (Plan × PlanConfig)) (priceID : String)
    (h : ∀ e ∈ order, e.2.StripePriceID ≠ priceID) :
    GetPlanByStripePriceID order priceID = (PlanFree, false) := by
  induction order with
  | nil => rfl
  | cons e rest ih =>
    obtain ⟨plan, config⟩ := e
    unfold GetPlanByStripePriceID
    rw [if_neg (h (plan, config) (List.mem_cons_self _ _))]
    exact ih (fun e he => h e (List.mem_cons_of_mem _ he))

theorem lookup_of_mem_nodup (catalog : List (Plan × PlanConfig)) (plan : Plan)
    (config : PlanConfig) (hk : (catalog.map Prod.fst).Nodup) (hm : (plan, config) ∈ catalog) :
    catalog.lookup plan = some config := by
  induction catalog with
  | nil => cases hm
  | cons e rest ih =>
    obtain ⟨k, b⟩ := e
    simp only [List.map_cons, List.nodup_cons] at hk
    rcases List.mem_cons.mp hm with heq | hm2
    · simp only [Prod.mk.injEq] at heq
      obtain ⟨rfl, rfl⟩ := heq
      simp [List.lookup]
    · have hne : plan ≠ k := by
        intro h
        exact hk.1 (List.mem_map.mpr ⟨(plan, config), hm2, h⟩)
      have hb : (plan == k) = false := beq_eq_false_iff_ne.mpr hne
      simp only [List.lookup, hb]
      exact ih hk.2 hm2

/-- C12. `GetPlanByStripePriceID` is a sound and complete search of the catalog, in
whatever order the loop visits the entries: it reports found exactly when some entry
of the catalog has the given `StripePriceID`; the plan it then returns is a key of the
catalog whose entry has that `StripePriceID`; and when no entry has it, the result is
`(PlanFree, false)`. -/
theorem getPlanByStripePriceID_search (catalog order : List (Plan × PlanConfig))
    (priceID : String) (hperm : order.Perm catalog)
    (hkeys : (catalog.map Prod.fst).Nodup) :
    ((GetPlanByStripePriceID order priceID).2 = true ↔
      ∃ e ∈ catalog, e.2.StripePriceID = priceID) ∧
    ((GetPlanByStripePriceID order priceID).2 = true →
      ∃ config, catalog.lookup (GetPlanByStripePriceID order priceID).1 = some config ∧
        config.StripePriceID = priceID) ∧
    ((∀ e ∈ catalog, e.2.StripePriceID ≠ priceID) →
      GetPlanByStripePriceID order priceID = (PlanFree, false)) := by
  refine ⟨?_, ?_, ?_⟩
  · rw [getPlanByStripePriceID_found_iff]
    constructor
    · rintro ⟨e, he, hid⟩
      exact ⟨e, hperm.mem_iff.mp he, hid⟩
    · rintro ⟨e, he, hid⟩
      exact ⟨e, hperm.mem_iff.mpr he, hid⟩
  · intro h
    obtain ⟨config, hm, hid⟩ := getPlanByStripePriceID_found_mem order priceID h
    exact ⟨config, lookup_of_mem_nodup catalog _ config hkeys (hperm.mem_iff.mp hm), hid⟩
  · intro h
    exact getPlanByStripePriceID_not_found order priceID
      (fun e he => h e (hperm.mem_iff.mp he))

/-- On the catalog of the source, visited in reverse order: no entry has the price
identifier "price_123", and the search returns `(PlanFree, false)`. -/
theorem getPlanByStripePriceID_search_witness :
    PlanConfigs.reverse.Perm PlanConfigs ∧ (PlanConfigs.map Prod.fst).Nodup ∧
    GetPlanByStripePriceID PlanConfigs.reverse "price_123" = (PlanFree, false) :=
  ⟨List.reverse_perm _, by decide,
    (getPlanByStripePriceID_search PlanConfigs PlanConfigs.reverse "price_123"
      (List.reverse_perm _) (by decide)).2.2 (by decide)⟩

theorem getPlanByStripePriceID_empty_found (order : List (Plan × PlanConfig))
    (h : order.Perm PlanConfigs) : (GetPlanByStripePriceID order "").2 = true := by
  rw [getPlanByStripePriceID_found_iff]
  have hm : (PlanFree, PlanConfigs.index PlanFree) ∈ PlanConfigs := by decide
  exact ⟨_, h.mem_iff.mpr hm, by decide⟩

/-- C13, the code at the failing input.  With the catalog of the source, where every
entry has the empty `StripePriceID`, looking up the empty identifier reports found: the
first entry visited matches.  Visited in source order the result is `(PlanFree, true)`,
visited in reverse order it is `(PlanAgency, true)`, and found is `true` for every
order of visit. -/
theorem getPlanByStripePriceID_empty :
    GetPlanByStripePriceID PlanConfigs "" = (PlanFree, true) ∧
    GetPlanByStripePriceID PlanConfigs.reverse "" = (PlanAgency, true) ∧
    (∀ order ∈ PlanConfigs.permutations, (GetPlanByStripePriceID order "").2 = true) :=
  ⟨by decide, by decide,
    fun order h => getPlanByStripePriceID_empty_found order (List.mem_permutations.mp h)⟩

/-! ## Plan validity -/

/-- C19. `IsValid` is membership in the four plan constants, which is membership in the
keys of the catalog; and for a valid plan `GetPlanConfig` returns the entry the catalog
holds under that plan, found by the map read and not by the fallback. -/
theorem plan_isValid_iff (p : Plan) :
    (p.IsValid = true ↔ p = PlanFree ∨ p = PlanIndiePro ∨ p = PlanTeam ∨ p = PlanAgency) ∧
    (p.IsValid = true ↔ p ∈ PlanConfigs.keys) ∧
    (p.IsValid = true → PlanConfigs.get? p = some (GetPlanConfig p)) ∧
    (GetPlanConfig PlanFree).Name = "Free" ∧ (GetPlanConfig PlanIndiePro).Name = "Indie Pro" ∧
    (GetPlanConfig PlanTeam).Name = "Team" ∧ (GetPlanConfig PlanAgency).Name = "Agency" := by
  have h1 : p.IsValid = true ↔
      p = PlanFree ∨ p = PlanIndiePro ∨ p = PlanTeam ∨ p = PlanAgency := by
    unfold Plan.IsValid
    split <;> simp_all
  have h2 : p ∈ PlanConfigs.keys ↔
      p = PlanFree ∨ p = PlanIndiePro ∨ p = PlanTeam ∨ p = PlanAgency := by
    simp [PlanConfigs.keys, PlanConfigs]
  refine ⟨h1, h1.trans h2.symm, ?_, by decide, by decide, by decide, by decide⟩
  intro hv
  rcases h1.mp hv with rfl | rfl | rfl | rfl <;> decide

/-- The plan "team" is valid and resolves to the Team entry; "platinum" is not valid. -/
theorem plan_isValid_iff_witness :
    Plan.IsValid "team" = true ∧ PlanConfigs.get? "team" = some (GetPlanConfig "team") ∧
    (GetPlanConfig "team").MaxChecks = 75 ∧ Plan.IsValid "platinum" = false :=
  ⟨by decide, (plan_isValid_iff "team").2.2.1 (by decide), by decide, by decide⟩

/-! ## Entitlement evaluation -/

theorem checkEntitlements_get (plan : Plan) (usage : UsageSnapshot) (d : Dimension) :
    (CheckEntitlements plan usage).get d =
      evaluateLimit (usage.current d) ((GetPlanConfig plan).limit d) := by
  cases d <;> rfl

/-- C14. `CheckEntitlements` is a function of the plan and the snapshot alone.  For
every plan, snapshot and dimension it reports the current value of the snapshot and
the limit of the plan; when the limit is `-1` the dimension is allowed whatever the
current value; otherwise it is allowed exactly when `current < limit`, so blocked at
`current = limit` and allowed at `current = limit - 1`, and the remaining quantity is
`max (limit - current) 0`. -/
theorem checkEntitlements_rule (plan : Plan) (usage : UsageSnapshot) (d : Dimension) :
    ((CheckEntitlements plan usage).get d).Current = usage.current d ∧
    ((CheckEntitlements plan usage).get d).Limit = (GetPlanConfig plan).limit d ∧
    ((GetPlanConfig plan).limit d = -1 →
      ((CheckEntitlements plan usage).get d).Allowed = true) ∧
    ((GetPlanConfig plan).limit d ≠ -1 →
      (((CheckEntitlements plan usage).get d).Allowed = true ↔
        usage.current d < (GetPlanConfig plan).limit d) ∧
      ((CheckEntitlements plan usage).get d).Remaining =
        some (max ((GetPlanConfig plan).limit d - usage.current d) 0)) ∧
    ((GetPlanConfig plan).limit d ≠ -1 → usage.current d = (GetPlanConfig plan).limit d →
      ((CheckEntitlements plan usage).get d).Allowed = false) ∧
    ((GetPlanConfig plan).limit d ≠ -1 →
      usage.current d = (GetPlanConfig plan).limit d - 1 →
      ((CheckEntitlements plan usage).get d).Allowed = true) := by
  rw [checkEntitlements_get]
  unfold evaluateLimit
  by_cases h : (GetPlanConfig plan).limit d = -1
  · simp [h]
  · rw [if_neg h]
    refine ⟨rfl, rfl, fun h2 => absurd h2 h, fun _ => ⟨by simp, rfl⟩, ?_, ?_⟩
    · intro _ heq
      simp [heq]
    · intro _ heq
      simp [heq]

/-- The free plan allows 2 API keys: with 2 live keys the dimension is blocked with 0
remaining, with 1 live key it is allowed with 1 remaining; the agency plan has no
limit on API keys and allows 1000. -/
theorem checkEntitlements_rule_witness :
    (GetPlanConfig PlanFree).limit Dimension.apiKeys = 2 ∧
    ((CheckEntitlements PlanFree { UsageSnapshot.zero with APIKeyCount := 2 }).get
      Dimension.apiKeys).Allowed = false ∧
    ((CheckEntitlements PlanFree { UsageSnapshot.zero with APIKeyCount := 2 }).get
      Dimension.apiKeys).Remaining = some 0 ∧
    ((CheckEntitlements PlanFree { UsageSnapshot.zero with APIKeyCount := 1 }).get
      Dimension.apiKeys).Allowed = true ∧
    ((CheckEntitlements PlanFree { UsageSnapshot.zero with APIKeyCount := 1 }).get
      Dimension.apiKeys).Remaining = some 1 ∧
    ((CheckEntitlements PlanAgency { UsageSnapshot.zero with APIKeyCount := 1000 }).get
      Dimension.apiKeys).Allowed = true :=
  ⟨by decide,
   (checkEntitlements_rule PlanFree { UsageSnapshot.zero with APIKeyCount := 2 }
      Dimension.apiKeys).2.2.2.2.1 (by decide) (by decide),
   ((checkEntitlements_rule PlanFree { UsageSnapshot.zero with APIKeyCount := 2 }
      Dimension.apiKeys).2.2.2.1 (by decide)).2.trans (by decide),
   (checkEntitlements_rule PlanFree { UsageSnapshot.zero with APIKeyCount := 1 }
      Dimension.apiKeys).2.2.2.2.2 (by decide) (by decide),
   ((checkEntitlements_rule PlanFree { UsageSnapshot.zero with APIKeyCount := 1 }
      Dimension.apiKeys).2.2.2.1 (by decide)).2.trans (by decide),
   (checkEntitlements_rule PlanAgency { UsageSnapshot.zero with APIKeyCount := 1000 }
      Dimension.apiKeys).2.2.1 (by decide)⟩

/-! ## Failures inside IncrementLogVolume -/

theorem incrementLogVolume_reread_fails (db : DB) (faults : Faults) (now : Time)
    (orgID : Nat) (bytes : Int) (r0 : MonthlyUsage) (db1 : DB) (e : DBError)
    (hg : GetOrCreateMonthlyUsage db faults now orgID =
      { val := some r0, err := none, db := db1 })
    (hwf1 : db1.WellFormed) (hmem : r0 ∈ db1.monthlyUsages)
    (h2 : faults 2 = none) (h3 : faults 3 = some e)
    (hrange : inInt64 (r0.get Column.log_volume_bytes + bytes) = true) :
    IncrementLogVolume db faults now orgID bytes =
      { val := 0, err := some e,
        db := db1.mapRow r0.ID
          (fun x => x.set Column.log_volume_bytes (x.get Column.log_volume_bytes + bytes)) } := by
  have hu := updateAdd_ok db1 hwf1 r0 hmem Column.log_volume_bytes bytes hrange
  unfold IncrementLogVolume
  simp only [hg, h2, h3, hu]

theorem incrementLogVolume_add_fails (db : DB) (faults : Faults) (now : Time)
    (orgID : Nat) (bytes : Int) (r0 : MonthlyUsage) (db1 : DB) (e : DBError)
    (hg : GetOrCreateMonthlyUsage db faults now orgID =
      { val := some r0, err := none, db := db1 })
    (h2 : faults 2 = some e) :
    IncrementLogVolume db faults now orgID bytes = { val := 0, err := some e, db := db1 } := by
  unfold IncrementLogVolume
  simp only [hg, h2]

theorem incrementLogVolume_overflow (db : DB) (faults : Faults) (now : Time)
    (orgID : Nat) (bytes : Int) (r0 : MonthlyUsage) (db1 : DB)
    (hg : GetOrCreateMonthlyUsage db faults now orgID =
      { val := some r0, err := none, db := db1 })
    (hmem : r0 ∈ db1.monthlyUsages) (h2 : faults 2 = none)
    (hrange : inInt64 (r0.get Column.log_volume_bytes + bytes) = false) :
    IncrementLogVolume db faults now orgID bytes =
      { val := 0, err := some DBError.NumericValueOutOfRange, db := db1 } := by
  have hu := updateAdd_error db1 r0 hmem Column.log_volume_bytes bytes hrange
  unfold IncrementLogVolume
  simp only [hg, h2, hu]

theorem counterOf_getOrCreate (db : DB) (faults : Faults) (now : Time) (orgID : Nat)
    (o : Nat) (y m : Int) (c : Column) :
    (GetOrCreateMonthlyUsage db faults now orgID).db.counterOf o y m c =
      db.counterOf o y m c := by
  rcases getOrCreate_db_cases db faults now orgID with h | h
  · rw [h]
  · rw [h, counterOf_create db _ (fun c => by cases c <;> rfl)]

/-- C15. `IncrementLogVolume` does not undo its add.  When `GetOrCreateMonthlyUsage`
and the atomic add succeed and the final re-read fails with `e`, the call returns
`(0, e)` and the stored log volume of the period is already `old + bytes`.  When the
atomic add itself fails, by a storage failure or because the sum does not fit the
column, the call returns 0 with that error and every counter of every period is what
it was before the call. -/
theorem incrementLogVolume_not_atomic (db : DB) (faults : Faults) (now : Time) (orgID : Nat)
    (bytes : Int) (hwf : db.WellFormed) (h0 : faults 0 = none) (h1 : faults 1 = none) :
    (∀ e, faults 2 = none → faults 3 = some e →
      inInt64 (db.counterOf orgID now.Year now.Month.toInt Column.log_volume_bytes + bytes)
        = true →
      (IncrementLogVolume db faults now orgID bytes).val = 0 ∧
      (IncrementLogVolume db faults now orgID bytes).err = some e ∧
      (IncrementLogVolume db faults now orgID bytes).db.counterOf orgID now.Year
          now.Month.toInt Column.log_volume_bytes =
        db.counterOf orgID now.Year now.Month.toInt Column.log_volume_bytes + bytes) ∧
    (∀ e, faults 2 = some e →
      (IncrementLogVolume db faults now orgID bytes).val = 0 ∧
      (IncrementLogVolume db faults now orgID bytes).err = some e ∧
      (IncrementLogVolume db faults now orgID bytes).db =
        (GetOrCreateMonthlyUsage db faults now orgID).db ∧
      ∀ o y m c, (IncrementLogVolume db faults now orgID bytes).db.counterOf o y m c =
        db.counterOf o y m c) ∧
    (faults 2 = none →
      inInt64 (db.counterOf orgID now.Year now.Month.toInt Column.log_volume_bytes + bytes)
        = false →
      (IncrementLogVolume db faults now orgID bytes).val = 0 ∧
      (IncrementLogVolume db faults now orgID bytes).err =
        some DBError.NumericValueOutOfRange ∧
      (IncrementLogVolume db faults now orgID bytes).db =
        (GetOrCreateMonthlyUsage db faults now orgID).db ∧
      ∀ o y m c, (IncrementLogVolume db faults now orgID bytes).db.counterOf o y m c =
        db.counterOf o y m c) := by
  obtain ⟨r0, db1, hg, hwf1, hmem, hk, _, _, _, hcnt, _⟩ :=
    getOrCreate_summary db faults now orgID hwf h0 h1
  have hcg := counterOf_getOrCreate db faults now orgID
  rw [hg] at hcg
  refine ⟨?_, ?_, ?_⟩
  · intro e h2 h3 hrange
    rw [← hcnt] at hrange
    rw [incrementLogVolume_reread_fails db faults now orgID bytes r0 db1 e hg hwf1 hmem h2 h3
      hrange]
    refine ⟨rfl, rfl, ?_⟩
    show DB.counterOf _ orgID now.Year now.Month.toInt Column.log_volume_bytes = _
    rw [counterOf_mapRow db1 hwf1 r0 hmem orgID now.Year now.Month.toInt hk _
      (fun x => set_ID _ _ _) (fun x => set_key _ _ _), get_set, if_pos rfl, hcnt]
  · intro e h2
    rw [incrementLogVolume_add_fails db faults now orgID bytes r0 db1 e hg h2, hg]
    exact ⟨rfl, rfl, rfl, hcg⟩
  · intro h2 hrange
    rw [← hcnt] at hrange
    rw [incrementLogVolume_overflow db faults now orgID bytes r0 db1 hg hmem h2 hrange, hg]
    exact ⟨rfl, rfl, rfl, hcg⟩

/-- On the sample store, with the final re-read failing, adding 25 bytes for
organization 1 returns 0 and the error while the stored log volume is 125. -/
theorem incrementLogVolume_not_atomic_witness :
    sampleDB.WellFormed ∧
    (IncrementLogVolume sampleDB (Faults.only 3 (DBError.other 5)) sampleTime 1 25).val = 0 ∧
    (IncrementLogVolume sampleDB (Faults.only 3 (DBError.other 5)) sampleTime 1 25).err =
      some (DBError.other 5) ∧
    (IncrementLogVolume sampleDB (Faults.only 3 (DBError.other 5)) sampleTime 1 25).db.counterOf
      1 2025 3 Column.log_volume_bytes = 125 := by
  obtain ⟨h1, h2, h3⟩ :=
    (incrementLogVolume_not_atomic sampleDB (Faults.only 3 (DBError.other 5)) sampleTime 1 25
      sampleDB_wf rfl rfl).1 (DBError.other 5) rfl rfl (by decide)
  exact ⟨sampleDB_wf, h1, h2, h3.trans (by decide)⟩

/-! ## Storage errors inside GetOrCreateMonthlyUsage -/

theorem getOrCreate_fails (db : DB) (faults : Faults) (now : Time) (orgID : Nat) (e : DBError)
    (hfail : faults 0 = some e ∨ (faults 0 = none ∧ faults 1 = some e)) :
    (GetOrCreateMonthlyUsage db faults now orgID).val = none ∧
    (GetOrCreateMonthlyUsage db faults now orgID).err = some e := by
  unfold GetOrCreateMonthlyUsage
  rcases hfail with h0 | ⟨h0, h1⟩
  · simp [h0]
  · simp [h0, h1]

/-- C16. When the insert or the re-read inside `GetOrCreateMonthlyUsage` fails with `e`,
`GetOrCreateMonthlyUsage` returns `(nil, e)`, and `IncrementLogVolume`,
`IncrementAICalls` (for every level), `SyncResourceCounts` and `GetCurrentLogVolume`
each return `e` with the zero value and leave the store as `GetOrCreateMonthlyUsage`
left it: no later statement runs.  That store is the one before the call when the
insert failed; when the re-read failed it may hold the newly inserted zero-counter row
of the period.  In both cases every counter of every period, the check table and the
API-key table are what they were. -/
theorem storage_error_propagates (db : DB) (faults : Faults) (now : Time) (orgID : Nat)
    (e : DBError) (bytes level : Int)
    (hfail : faults 0 = some e ∨ (faults 0 = none ∧ faults 1 = some e)) :
    (GetOrCreateMonthlyUsage db faults now orgID).val = none ∧
    (GetOrCreateMonthlyUsage db faults now orgID).err = some e ∧
    IncrementLogVolume db faults now orgID bytes =
      { val := 0, err := some e, db := (GetOrCreateMonthlyUsage db faults now orgID).db } ∧
    IncrementAICalls db faults now orgID level =
      { val := (), err := some e, db := (GetOrCreateMonthlyUsage db faults now orgID).db } ∧
    SyncResourceCounts db faults now orgID =
      { val := (), err := some e, db := (GetOrCreateMonthlyUsage db faults now orgID).db } ∧
    GetCurrentLogVolume db faults now orgID =
      { val := 0, err := some e, db := (GetOrCreateMonthlyUsage db faults now orgID).db } ∧
    (faults 0 = some e → (GetOrCreateMonthlyUsage db faults now orgID).db = db) ∧
    ((GetOrCreateMonthlyUsage db faults now orgID).db = db ∨
      (GetOrCreateMonthlyUsage db faults now orgID).db.monthlyUsages =
        db.monthlyUsages ++ [db.freshUsage orgID now.Year now.Month.toInt]) ∧
    (∀ o y m c, (GetOrCreateMonthlyUsage db faults now orgID).db.counterOf o y m c =
      db.counterOf o y m c) ∧
    (GetOrCreateMonthlyUsage db faults now orgID).db.checks = db.checks ∧
    (GetOrCreateMonthlyUsage db faults now orgID).db.apiKeys = db.apiKeys := by
  obtain ⟨hv, he⟩ := getOrCreate_fails db faults now orgID e hfail
  obtain ⟨hshape, hc, ha⟩ := getOrCreate_db_shape db faults now orgID
  refine ⟨hv, he, ?_, ?_, ?_, ?_, ?_, ?_, counterOf_getOrCreate db faults now orgID, hc, ha⟩
  · unfold IncrementLogVolume
    simp only [hv, he]
  · unfold IncrementAICalls
    simp only [hv, he]
  · unfold SyncResourceCounts
    simp only [hv, he]
  · unfold GetCurrentLogVolume
    simp only [hv, he]
  · intro h0
    unfold GetOrCreateMonthlyUsage
    simp only [h0]
  · rcases hshape with h | ⟨_, h⟩
    · exact Or.inl h
    · exact Or.inr h

/-- On the sample store, with the insert failing, `IncrementLogVolume` returns 0 and the
error and leaves the store untouched; with the re-read failing in a period that has no
row yet, the error is returned and the log volume of the period is still 0. -/
theorem storage_error_propagates_witness :
    IncrementLogVolume sampleDB (Faults.all (DBError.other 3)) sampleTime 1 25 =
      { val := 0, err := some (DBError.other 3), db := sampleDB } ∧
    (SyncResourceCounts sampleDB (Faults.only 1 (DBError.other 4)) sampleTimeApril 1).err =
      some (DBError.other 4) ∧
    (SyncResourceCounts sampleDB (Faults.only 1 (DBError.other 4)) sampleTimeApril 1).db.counterOf
      1 2025 4 Column.check_count = 0 := by
  have h := storage_error_propagates sampleDB (Faults.all (DBError.other 3)) sampleTime 1
    (DBError.other 3) 25 1 (Or.inl rfl)
  have h2 := storage_error_propagates sampleDB (Faults.only 1 (DBError.other 4))
    sampleTimeApril 1 (DBError.other 4) 25 1 (Or.inr ⟨rfl, rfl⟩)
  refine ⟨?_, ?_, ?_⟩
  · rw [h.2.2.1, h.2.2.2.2.2.2.1 rfl]
  · rw [h2.2.2.2.2.1]
  · rw [h2.2.2.2.2.1]
    exact (h2.2.2.2.2.2.2.2.2.1 1 2025 4 Column.check_count).trans (by decide)

/-! ## ToSnapshot -/

/-- Counterexample to C17.  On the sample store organization 1 has two live checks and
one live API key and no row for April 2025.  The row `GetOrCreateMonthlyUsage` creates
for that period has zero counters, and `ToSnapshot` of it reports 0 checks and 0 API
keys, not the live counts 2 and 1. -/
theorem toSnapshot_fresh_not_live :
    (GetCurrentCheckCount sampleDB Faults.none 1).val = 2 ∧
    (GetCurrentAPIKeyCount sampleDB Faults.none 1).val = 1 ∧
    (GetOrCreateMonthlyUsage sampleDB Faults.none sampleTimeApril 1).val =
      some (sampleDB.freshUsage 1 2025 4) ∧
    (sampleDB.freshUsage 1 2025 4).ToSnapshot.CheckCount = 0 ∧
    (sampleDB.freshUsage 1 2025 4).ToSnapshot.APIKeyCount = 0 ∧
    (sampleDB.freshUsage 1 2025 4).ToSnapshot.CheckCount ≠
      (GetCurrentCheckCount sampleDB Faults.none 1).val ∧
    (sampleDB.freshUsage 1 2025 4).ToSnapshot.APIKeyCount ≠
      (GetCurrentAPIKeyCount sampleDB Faults.none 1).val := by
  refine ⟨by decide, by decide, by decide, by decide, by decide, by decide, by decide⟩

/-- C17, amended.  `ToSnapshot` reads the row and nothing else: its `CheckCount` and
`APIKeyCount` are the counts cached in the row.  Applied to the zero-counter row that
`GetOrCreateMonthlyUsage` creates for a period without a row, it yields the all-zero
snapshot, whatever the check and API-key tables hold. -/
theorem toSnapshot_cached_counts (m : MonthlyUsage) (db : DB) (faults : Faults) (now : Time)
    (orgID : Nat) :
    m.ToSnapshot.CheckCount = m.CheckCount ∧
    m.ToSnapshot.APIKeyCount = m.APIKeyCount ∧
    (db.freshUsage orgID now.Year now.Month.toInt).ToSnapshot = UsageSnapshot.zero ∧
    (faults 0 = none → faults 1 = none →
      db.firstByKey orgID now.Year now.Month.toInt = none →
      ∃ row, (GetOrCreateMonthlyUsage db faults now orgID).val = some row ∧
        row.counters = [0, 0, 0, 0, 0, 0, 0] ∧
        row.ToSnapshot = UsageSnapshot.zero ∧
        ∀ (checks : List Check) (apiKeys : List APIKey),
          ∃ row2, (GetOrCreateMonthlyUsage { db with checks := checks, apiKeys := apiKeys }
            faults now orgID).val = some row2 ∧ row2.ToSnapshot = UsageSnapshot.zero) := by
  refine ⟨rfl, rfl, rfl, ?_⟩
  intro h0 h1 hnone
  rw [getOrCreate_of_none db faults now orgID h0 h1 hnone]
  refine ⟨_, rfl, rfl, rfl, ?_⟩
  intro checks apiKeys
  have hnone2 : DB.firstByKey { db with checks := checks, apiKeys := apiKeys } orgID
      now.Year now.Month.toInt = none := hnone
  rw [getOrCreate_of_none _ faults now orgID h0 h1 hnone2]
  exact ⟨_, rfl, rfl⟩

/-- On the sample store, the row created for organization 1 in April 2025 converts to
the all-zero snapshot. -/
theorem toSnapshot_cached_counts_witness :
    sampleDB.firstByKey 1 2025 4 = none ∧
    ∃ row, (GetOrCreateMonthlyUsage sampleDB Faults.none sampleTimeApril 1).val = some row ∧
      row.ToSnapshot = UsageSnapshot.zero := by
  obtain ⟨row, h1, _, h3, _⟩ :=
    (toSnapshot_cached_counts (sampleDB.freshUsage 1 2025 4) sampleDB Faults.none
      sampleTimeApril 1).2.2.2 rfl rfl (by decide)
  exact ⟨by decide, row, h1, h3⟩

/-- C18. `ToSnapshot` carries the log volume, the status-page count and the three AI
counters of the row over unchanged, and is a function of the seven counters alone: two
rows with the same counters give the same snapshot, whatever their primary key,
organization, year and month; a row whose counters are zero gives the all-zero
snapshot. -/
theorem toSnapshot_counters (m m2 : MonthlyUsage) (id orgID : Nat) (year month : Int) :
    m.ToSnapshot.LogVolumeBytes = m.LogVolumeBytes ∧
    m.ToSnapshot.StatusPageCount = m.StatusPageCount ∧
    m.ToSnapshot.AILevel1Calls = m.AILevel1Calls ∧
    m.ToSnapshot.AILevel2Calls = m.AILevel2Calls ∧
    m.ToSnapshot.AILevel3Calls = m.AILevel3Calls ∧
    ({ m with ID := id, OrgID := orgID, Year := year, Month := month } :
      MonthlyUsage).ToSnapshot = m.ToSnapshot ∧
    (m.counters = m2.counters → m.ToSnapshot = m2.ToSnapshot) ∧
    (m.counters = [0, 0, 0, 0, 0, 0, 0] → m.ToSnapshot = UsageSnapshot.zero) := by
  refine ⟨rfl, rfl, rfl, rfl, rfl, rfl, ?_, ?_⟩
  · intro h
    simp only [MonthlyUsage.counters, List.cons.injEq, and_true] at h
    obtain ⟨h1, h2, h3, h4, h5, h6, h7⟩ := h
    simp only [MonthlyUsage.ToSnapshot, h1, h2, h3, h4, h5, h6, h7]
  · intro h
    simp only [MonthlyUsage.counters, List.cons.injEq, and_true] at h
    obtain ⟨h1, h2, h3, h4, h5, h6, h7⟩ := h
    simp only [MonthlyUsage.ToSnapshot, UsageSnapshot.zero, h1, h2, h3, h4, h5, h6, h7]

/-- Two zero-counter rows with different keys give the same snapshot, the all-zero
snapshot. -/
theorem toSnapshot_counters_witness :
    (sampleDB.freshUsage 1 2025 4).counters = [0, 0, 0, 0, 0, 0, 0] ∧
    (sampleDB.freshUsage 1 2025 4).ToSnapshot = UsageSnapshot.zero ∧
    (sampleDB.freshUsage 7 1999 12).ToSnapshot = (sampleDB.freshUsage 1 2025 4).ToSnapshot :=
  ⟨rfl,
   (toSnapshot_counters (sampleDB.freshUsage 1 2025 4) (sampleDB.freshUsage 7 1999 12)
      0 0 0 0).2.2.2.2.2.2.2 rfl,
   (toSnapshot_counters (sampleDB.freshUsage 7 1999 12) (sampleDB.freshUsage 1 2025 4)
      0 0 0 0).2.2.2.2.2.2.1 rfl⟩

/-! ## The increments never take away -/

theorem contrib_nonneg (p : Proc) (hn : ∀ col d, p.call.op.target = some (col, d) → 0 ≤ d)
    (orgID : Nat) (year month : Int) (c : Column) : 0 ≤ p.contrib orgID year month c := by
  unfold Proc.contrib
  cases htar : p.call.op.target with
  | none => exact le_refl 0
  | some t =>
    obtain ⟨col, d⟩ := t
    have := hn col d htar
    simp only
    split
    · exact this
    · exact le_refl 0

theorem appliedSum_nonneg (procs : List Proc)
    (hn : ∀ p ∈ procs, ∀ col d, p.call.op.target = some (col, d) → 0 ≤ d)
    (orgID : Nat) (year month : Int) (c : Column) : 0 ≤ appliedSum procs orgID year month c := by
  induction procs with
  | nil => simp [appliedSum]
  | cons p ps ih =>
    rw [appliedSum_cons]
    have h1 := contrib_nonneg p (hn p (List.mem_cons_self _ _)) orgID year month c
    have h2 := ih (fun q hq => hn q (List.mem_cons_of_mem _ hq))
    omega

/-- Calls that add non-negative amounts never make a counter smaller, whatever their
interleaving and whatever fails. -/
theorem exec_counter_le (db : DB) (hwf : db.WellFormed) (calls : List Invocation)
    (hn : ∀ call ∈ calls, ∀ col d, call.op.target = some (col, d) → 0 ≤ d)
    (schedule : List Nat) (orgID : Nat) (year month : Int) (c : Column) :
    db.counterOf orgID year month c ≤
      ((World.init db calls).exec schedule).db.counterOf orgID year month c := by
  obtain ⟨_, h2, _, h4⟩ := exec_spec schedule (World.init db calls) hwf
    (fun p hp => by
      obtain ⟨call, _, rfl⟩ := List.mem_map.mp hp
      exact inv_start call db)
  have h := h4 orgID year month c
  have h0 : appliedSum (World.init db calls).procs orgID year month c = 0 :=
    appliedSum_start calls orgID year month c
  have hc : (World.init db calls).procs.map Proc.call = calls := by
    simp only [World.init, List.map_map]
    exact List.map_id _
  have hnn := appliedSum_nonneg ((World.init db calls).exec schedule).procs
    (fun p hp => by
      have : p.call ∈ ((World.init db calls).exec schedule).procs.map Proc.call :=
        List.mem_map_of_mem _ hp
      rw [h2, hc] at this
      exact hn p.call this) orgID year month c
  rw [h0] at h
  have hdb : (World.init db calls).db = db := rfl
  rw [hdb] at h
  omega

theorem incrementLogVolume_counter_le (db : DB) (hwf : db.WellFormed) (faults : Faults)
    (now : Time) (orgID : Nat) (bytes : Int) (hb : 0 ≤ bytes)
    (o : Nat) (y m : Int) (c : Column) :
    db.counterOf o y m c ≤ (IncrementLogVolume db faults now orgID bytes).db.counterOf o y m c := by
  rw [← (exec_alone_incrementLogVolume db faults now orgID bytes).1]
  apply exec_counter_le db hwf
  intro call hc col d htar
  rw [List.mem_singleton] at hc
  subst hc
  simp only [Op.target, Option.some.injEq, Prod.mk.injEq] at htar
  rw [← htar.2]
  exact hb

theorem incrementAICalls_counter_le (db : DB) (hwf : db.WellFormed) (faults : Faults)
    (now : Time) (orgID : Nat) (level : Int) (o : Nat) (y m : Int) (c : Column) :
    db.counterOf o y m c ≤ (IncrementAICalls db faults now orgID level).db.counterOf o y m c := by
  rw [← (exec_alone_incrementAICalls db faults now orgID level).1]
  apply exec_counter_le db hwf
  intro call hc col d htar
  rw [List.mem_singleton] at hc
  subst hc
  simp only [Op.target] at htar
  cases hcol : aiColumn level with
  | none => simp [hcol] at htar
  | some c2 =>
    simp only [hcol, Option.map_some', Option.some.injEq, Prod.mk.injEq] at htar
    rw [← htar.2]
    decide

/-- A call of `IncrementLogVolume` that returns no error has run its four statements and
its sum fitted the column; it returns the stored log volume, the old one plus `bytes`. -/
theorem incrementLogVolume_ok (db : DB) (hwf : db.WellFormed) (faults : Faults) (now : Time)
    (orgID : Nat) (bytes : Int)
    (hok : (IncrementLogVolume db faults now orgID bytes).err = none) :
    (IncrementLogVolume db faults now orgID bytes).val =
      db.counterOf orgID now.Year now.Month.toInt Column.log_volume_bytes + bytes ∧
    (IncrementLogVolume db faults now orgID bytes).db.counterOf orgID now.Year now.Month.toInt
      Column.log_volume_bytes =
      db.counterOf orgID now.Year now.Month.toInt Column.log_volume_bytes + bytes := by
  cases h0 : faults 0 with
  | some e =>
    obtain ⟨hv, he⟩ := getOrCreate_fails db faults now orgID e (Or.inl h0)
    unfold IncrementLogVolume at hok
    simp only [hv, he] at hok
    cases hok
  | none =>
    cases h1 : faults 1 with
    | some e =>
      obtain ⟨hv, he⟩ := getOrCreate_fails db faults now orgID e (Or.inr ⟨h0, h1⟩)
      unfold IncrementLogVolume at hok
      simp only [hv, he] at hok
      cases hok
    | none =>
      obtain ⟨r0, db1, hg, hwf1, hmem, hk, _, _, _, hcnt, _⟩ :=
        getOrCreate_summary db faults now orgID hwf h0 h1
      cases h2 : faults 2 with
      | some e =>
        rw [incrementLogVolume_add_fails db faults now orgID bytes r0 db1 e hg h2] at hok
        cases hok
      | none =>
        cases hr : inInt64 (r0.get Column.log_volume_bytes + bytes) with
        | false =>
          rw [incrementLogVolume_overflow db faults now orgID bytes r0 db1 hg hmem h2 hr] at hok
          cases hok
        | true =>
          cases h3 : faults 3 with
          | some e =>
            rw [incrementLogVolume_reread_fails db faults now orgID bytes r0 db1 e hg hwf1
              hmem h2 h3 hr] at hok
            cases hok
          | none =>
            rw [incrementLogVolume_of_getOrCreate db faults now orgID bytes r0 db1 hg hwf1
              hmem h2 h3 hr]
            refine ⟨?_, ?_⟩
            · rw [← hcnt]; rfl
            · show DB.counterOf _ orgID now.Year now.Month.toInt Column.log_volume_bytes = _
              rw [counterOf_mapRow db1 hwf1 r0 hmem orgID now.Year now.Month.toInt hk _
                (fun x => set_ID _ _ _) (fun x => set_key _ _ _), get_set, if_pos rfl, hcnt]

/-- Counterexample to C20.  On the sample store organization 1 has 100 bytes in March
2025; `IncrementLogVolume` with -30 bytes returns no error, returns 70 and stores 70. -/
theorem incrementLogVolume_negative_decreases :
    sampleDB.counterOf 1 2025 3 Column.log_volume_bytes = 100 ∧
    (IncrementLogVolume sampleDB Faults.none sampleTime 1 (-30)).err = none ∧
    (IncrementLogVolume sampleDB Faults.none sampleTime 1 (-30)).val = 70 ∧
    (IncrementLogVolume sampleDB Faults.none sampleTime 1 (-30)).db.counterOf 1 2025 3
      Column.log_volume_bytes = 70 := by
  refine ⟨by decide, by decide, by decide, by decide⟩

/-- C20, amended.  For a non-negative number of bytes, `IncrementLogVolume` never leaves
a counter of any period smaller than it was, whatever fails, and a successful call
returns the stored log volume, the old one plus `bytes`, not smaller than the old one.
`IncrementAICalls` never leaves a counter of any period smaller than it was, for every
level and whatever fails. -/
theorem increments_additive (db : DB) (hwf : db.WellFormed) (faults : Faults) (now : Time)
    (orgID : Nat) (bytes level : Int) :
    (0 ≤ bytes →
      (∀ o y m c, db.counterOf o y m c ≤
        (IncrementLogVolume db faults now orgID bytes).db.counterOf o y m c) ∧
      ((IncrementLogVolume db faults now orgID bytes).err = none →
        (IncrementLogVolume db faults now orgID bytes).val =
          (IncrementLogVolume db faults now orgID bytes).db.counterOf orgID now.Year
            now.Month.toInt Column.log_volume_bytes ∧
        (IncrementLogVolume db faults now orgID bytes).val =
          db.counterOf orgID now.Year now.Month.toInt Column.log_volume_bytes + bytes ∧
        db.counterOf orgID now.Year now.Month.toInt Column.log_volume_bytes ≤
          (IncrementLogVolume db faults now orgID bytes).val)) ∧
    (∀ o y m c, db.counterOf o y m c ≤
      (IncrementAICalls db faults now orgID level).db.counterOf o y m c) := by
  refine ⟨?_, incrementAICalls_counter_le db hwf faults now orgID level⟩
  intro hb
  refine ⟨incrementLogVolume_counter_le db hwf faults now orgID bytes hb, ?_⟩
  intro hok
  obtain ⟨h1, h2⟩ := incrementLogVolume_ok db hwf faults now orgID bytes hok
  refine ⟨h1.trans h2.symm, h1, ?_⟩
  rw [h1]
  omega

/-- On the sample store, adding 25 bytes for organization 1 returns 125, not less than
the 100 stored before, and a level-2 AI call leaves the level-2 counter at 7, not less
than 6. -/
theorem increments_additive_witness :
    sampleDB.WellFormed ∧ (0 : Int) ≤ 25 ∧
    sampleDB.counterOf 1 2025 3 Column.log_volume_bytes ≤
      (IncrementLogVolume sampleDB Faults.none sampleTime 1 25).val ∧
    (IncrementLogVolume sampleDB Faults.none sampleTime 1 25).val = 125 ∧
    sampleDB.counterOf 1 2025 3 Column.ai_level2_calls ≤
      (IncrementAICalls sampleDB Faults.none sampleTime 1 2).db.counterOf 1 2025 3
        Column.ai_level2_calls := by
  have h := increments_additive sampleDB sampleDB_wf Faults.none sampleTime 1 25 2
  obtain ⟨_, h2⟩ := h.1 (by decide)
  obtain ⟨_, h4, h5⟩ := h2 (by decide)
  exact ⟨sampleDB_wf, by decide, h5, h4.trans (by decide),
    h.2 1 2025 3 Column.ai_level2_calls⟩

/-! ## The member handlers keep an owner -/

theorem hasOwner_iff (users : List User) (orgID : Nat) :
    hasOwner users orgID = true ↔
      ∃ u ∈ users, u.DeletedAt = none ∧ u.OrgID = orgID ∧ u.Role = RoleOwner := by
  unfold hasOwner
  simp only [List.any_eq_true, Bool.and_eq_true, decide_eq_true_eq, User.live,
    Option.isNone_iff_eq_none]
  constructor
  · rintro ⟨u, hu, ⟨h1, h2⟩, h3⟩
    exact ⟨u, hu, h1, h2, h3⟩
  · rintro ⟨u, hu, h1, h2, h3⟩
    exact ⟨u, hu, ⟨h1, h2⟩, h3⟩

theorem live_iff (u : User) : u.live = true ↔ u.DeletedAt = none := by
  simp [User.live, Option.isNone_iff_eq_none]

theorem firstUserInOrg_some {users : List User} {id orgID : Nat} {m : User}
    (h : firstUserInOrg users id orgID = some m) :
    m ∈ users ∧ m.DeletedAt = none ∧ m.ID = id ∧ m.OrgID = orgID := by
  unfold firstUserInOrg at h
  have hmem := List.mem_of_find?_eq_some h
  have hp := List.find?_some h
  simp only [Bool.and_eq_true, decide_eq_true_eq, live_iff] at hp
  exact ⟨hmem, hp.1.1, hp.1.2, hp.2⟩

theorem firstUser_some {users : List User} {id : Nat} {m : User}
    (h : firstUser users id = some m) :
    m ∈ users ∧ m.DeletedAt = none ∧ m.ID = id := by
  unfold firstUser at h
  have hmem := List.mem_of_find?_eq_some h
  have hp := List.find?_some h
  simp only [Bool.and_eq_true, decide_eq_true_eq, live_iff] at hp
  exact ⟨hmem, hp.1, hp.2⟩

theorem stmt_ok {α : Type} {faults : Faults} {k : Nat} {run : Except DBError α} {a : α}
    (h : faults.stmt k run = .ok a) : run = .ok a := by
  unfold Faults.stmt at h
  split at h
  · cases h
  · exact h

theorem firstOrNotFound_ok {found : Option User} {m : User}
    (h : firstOrNotFound found = .ok m) : found = some m := by
  unfold firstOrNotFound at h
  split at h
  · cases h; rfl
  · cases h

theorem usersWF_inj {users : List User} (hwf : UsersWellFormed users) {x y : User}
    (hx : x ∈ users) (hy : y ∈ users) (hid : x.ID = y.ID) : x = y :=
  List.inj_on_of_nodup_map hwf hx hy hid

theorem ownerCountAt_le (faults : Faults) (k : Nat) (users : List User) (orgID : Nat) :
    ownerCountAt faults k users orgID ≤ countOwners users orgID := by
  unfold ownerCountAt
  split
  · unfold countOwners; exact Int.natCast_nonneg _
  · exact le_refl _

/-- With two owners counted, some owner has a primary key other than any given one. -/
theorem countOwners_two {users : List User} (hwf : UsersWellFormed users) {orgID : Nat}
    (h : 2 ≤ countOwners users orgID) (id : Nat) :
    ∃ x ∈ users, x.DeletedAt = none ∧ x.OrgID = orgID ∧ x.Role = RoleOwner ∧ x.ID ≠ id := by
  unfold countOwners at h
  have hnd : users.Nodup := List.Nodup.of_map _ hwf
  have hfnd := hnd.filter
    (fun u => u.live && decide (u.OrgID = orgID) && decide (u.Role = RoleOwner))
  have key : ∀ x, x ∈ users.filter
      (fun u => u.live && decide (u.OrgID = orgID) && decide (u.Role = RoleOwner)) →
      x ∈ users ∧ x.DeletedAt = none ∧ x.OrgID = orgID ∧ x.Role = RoleOwner := by
    intro x hx
    rw [List.mem_filter] at hx
    simp only [Bool.and_eq_true, decide_eq_true_eq, live_iff] at hx
    exact ⟨hx.1, hx.2.1.1, hx.2.1.2, hx.2.2⟩
  match hl : users.filter
      (fun u => u.live && decide (u.OrgID = orgID) && decide (u.Role = RoleOwner)) with
  | [] => rw [hl] at h; simp at h
  | [a] => rw [hl] at h; simp at h
  | a :: b :: t =>
    rw [hl] at hfnd key
    have hab : a ≠ b := by
      intro e
      rw [e] at hfnd
      simp at hfnd
    have ha := key a (by simp)
    have hb := key b (by simp)
    by_cases hai : a.ID = id
    · refine ⟨b, hb.1, hb.2.1, hb.2.2.1, hb.2.2.2, ?_⟩
      intro hbi
      exact hab (usersWF_inj hwf ha.1 hb.1 (hai.trans hbi.symm))
    · exact ⟨a, ha.1, ha.2.1, ha.2.2.1, ha.2.2.2, hai⟩

theorem saveUser_keeps {users users2 : List User} {u : User}
    (h : saveUser users u = .ok users2) {x : User} (hx : x ∈ users) (hid : x.ID ≠ u.ID) :
    x ∈ users2 := by
  unfold saveUser at h
  split at h
  · split at h
    · cases h
    · cases h; exact List.mem_append_left _ hx
  · split at h
    · cases h
    · split at h
      · cases h
        rw [List.mem_map]
        exact ⟨x, hx, by rw [if_neg (fun hc => hid hc.2)]⟩
      · split at h
        · cases h
          rw [List.mem_map]
          exact ⟨x, hx, by rw [if_neg hid]⟩
        · cases h; exact List.mem_append_left _ hx

theorem saveUser_puts {users users2 : List User} {u : User}
    (h : saveUser users u = .ok users2) (h0 : u.ID ≠ 0) : u ∈ users2 := by
  unfold saveUser at h
  rw [if_neg h0] at h
  split at h
  · cases h
  · split at h
    · rename_i hany
      cases h
      rw [List.any_eq_true] at hany
      obtain ⟨y, hy, hp⟩ := hany
      simp only [Bool.and_eq_true, decide_eq_true_eq] at hp
      rw [List.mem_map]
      exact ⟨y, hy, by rw [if_pos hp]⟩
    · split at h
      · rename_i hany
        cases h
        rw [List.any_eq_true] at hany
        obtain ⟨y, hy, hp⟩ := hany
        simp only [decide_eq_true_eq] at hp
        rw [List.mem_map]
        exact ⟨y, hy, by rw [if_pos hp]⟩
      · cases h; simp

/-- Saving a row that was read from the table cannot take the insert path: the row
itself holds the e-mail address. -/
theorem saveUser_ok_ne_zero {users users2 : List User} (m : User) (r : Role)
    (hm : m ∈ users) (h : saveUser users { m with Role := r } = .ok users2) : m.ID ≠ 0 := by
  intro h0
  unfold saveUser at h
  rw [if_pos (show ({ m with Role := r } : User).ID = 0 from h0)] at h
  have hany : users.any (fun x => decide (x.Email = ({ m with Role := r } : User).Email)) = true := by
    rw [List.any_eq_true]
    exact ⟨m, hm, by simp⟩
  rw [if_pos hany] at h
  cases h

theorem saveUser_wf {users users2 : List User} {u : User} (hwf : UsersWellFormed users)
    (h : saveUser users u = .ok users2) (h0 : u.ID ≠ 0) : UsersWellFormed users2 := by
  unfold saveUser at h
  rw [if_neg h0] at h
  unfold UsersWellFormed at hwf ⊢
  split at h
  · cases h
  · split at h
    · cases h
      have : (users.map (fun x => if x.live = true ∧ x.ID = u.ID then u else x)).map
          (fun u => u.ID) = users.map (fun u => u.ID) := by
        rw [List.map_map]
        apply List.map_congr_left
        intro x _
        simp only [Function.comp]
        split
        · rename_i hc; exact hc.2.symm
        · rfl
      rw [this]; exact hwf
    · split at h
      · cases h
        have : (users.map (fun x => if x.ID = u.ID then u else x)).map
            (fun u => u.ID) = users.map (fun u => u.ID) := by
          rw [List.map_map]
          apply List.map_congr_left
          intro x _
          simp only [Function.comp]
          split
          · rename_i hc; exact hc.symm
          · rfl
        rw [this]; exact hwf
      · rename_i hany
        cases h
        rw [List.map_append, List.nodup_append]
        refine ⟨hwf, by simp, ?_⟩
        intro a ha hb
        simp only [List.map_cons, List.map_nil, List.mem_singleton] at hb
        rw [List.mem_map] at ha
        obtain ⟨y, hy, hya⟩ := ha
        apply hany
        rw [List.any_eq_true]
        exact ⟨y, hy, by simp [hya, hb]⟩

theorem deleteUser_keeps {users users2 : List User} {now : Time} {u : User}
    (h : deleteUser users now u = .ok users2) {x : User} (hx : x ∈ users) (hid : x.ID ≠ u.ID) :
    x ∈ users2 := by
  unfold deleteUser at h
  split at h
  · cases h
  · cases h
    rw [List.mem_map]
    exact ⟨x, hx, by rw [if_neg (fun hc => hid hc.2)]⟩

theorem deleteUser_wf {users users2 : List User} {now : Time} {u : User}
    (hwf : UsersWellFormed users) (h : deleteUser users now u = .ok users2) :
    UsersWellFormed users2 := by
  unfold deleteUser at h
  unfold UsersWellFormed at hwf ⊢
  split at h
  · cases h
  · cases h
    have : (users.map (fun x => if x.live = true ∧ x.ID = u.ID then
        { x with DeletedAt := some now } else x)).map (fun u => u.ID)
        = users.map (fun u => u.ID) := by
      rw [List.map_map]
      apply List.map_congr_left
      intro x _
      simp only [Function.comp]
      split <;> rfl
    rw [this]; exact hwf

/-- A change that leaves every row with another primary key in place keeps an owner,
provided that, when the row with the key is itself an owner of the organization, two
owners were counted or an owner is found afterwards. -/
theorem owner_survives {users users2 : List User} (hwf : UsersWellFormed users) {orgID : Nat}
    (hown : hasOwner users orgID = true) (id : Nat)
    (hkeep : ∀ x ∈ users, x.ID ≠ id → x ∈ users2)
    (hrow : ∀ m ∈ users, m.ID = id → m.DeletedAt = none → m.OrgID = orgID →
      m.Role = RoleOwner → 2 ≤ countOwners users orgID ∨ hasOwner users2 orgID = true) :
    hasOwner users2 orgID = true := by
  rw [hasOwner_iff] at hown
  obtain ⟨x, hx, hlive, horg, hrole⟩ := hown
  by_cases hid : x.ID = id
  · rcases hrow x hx hid hlive horg hrole with h2 | h2
    · obtain ⟨y, hy, hyl, hyo, hyr, hyid⟩ := countOwners_two hwf h2 id
      rw [hasOwner_iff]
      exact ⟨y, hkeep y hy hyid, hyl, hyo, hyr⟩
    · exact h2
  · rw [hasOwner_iff]
    exact ⟨x, hkeep x hx hid, hlive, horg, hrole⟩

theorem agrees_spec {c : Ctx} {users : List User} {orgID : Nat}
    (h : c.agrees users orgID = true) {u : User} (hu : u ∈ users) (hlive : u.DeletedAt = none)
    (hid : u.ID = c.userID) (horg : u.OrgID = orgID) : c.orgID = orgID ∧ c.role = u.Role := by
  unfold Ctx.agrees at h
  rw [List.all_eq_true] at h
  have := h u hu
  rw [if_pos ⟨(live_iff u).mpr hlive, hid, horg⟩] at this
  simpa using this

theorem updateMemberRole_summary (users : List User) (faults : Faults) (c : Ctx)
    (id : String) (body : Option Role) :
    (UpdateMemberRole users faults c id body).users = users ∨
    ∃ member reqRole users2, member ∈ users ∧ member.DeletedAt = none ∧
      member.OrgID = c.orgID ∧
      (member.Role = RoleOwner → reqRole ≠ RoleOwner → 2 ≤ countOwners users c.orgID) ∧
      saveUser users { member with Role := reqRole } = .ok users2 ∧
      (UpdateMemberRole users faults c id body).users = users2 := by
  unfold UpdateMemberRole
  dsimp only
  repeat' (first | exact Or.inl rfl | split)
  rename_i memberID _ _ reqRole _ _ member hfirst _ _ _ hcount _ users2 hsave
  obtain ⟨hmem, hlive, _, horg⟩ := firstUserInOrg_some (firstOrNotFound_ok (stmt_ok hfirst))
  refine Or.inr ⟨member, reqRole, users2, hmem, hlive, horg, ?_, stmt_ok hsave, rfl⟩
  intro h1 h2
  by_contra hlt
  apply hcount
  refine ⟨h1, h2, ?_⟩
  have := ownerCountAt_le faults 1 users c.orgID
  omega

theorem removeMember_summary (users : List User) (faults : Faults) (now : Time) (c : Ctx)
    (id : String) :
    (RemoveMember users faults now c id).users = users ∨
    ∃ member users2, member ∈ users ∧ member.DeletedAt = none ∧ member.OrgID = c.orgID ∧
      (member.Role = RoleOwner → 2 ≤ countOwners users c.orgID) ∧
      deleteUser users now member = .ok users2 ∧
      (RemoveMember users faults now c id).users = users2 := by
  unfold RemoveMember
  dsimp only
  repeat' (first | exact Or.inl rfl | split)
  rename_i memberID _ _ member hfirst _ _ hcount _ users2 hdel
  obtain ⟨hmem, hlive, _, horg⟩ := firstUserInOrg_some (firstOrNotFound_ok (stmt_ok hfirst))
  refine Or.inr ⟨member, users2, hmem, hlive, horg, ?_, stmt_ok hdel, rfl⟩
  intro h1
  by_contra hlt
  apply hcount
  refine ⟨h1, ?_⟩
  have := ownerCountAt_le faults 1 users c.orgID
  omega

theorem leaveOrganization_summary (users : List User) (faults : Faults) (now : Time) (c : Ctx) :
    (LeaveOrganization users faults now c).users = users ∨
    ∃ user users2, user ∈ users ∧ user.DeletedAt = none ∧ user.ID = c.userID ∧
      (c.role = RoleOwner → 2 ≤ countOwners users c.orgID) ∧
      deleteUser users now user = .ok users2 ∧
      (LeaveOrganization users faults now c).users = users2 := by
  unfold LeaveOrganization
  dsimp only
  repeat' (first | exact Or.inl rfl | split)
  rename_i hcount _ user hfirst _ users2 hdel
  obtain ⟨hmem, hlive, hid⟩ := firstUser_some (firstOrNotFound_ok (stmt_ok hfirst))
  refine Or.inr ⟨user, users2, hmem, hlive, hid, ?_, stmt_ok hdel, rfl⟩
  intro h1
  by_contra hlt
  apply hcount
  refine ⟨h1, ?_⟩
  have := ownerCountAt_le faults 0 users c.orgID
  omega

theorem transferTransaction_ok {users users2 : List User} {faults : Faults}
    {targetMember currentUser t2 c2 : User}
    (h : transferTransaction users faults targetMember currentUser = .ok (users2, t2, c2)) :
    ∃ users1, saveUser users { targetMember with Role := RoleOwner } = .ok users1 ∧
      saveUser users1 { currentUser with Role := RoleAdmin } = .ok users2 := by
  unfold transferTransaction at h
  dsimp only at h
  split at h
  · cases h
  · split at h
    · cases h
    · rename_i users1 hs1
      split at h
      · cases h
      · rename_i users2b hs2
        split at h
        · cases h
        · cases h
          exact ⟨users1, stmt_ok hs1, stmt_ok hs2⟩

theorem transferOwnership_summary (users : List User) (faults : Faults) (c : Ctx)
    (id : String) :
    (TransferOwnership users faults c id).users = users ∨
    ∃ target current users1 users2, target ∈ users ∧ target.DeletedAt = none ∧
      target.OrgID = c.orgID ∧ current ∈ users ∧ current.ID = c.userID ∧
      target.ID ≠ current.ID ∧
      saveUser users { target with Role := RoleOwner } = .ok users1 ∧
      saveUser users1 { current with Role := RoleAdmin } = .ok users2 ∧
      (TransferOwnership users faults c id).users = users2 := by
  unfold TransferOwnership
  dsimp only
  repeat' (first | exact Or.inl rfl | split)
  rename_i memberID _ hne _ target hfirst _ current hcur _ users2 t2 c2 htx
  obtain ⟨hmem, hlive, hid, horg⟩ := firstUserInOrg_some (firstOrNotFound_ok (stmt_ok hfirst))
  obtain ⟨hcmem, _, hcid⟩ := firstUser_some (firstOrNotFound_ok (stmt_ok hcur))
  obtain ⟨users1, hs1, hs2⟩ := transferTransaction_ok htx
  refine Or.inr ⟨target, current, users1, users2, hmem, hlive, horg, hcmem, hcid, ?_, hs1, hs2, rfl⟩
  rw [hid, hcid]
  exact hne

theorem updateMemberRole_wf {users : List User} (hwf : UsersWellFormed users)
    (faults : Faults) (c : Ctx) (id : String) (body : Option Role) :
    UsersWellFormed (UpdateMemberRole users faults c id body).users := by
  rcases updateMemberRole_summary users faults c id body with h | ⟨m, r, users2, hm, _, _, _, hs, h⟩
  · rw [h]; exact hwf
  · rw [h]
    exact saveUser_wf hwf hs (saveUser_ok_ne_zero m r hm hs)

theorem removeMember_wf {users : List User} (hwf : UsersWellFormed users)
    (faults : Faults) (now : Time) (c : Ctx) (id : String) :
    UsersWellFormed (RemoveMember users faults now c id).users := by
  rcases removeMember_summary users faults now c id with h | ⟨m, users2, _, _, _, _, hs, h⟩
  · rw [h]; exact hwf
  · rw [h]
    exact deleteUser_wf hwf hs

theorem leaveOrganization_wf {users : List User} (hwf : UsersWellFormed users)
    (faults : Faults) (now : Time) (c : Ctx) :
    UsersWellFormed (LeaveOrganization users faults now c).users := by
  rcases leaveOrganization_summary users faults now c with h | ⟨m, users2, _, _, _, _, hs, h⟩
  · rw [h]; exact hwf
  · rw [h]
    exact deleteUser_wf hwf hs

theorem transferOwnership_wf {users : List User} (hwf : UsersWellFormed users)
    (faults : Faults) (c : Ctx) (id : String) :
    UsersWellFormed (TransferOwnership users faults c id).users := by
  rcases transferOwnership_summary users faults c id with
    h | ⟨t, cu, users1, users2, ht, _, _, hc, _, hne, hs1, hs2, h⟩
  · rw [h]; exact hwf
  · rw [h]
    have hwf1 := saveUser_wf hwf hs1 (saveUser_ok_ne_zero t RoleOwner ht hs1)
    have hc1 : cu ∈ users1 := saveUser_keeps hs1 hc (fun e => hne e.symm)
    exact saveUser_wf hwf1 hs2 (saveUser_ok_ne_zero cu RoleAdmin hc1 hs2)

theorem serve_wf {users : List User} (hwf : UsersWellFormed users) (call : MemberCall) :
    UsersWellFormed (call.serve users).users := by
  unfold MemberCall.serve
  split
  · exact updateMemberRole_wf hwf _ _ _ _
  · exact removeMember_wf hwf _ _ _ _
  · exact leaveOrganization_wf hwf _ _ _
  · exact transferOwnership_wf hwf _ _ _

theorem updateMemberRole_hasOwner {users : List User} (hwf : UsersWellFormed users)
    {orgID : Nat} (hown : hasOwner users orgID = true) (faults : Faults) (c : Ctx)
    (id : String) (body : Option Role) :
    hasOwner (UpdateMemberRole users faults c id body).users orgID = true := by
  rcases updateMemberRole_summary users faults c id body with
    h | ⟨m, r, users2, hm, hlive, horg, hcount, hs, h⟩
  · rw [h]; exact hown
  · rw [h]
    refine owner_survives hwf hown m.ID (fun x hx hid => saveUser_keeps hs hx hid) ?_
    intro x hx hid _ hxorg hxrole
    have hxm : x = m := usersWF_inj hwf hx hm hid
    subst hxm
    by_cases hr : r = RoleOwner
    · right
      rw [hasOwner_iff]
      exact ⟨_, saveUser_puts hs (saveUser_ok_ne_zero x r hm hs), hlive, hxorg, hr⟩
    · left
      rw [← hxorg, horg]
      exact hcount hxrole hr

theorem removeMember_hasOwner {users : List User} (hwf : UsersWellFormed users)
    {orgID : Nat} (hown : hasOwner users orgID = true) (faults : Faults) (now : Time)
    (c : Ctx) (id : String) :
    hasOwner (RemoveMember users faults now c id).users orgID = true := by
  rcases removeMember_summary users faults now c id with
    h | ⟨m, users2, hm, _, horg, hcount, hs, h⟩
  · rw [h]; exact hown
  · rw [h]
    refine owner_survives hwf hown m.ID (fun x hx hid => deleteUser_keeps hs hx hid) ?_
    intro x hx hid _ hxorg hxrole
    have hxm : x = m := usersWF_inj hwf hx hm hid
    subst hxm
    left
    rw [← hxorg, horg]
    exact hcount hxrole

theorem leaveOrganization_hasOwner {users : List User} (hwf : UsersWellFormed users)
    {orgID : Nat} (hown : hasOwner users orgID = true) (faults : Faults) (now : Time)
    (c : Ctx) (hagree : c.agrees users orgID = true) :
    hasOwner (LeaveOrganization users faults now c).users orgID = true := by
  rcases leaveOrganization_summary users faults now c with
    h | ⟨m, users2, hm, _, hmid, hcount, hs, h⟩
  · rw [h]; exact hown
  · rw [h]
    refine owner_survives hwf hown m.ID (fun x hx hid => deleteUser_keeps hs hx hid) ?_
    intro x hx hid hxlive hxorg hxrole
    obtain ⟨hco, hcr⟩ := agrees_spec hagree hx hxlive (hid.trans hmid) hxorg
    left
    rw [← hco]
    exact hcount (hcr.trans hxrole)

theorem transferOwnership_hasOwner {users : List User} (hwf : UsersWellFormed users)
    {orgID : Nat} (hown : hasOwner users orgID = true) (faults : Faults)
    (c : Ctx) (id : String) (hagree : c.agrees users orgID = true) :
    hasOwner (TransferOwnership users faults c id).users orgID = true := by
  rcases transferOwnership_summary users faults c id with
    h | ⟨t, cu, users1, users2, ht, htlive, htorg, hc, hcid, hne, hs1, hs2, h⟩
  · rw [h]; exact hown
  · rw [h]
    have ht1 : ({ t with Role := RoleOwner } : User) ∈ users1 :=
      saveUser_puts hs1 (saveUser_ok_ne_zero t RoleOwner ht hs1)
    have ht2 : ({ t with Role := RoleOwner } : User) ∈ users2 := saveUser_keeps hs2 ht1 hne
    by_cases ho : c.orgID = orgID
    · rw [hasOwner_iff]
      exact ⟨_, ht2, htlive, htorg.trans ho, rfl⟩
    · rw [hasOwner_iff] at hown ⊢
      obtain ⟨x, hx, hxlive, hxorg, hxrole⟩ := hown
      have hxt : x.ID ≠ t.ID := by
        intro e
        have := usersWF_inj hwf hx ht e
        subst this
        exact ho (htorg.symm.trans hxorg)
      have hxc : x.ID ≠ cu.ID := by
        intro e
        exact ho (agrees_spec hagree hx hxlive (e.trans hcid) hxorg).1
      exact ⟨x, saveUser_keeps hs2 (saveUser_keeps hs1 hx hxt) hxc, hxlive, hxorg, hxrole⟩

theorem serve_hasOwner {users : List User} (hwf : UsersWellFormed users) {orgID : Nat}
    (hown : hasOwner users orgID = true) (call : MemberCall)
    (hagree : call.ctx.agrees users orgID = true) :
    hasOwner (call.serve users).users orgID = true := by
  unfold MemberCall.serve
  split
  · exact updateMemberRole_hasOwner hwf hown _ _ _ _
  · exact removeMember_hasOwner hwf hown _ _ _ _
  · exact leaveOrganization_hasOwner hwf hown _ _ _ hagree
  · exact transferOwnership_hasOwner hwf hown _ _ _ hagree

/-- A call made in the context of the organization by a caller whose context role is
the role of their stored record agrees with the table. -/
theorem agrees_of_role {c : Ctx} {users : List User} {orgID : Nat} (horg : c.orgID = orgID)
    (hrole : c.roleAgrees users = true) : c.agrees users orgID = true := by
  unfold Ctx.roleAgrees at hrole
  rw [List.all_eq_true] at hrole
  unfold Ctx.agrees
  rw [List.all_eq_true]
  intro u hu
  have hu2 := hrole u hu
  split
  · rename_i hc
    rw [if_pos ⟨hc.1, hc.2.1⟩] at hu2
    simpa [horg] using hu2
  · rfl

/-- A call whose context role and context organization are those of the stored record
of the caller agrees with the table, whatever the organization. -/
theorem agrees_of_record {c : Ctx} {users : List User} (orgID : Nat)
    (hrole : c.roleAgrees users = true)
    (horg : ∀ u ∈ users, u.DeletedAt = none → u.ID = c.userID → u.OrgID = c.orgID) :
    c.agrees users orgID = true := by
  unfold Ctx.roleAgrees at hrole
  rw [List.all_eq_true] at hrole
  unfold Ctx.agrees
  rw [List.all_eq_true]
  intro u hu
  have hu2 := hrole u hu
  split
  · rename_i hc
    rw [if_pos ⟨hc.1, hc.2.1⟩] at hu2
    have ho := horg u hu ((live_iff u).mp hc.1) hc.2.1
    rw [hc.2.2] at ho
    simpa [← ho] using hu2
  · rfl

/-- Counterexample to C21.  On `sampleUsers` organization 1 has the owner Ann and no
other owner, and the context role of the call is Ann's stored role; the context names
organization 2.  `TransferOwnership` to user 4, the owner of organization 2, finds the
target in organization 2, reads Ann by primary key alone and saves her as admin: the
call answers 200 and organization 1 is left without an owner. -/
theorem transferOwnership_foreign_context :
    UsersWellFormed sampleUsers ∧ hasOwner sampleUsers 1 = true ∧
    sampleForeignCtx.roleAgrees sampleUsers = true ∧
    sampleForeignCtx.agrees sampleUsers 1 = false ∧
    (TransferOwnership sampleUsers Faults.none sampleForeignCtx "4").status = StatusOK ∧
    hasOwner (TransferOwnership sampleUsers Faults.none sampleForeignCtx "4").users 1 = false ∧
    (TransferOwnership sampleUsers Faults.none sampleForeignCtx "4").users.map
        (fun u => (u.ID, u.OrgID, u.Role, u.DeletedAt.isSome)) =
      [(1, 1, RoleAdmin, false), (2, 1, RoleAdmin, false), (3, 1, RoleMember, false),
       (4, 2, RoleOwner, false)] := by
  refine ⟨by decide, by decide, by decide, by decide, by decide, by decide, by decide⟩

/-- C21, amended.  An organization keeps an owner when its members call in its own
context.  Start from a `users` table with unique primary keys in which the
organization has a user that is not soft-deleted and whose role is owner.  Run any
sequence of calls of `UpdateMemberRole`, `RemoveMember`, `LeaveOrganization` and
`TransferOwnership` one after another, with any request values, any clock and any
failing statements, where each call meets a table its context agrees with: a caller
who is a member of the organization calls in the context of that organization with
their stored role.  Then after every call of the sequence, answered with success or
with a rejection, the organization still has a user that is not soft-deleted and whose
role is owner. -/
theorem owner_kept (orgID : Nat) (users : List User) (calls : List MemberCall)
    (hwf : UsersWellFormed users) (hown : hasOwner users orgID = true)
    (hrun : agreeingRun orgID users calls = true) (n : Nat) :
    hasOwner (serveAll users (calls.take n)) orgID = true := by
  induction calls generalizing users n with
  | nil => simpa [serveAll] using hown
  | cons call rest ih =>
    cases n with
    | zero => simpa [serveAll] using hown
    | succ n =>
      unfold agreeingRun at hrun
      rw [Bool.and_eq_true] at hrun
      rw [List.take_succ_cons]
      unfold serveAll
      exact ih _ (serve_wf hwf call) (serve_hasOwner hwf hown call hrun.1) hrun.2 n

/-- On `sampleUsers` and `sampleMemberCalls`: organization 1 starts with its owner Ann;
after the promotion, the refused leave, the transfer to Bob, the removal of Ann, the
refused self-demotion and the call in organization 2, it has the owner Bob. -/
theorem owner_kept_witness :
    UsersWellFormed sampleUsers ∧ hasOwner sampleUsers 1 = true ∧
    agreeingRun 1 sampleUsers sampleMemberCalls = true ∧
    hasOwner (serveAll sampleUsers (sampleMemberCalls.take 6)) 1 = true ∧
    (serveAll sampleUsers (sampleMemberCalls.take 6)).map
        (fun u => (u.ID, u.Role, u.DeletedAt.isSome)) =
      [(1, RoleAdmin, true), (2, RoleOwner, false), (3, RoleAdmin, false),
       (4, RoleOwner, false)] :=
  ⟨by decide, by decide, by decide,
    owner_kept 1 sampleUsers sampleMemberCalls (by decide) (by decide) (by decide) 6,
    by decide⟩

/-! ## Paid plans -/

/-- On the four plans of the catalog `IsPaid` is true exactly for the three paid tiers,
and exactly when the entry of the plan has a positive monthly price. -/
theorem isPaid_valid (p : Plan) (h : p.IsValid = true) :
    (p.IsPaid = true ↔ p = PlanIndiePro ∨ p = PlanTeam ∨ p = PlanAgency) ∧
    (p.IsPaid = true ↔ 0 < (GetPlanConfig p).MonthlyPriceCents) := by
  have hv : p = PlanFree ∨ p = PlanIndiePro ∨ p = PlanTeam ∨ p = PlanAgency := by
    unfold Plan.IsValid at h
    by_contra hc
    rw [if_neg hc] at h
    cases h
  rcases hv with rfl | rfl | rfl | rfl <;> decide

/-- A value outside the four plans of the catalog is reported as paid, while the
lookup resolves it to the free entry, whose monthly price is zero. -/
theorem isPaid_unknown (p : Plan) (h : p.IsValid = false) :
    p.IsPaid = true ∧ GetPlanConfig p = PlanConfigs.index PlanFree ∧
    (GetPlanConfig p).MonthlyPriceCents = 0 := by
  have hv : ¬(p = PlanFree ∨ p = PlanIndiePro ∨ p = PlanTeam ∨ p = PlanAgency) := by
    unfold Plan.IsValid at h
    intro hc
    rw [if_pos hc] at h
    cases h
  have hfree : p ≠ PlanFree := fun e => hv (Or.inl e)
  have hget : GetPlanConfig p = PlanConfigs.index PlanFree := by
    have hnone : PlanConfigs.get? p = none := by
      unfold PlanConfigs.get? PlanConfigs
      simp only [not_or] at hv
      obtain ⟨h1, h2, h3, h4⟩ := hv
      simp [List.lookup, beq_eq_false_iff_ne.mpr h1, beq_eq_false_iff_ne.mpr h2,
        beq_eq_false_iff_ne.mpr h3, beq_eq_false_iff_ne.mpr h4]
    unfold GetPlanConfig
    rw [hnone]
  refine ⟨?_, hget, ?_⟩
  · unfold Plan.IsPaid
    simpa using hfree
  · rw [hget]; decide

/-- C22, the code at the failing input.  `IsPaid` is the comparison `p != PlanFree`:
the value "platinum", which is none of the four plans, is reported as paid, although
`GetPlanConfig` resolves it to the free entry with monthly price zero; the same holds
for the empty string, the zero value of `Plan`. -/
theorem isPaid_unknown_plan :
    Plan.IsValid "platinum" = false ∧ Plan.IsPaid "platinum" = true ∧
    GetPlanConfig "platinum" = GetPlanConfig PlanFree ∧
    (GetPlanConfig "platinum").MonthlyPriceCents = 0 ∧
    Plan.IsValid "" = false ∧ Plan.IsPaid "" = true ∧
    (GetPlanConfig "").MonthlyPriceCents = 0 :=
  ⟨by decide, by decide, by decide, by decide, by decide, by decide, by decide⟩

end LightHouse
